import Mathlib

/-!
Verification development for the AnySound-Sequencer MIDI codec, converter,
audio mixdown and WAV encoder (`src/midi.ts`, `src/main.ts`, `src/wav.worker.ts`).

Shallow embedding conventions:
* A `Uint8Array` is a `List Nat` whose entries are byte values (`< 256`); the
  writer masks every store with `&&& 0xFF` exactly where a JS `Uint8Array`
  store truncates.
* A JS number read from an array that may be out of range is an `Option Nat`
  (`none` models `undefined`); every comparison against `undefined` in JS is
  false, which the `opt*` helpers reproduce.  Where JS coerces `undefined`
  through a bitwise operator (yielding 0) the model uses `Option.getD 0`.
* Fractional JS numbers (tick positions, beats, seconds, PCM samples) are `ℚ`.
  All arithmetic the theorems rely on is exact in IEEE double precision
  (integers below 2^53, sums/differences thereof, and float32 values scaled by
  0x7FFF/0x8000), so the rational model agrees with the JS computation there.
* `Math.round x = ⌊x + 1/2⌋` (JS rounds half toward +∞), `Math.ceil = ⌈·⌉`,
  `Math.floor = ⌊·⌋`.
* JS `x >> k` / `x >>> k` on the Nat-valued quantities used here coincide with
  `Nat.shiftRight`; the model is stated for that (non-negative, below 2^31)
  range, which every theorem's hypotheses maintain.
* While-loops are modelled with an explicit fuel argument; the fuel passed at
  each call site is proven (or immediately seen) sufficient, so the fuelled
  function agrees with the JS loop, which always terminates.
-/

/-- JS `Math.round`: rounds half toward positive infinity. -/
def jsRound (q : ℚ) : ℤ := ⌊q + 1/2⌋

/-- JS comparison `a < b` where `a` may be `undefined` (always false then). -/
def optLt (a : Option Nat) (b : Nat) : Bool :=
  match a with
  | some x => x < b
  | none => false

/-- JS test `lo ≤ a && a ≤ hi` where `a` may be `undefined`. -/
def optInRange (a : Option Nat) (lo hi : Nat) : Bool :=
  match a with
  | some x => lo ≤ x && x ≤ hi
  | none => false

/-- JS strict equality `a === b` against a number literal. -/
def optIs (a : Option Nat) (b : Nat) : Bool :=
  match a with
  | some x => x == b
  | none => false

/-- The event kinds of the `MidiEvent` interface in `midi.ts`. -/
inductive MidiEventType where
  | noteOn
  | noteOff
  | meta
  | sysex
  | controller
  | programChange
  | unknown
deriving DecidableEq, Repr

/-- `MidiEvent` from `midi.ts`: an ad hoc object with optional fields.
`deltaTime` is a JS number (fractional values arise in the converter). -/
structure MidiEvent where
  deltaTime : ℚ
  type : MidiEventType
  channel : Option Nat := none
  note : Option Nat := none
  velocity : Option Nat := none
  controller : Option Nat := none
  value : Option Nat := none
  metaType : Option Nat := none
  data : Option (List Nat) := none
  program : Option Nat := none
deriving DecidableEq, Repr

/-- `MidiTrack` from `midi.ts`. -/
structure MidiTrack where
  events : List MidiEvent
deriving DecidableEq, Repr

/-- `MidiFile` from `midi.ts`. -/
structure MidiFile where
  format : Nat
  tracks : List MidiTrack
  ticksPerQuarter : Nat
deriving DecidableEq, Repr

/-- The abnormal terminations of `MidiParser.parse`: the three explicit
`throw new Error(...)` sites, plus the implicit `TypeError` raised inside
`parseTrack` when a status read past the end of the track data leaves
`status` undefined and the unknown-status branch evaluates
`status.toString(16)`. -/
inductive MidiErr where
  | invalidHeader
  | invalidHeaderLength
  | invalidTrackChunk (i : Nat)
  | typeError
deriving DecidableEq, Repr

/-- One iteration step of the `while (bytesRead < 4)` loop of
`MidiParser.readVariableLength`, with the remaining iteration count as fuel.
An out-of-range `data[pos + bytesRead]` is `undefined`; both
`undefined & 0x7F` and `undefined & 0x80` are 0 in JS, so the read byte is
modelled as `getD 0`. -/
def readVLQgo (data : List Nat) (pos : Nat) : Nat → Nat → Nat → Nat × Nat
  | 0, value, bytesRead => (value, bytesRead)
  | fuel + 1, value, bytesRead =>
    let byte := (data.get? (pos + bytesRead)).getD 0
    let value' := (value <<< 7) ||| (byte &&& 0x7F)
    if byte &&& 0x80 = 0 then (value', bytesRead + 1)
    else readVLQgo data pos fuel value' (bytesRead + 1)

/-- `MidiParser.readVariableLength`: returns `(value, bytesRead)`. -/
def readVariableLength (data : List Nat) (pos : Nat) : Nat × Nat :=
  readVLQgo data pos 4 0 0

/-- The per-event body of the `while` loop in `MidiParser.parseTrack`, after
the delta time has been read: resolves running status, dispatches on the
status byte and returns `(event, new pos, new runningStatus)`.  `rs` is the
current `runningStatus` (an `Option Nat` because the JS variable is assigned
`data[pos]`, which can be `undefined` past the end of the data).

CAUTION: this is a TOTALIZATION of the source.  When `status` resolves to
`undefined` (the status read was past the end of the data), the source's
unknown-status branch evaluates `status.toString(16)` and throws a
`TypeError`; this function instead returns an `unknown` event.
`parseEventE` below models the crash exactly, and `parseEventE_agree` proves
the two agree on every input where the source does not crash — the theorems
stated over `parseEvent`/`parseTrack`/`parse` stay on such inputs. -/
def parseEvent (data : List Nat) (dt : ℚ) (pos0 : Nat) (rs : Option Nat) :
    MidiEvent × Nat × Option Nat :=
  let status0 : Option Nat := data.get? pos0
  -- `if (status < 0x80)`: false when `status` is undefined
  let useRunning : Bool := optLt status0 0x80
  let status : Option Nat := if useRunning then rs else status0
  let pos := if useRunning then pos0 else pos0 + 1
  let rs' : Option Nat := if useRunning then rs else status0
  if optInRange status 0x80 0x8F then
    ({ deltaTime := dt, type := .noteOff, channel := status.map (· &&& 0x0F),
       note := data.get? pos, velocity := data.get? (pos + 1) }, pos + 2, rs')
  else if optInRange status 0x90 0x9F then
    let vel := data.get? (pos + 1)
    ({ deltaTime := dt,
       type := if vel = some 0 then .noteOff else .noteOn,
       channel := status.map (· &&& 0x0F),
       note := data.get? pos, velocity := vel }, pos + 2, rs')
  else if optInRange status 0xB0 0xBF then
    ({ deltaTime := dt, type := .controller, channel := status.map (· &&& 0x0F),
       controller := data.get? pos, value := data.get? (pos + 1) }, pos + 2, rs')
  else if optIs status 0xFF then
    let metaType := data.get? pos
    let len := readVariableLength data (pos + 1)
    ({ deltaTime := dt, type := .meta, metaType := metaType,
       data := some ((data.drop (pos + 1 + len.2)).take len.1) },
     pos + 1 + len.2 + len.1, rs')
  else if optInRange status 0xC0 0xCF then
    ({ deltaTime := dt, type := .programChange, channel := status.map (· &&& 0x0F),
       program := data.get? pos }, pos + 1, rs')
  else if optInRange status 0xE0 0xEF then
    let lsb := data.get? pos
    let msb := data.get? (pos + 1)
    ({ deltaTime := dt, type := .controller, channel := status.map (· &&& 0x0F),
       value := some (((msb.getD 0) <<< 7) ||| (lsb.getD 0)) }, pos + 2, rs')
  else if optIs status 0xF0 || optIs status 0xF7 then
    let len := readVariableLength data pos
    ({ deltaTime := dt, type := .sysex,
       data := some ((data.drop (pos + len.2)).take len.1) },
     pos + len.2 + len.1, rs')
  else
    ({ deltaTime := dt, type := .unknown }, pos + 1, rs')

/-- The `while (pos < data.length)` loop of `MidiParser.parseTrack`.  Each
iteration advances `pos` by at least one byte (the delta-time read always
consumes a byte), so `data.length + 1` fuel is always sufficient. -/
def parseTrackGo (data : List Nat) : Nat → Nat → Option Nat → List MidiEvent → List MidiEvent
  | 0, _, _, acc => acc.reverse
  | fuel + 1, pos, rs, acc =>
    if pos < data.length then
      let dt := readVariableLength data pos
      let step := parseEvent data (dt.1 : ℚ) (pos + dt.2) rs
      parseTrackGo data fuel step.2.1 step.2.2 (step.1 :: acc)
    else acc.reverse

/-- `MidiParser.parseTrack` (the JS `runningStatus` starts as the number 0). -/
def parseTrack (data : List Nat) : MidiTrack :=
  ⟨parseTrackGo data (data.length + 1) 0 (some 0) []⟩

/-- `MidiParser.readUint16` (big-endian; `undefined` bytes coerce to 0). -/
def readUint16 (data : List Nat) (offset : Nat) : Nat :=
  ((data.get? offset).getD 0) * 256 + ((data.get? (offset + 1)).getD 0)

/-- `MidiParser.readUint32` (big-endian; on byte values the shift/or/`>>> 0`
dance equals the base-256 value). -/
def readUint32 (data : List Nat) (pos : Nat) : Nat :=
  ((data.get? pos).getD 0) * 2 ^ 24 + ((data.get? (pos + 1)).getD 0) * 2 ^ 16 +
    ((data.get? (pos + 2)).getD 0) * 2 ^ 8 + ((data.get? (pos + 3)).getD 0)

/-- `MidiParser.readChunk`: returns `(type bytes, chunk data, new pos)`.
`Uint8Array.slice` clamps to the available bytes, hence `drop`/`take`. -/
def readChunk (data : List Nat) (pos : Nat) : List Nat × List Nat × Nat :=
  let type := (data.drop pos).take 4
  let length := readUint32 data (pos + 4)
  (type, (data.drop (pos + 8)).take length, pos + 8 + length)

/-- The track-reading loop of `MidiParser.parse` (`trackCount` iterations). -/
def parseTracksGo (data : List Nat) : Nat → Nat → Nat → List MidiTrack →
    Except MidiErr (List MidiTrack)
  | 0, _, _, acc => .ok acc.reverse
  | n + 1, pos, i, acc =>
    let c := readChunk data pos
    if c.1 = [0x4D, 0x54, 0x72, 0x6B] then
      parseTracksGo data n c.2.2 (i + 1) (parseTrack c.2.1 :: acc)
    else .error (.invalidTrackChunk i)

/-- `MidiParser.parse`. -/
def parse (data : List Nat) : Except MidiErr MidiFile :=
  let header := readChunk data 0
  if header.1 ≠ [0x4D, 0x54, 0x68, 0x64] then .error .invalidHeader
  else if header.2.1.length ≠ 6 then .error .invalidHeaderLength
  else
    let format := readUint16 header.2.1 0
    let trackCount := readUint16 header.2.1 2
    let division := readUint16 header.2.1 4
    match parseTracksGo data trackCount header.2.2 0 [] with
    | .ok tracks => .ok { format := format, tracks := tracks, ticksPerQuarter := division }
    | .error e => .error e

/-- `parseEvent` with the source's crash modelled exactly: when the resolved
`status` is `undefined`, the source's final `else` branch throws a
`TypeError` from `status.toString(16)`; here that is `.error ()`.  Every
other branch is the same total computation as `parseEvent`. -/
def parseEventE (data : List Nat) (dt : ℚ) (pos0 : Nat) (rs : Option Nat) :
    Except Unit (MidiEvent × Nat × Option Nat) :=
  let status0 : Option Nat := data.get? pos0
  let useRunning : Bool := optLt status0 0x80
  let status : Option Nat := if useRunning then rs else status0
  let pos := if useRunning then pos0 else pos0 + 1
  let rs' : Option Nat := if useRunning then rs else status0
  if optInRange status 0x80 0x8F then
    .ok ({ deltaTime := dt, type := .noteOff, channel := status.map (· &&& 0x0F),
           note := data.get? pos, velocity := data.get? (pos + 1) }, pos + 2, rs')
  else if optInRange status 0x90 0x9F then
    let vel := data.get? (pos + 1)
    .ok ({ deltaTime := dt,
           type := if vel = some 0 then .noteOff else .noteOn,
           channel := status.map (· &&& 0x0F),
           note := data.get? pos, velocity := vel }, pos + 2, rs')
  else if optInRange status 0xB0 0xBF then
    .ok ({ deltaTime := dt, type := .controller, channel := status.map (· &&& 0x0F),
           controller := data.get? pos, value := data.get? (pos + 1) }, pos + 2, rs')
  else if optIs status 0xFF then
    let metaType := data.get? pos
    let len := readVariableLength data (pos + 1)
    .ok ({ deltaTime := dt, type := .meta, metaType := metaType,
           data := some ((data.drop (pos + 1 + len.2)).take len.1) },
         pos + 1 + len.2 + len.1, rs')
  else if optInRange status 0xC0 0xCF then
    .ok ({ deltaTime := dt, type := .programChange, channel := status.map (· &&& 0x0F),
           program := data.get? pos }, pos + 1, rs')
  else if optInRange status 0xE0 0xEF then
    let lsb := data.get? pos
    let msb := data.get? (pos + 1)
    .ok ({ deltaTime := dt, type := .controller, channel := status.map (· &&& 0x0F),
           value := some (((msb.getD 0) <<< 7) ||| (lsb.getD 0)) }, pos + 2, rs')
  else if optIs status 0xF0 || optIs status 0xF7 then
    let len := readVariableLength data pos
    .ok ({ deltaTime := dt, type := .sysex,
           data := some ((data.drop (pos + len.2)).take len.1) },
         pos + len.2 + len.1, rs')
  else
    match status with
    | none => .error ()
    | some _ => .ok ({ deltaTime := dt, type := .unknown }, pos + 1, rs')

/-- The `parseTrack` loop with the `TypeError` propagated instead of
collapsed. -/
def parseTrackGoE (data : List Nat) : Nat → Nat → Option Nat → List MidiEvent →
    Except Unit (List MidiEvent)
  | 0, _, _, acc => .ok acc.reverse
  | fuel + 1, pos, rs, acc =>
    if pos < data.length then
      let dt := readVariableLength data pos
      match parseEventE data (dt.1 : ℚ) (pos + dt.2) rs with
      | .error e => .error e
      | .ok step => parseTrackGoE data fuel step.2.1 step.2.2 (step.1 :: acc)
    else .ok acc.reverse

/-- `MidiParser.parseTrack` with the crash modelled: `.error ()` when some
status read lands past the end of the track data and the unknown branch
throws. -/
def parseTrackE (data : List Nat) : Except Unit MidiTrack :=
  match parseTrackGoE data (data.length + 1) 0 (some 0) [] with
  | .error e => .error e
  | .ok evs => .ok ⟨evs⟩

/-- The track-chunk loop of `parse` with the `TypeError` propagated. -/
def parseTracksGoE (data : List Nat) : Nat → Nat → Nat → List MidiTrack →
    Except MidiErr (List MidiTrack)
  | 0, _, _, acc => .ok acc.reverse
  | n + 1, pos, i, acc =>
    let c := readChunk data pos
    if c.1 = [0x4D, 0x54, 0x72, 0x6B] then
      match parseTrackE c.2.1 with
      | .error _ => .error .typeError
      | .ok t => parseTracksGoE data n c.2.2 (i + 1) (t :: acc)
    else .error (.invalidTrackChunk i)

/-- `MidiParser.parse` with every abnormal termination of the source
modelled: the three format errors plus the `TypeError` from `parseTrack`. -/
def parseE (data : List Nat) : Except MidiErr MidiFile :=
  let header := readChunk data 0
  if header.1 ≠ [0x4D, 0x54, 0x68, 0x64] then .error .invalidHeader
  else if header.2.1.length ≠ 6 then .error .invalidHeaderLength
  else
    let format := readUint16 header.2.1 0
    let trackCount := readUint16 header.2.1 2
    let division := readUint16 header.2.1 4
    match parseTracksGoE data trackCount header.2.2 0 [] with
    | .ok tracks => .ok { format := format, tracks := tracks, ticksPerQuarter := division }
    | .error e => .error e

/-- Continuation bytes produced by the `while (value > 0x7F)` loop of
`MidiWriter.writeVariableLength`, applied to the already-shifted value `m`
(i.e. the original value `>> 7`).  Each pass shifts, then `unshift`s
`(value & 0x7F) | 0x80`; the result lists the bytes most significant first.
`fuel ≥ m` always suffices since the value strictly shrinks. -/
def vlqHigh : Nat → Nat → List Nat
  | 0, m => [(m &&& 0x7F) ||| 0x80]
  | fuel + 1, m =>
    (if 0x7F < m then vlqHigh fuel (m >>> 7) else []) ++ [(m &&& 0x7F) ||| 0x80]

/-- `MidiWriter.writeVariableLength` restricted to natural-number inputs. -/
def writeVLQnat (n : Nat) : List Nat :=
  if n ≤ 0x7F then [n &&& 0x7F]
  else vlqHigh (n >>> 7) (n >>> 7) ++ [n &&& 0x7F]

/-- `MidiWriter.writeVariableLength` on a JS number: the first `& 0x7F` and the
first loop test see the possibly fractional value (`ToInt32` truncates toward
zero, i.e. `⌊·⌋` on the non-negative values that occur); afterwards the value
is integral. -/
def writeVariableLength (v : ℚ) : List Nat :=
  let n := (⌊v⌋).toNat
  if v ≤ 0x7F then [n &&& 0x7F]
  else vlqHigh (n >>> 7) (n >>> 7) ++ [n &&& 0x7F]

/-- The event-byte portion (status + data bytes) that `MidiWriter.writeTrack`
emits after the delta time.  Only `noteOn`, `noteOff`, `controller` and `meta`
produce bytes; every other kind emits nothing.  Stores into the freshly
allocated `Uint8Array`s truncate to a byte, hence the `&&& 0xFF` masks; the
`x || 0` defaulting of optional fields is `Option.getD 0`. -/
def eventBytes (e : MidiEvent) : List Nat :=
  match e.type with
  | .noteOn => [(0x90 ||| e.channel.getD 0) &&& 0xFF, e.note.getD 0 &&& 0xFF,
                e.velocity.getD 0 &&& 0xFF]
  | .noteOff => [(0x80 ||| e.channel.getD 0) &&& 0xFF, e.note.getD 0 &&& 0xFF,
                 e.velocity.getD 0 &&& 0xFF]
  | .controller => [(0xB0 ||| e.channel.getD 0) &&& 0xFF, e.controller.getD 0 &&& 0xFF,
                    e.value.getD 0 &&& 0xFF]
  | .meta =>
    [0xFF, e.metaType.getD 0 &&& 0xFF] ++
      writeVariableLength (((e.data.getD []).length : ℚ)) ++
      (e.data.getD []).map (· &&& 0xFF)
  | _ => []

/-- `MidiWriter.writeTrack`: for every event, the delta-time VLQ is pushed,
then the event bytes (empty for sysex/programChange/unknown); all pieces are
concatenated. -/
def writeTrack (track : MidiTrack) : List Nat :=
  (track.events.map (fun e => writeVariableLength e.deltaTime ++ eventBytes e)).flatten

/-- `MidiWriter.writeUint16` (big-endian bytes of a value below 2^31). -/
def writeUint16 (v : Nat) : List Nat :=
  [(v >>> 8) &&& 0xFF, v &&& 0xFF]

/-- `MidiWriter.writeUint32` (big-endian bytes of a value below 2^31). -/
def writeUint32 (v : Nat) : List Nat :=
  [(v >>> 24) &&& 0xFF, (v >>> 16) &&& 0xFF, (v >>> 8) &&& 0xFF, v &&& 0xFF]

/-- `MidiWriter.createChunk`: 4 ASCII id bytes, big-endian length, payload. -/
def createChunk (type : List Nat) (data : List Nat) : List Nat :=
  type ++ writeUint32 data.length ++ data

/-- `MidiWriter.write`. -/
def write (midiFile : MidiFile) : List Nat :=
  createChunk [0x4D, 0x54, 0x68, 0x64]
      (writeUint16 midiFile.format ++ writeUint16 midiFile.tracks.length ++
        writeUint16 midiFile.ticksPerQuarter) ++
    (midiFile.tracks.map (fun t => createChunk [0x4D, 0x54, 0x72, 0x6B] (writeTrack t))).flatten

/-- A sequencer note as `MidiConverter` consumes it (the impure string `id`
field, built from `Date.now()`/`Math.random()` and never read by the logic
under verification, is omitted). -/
structure SeqNote where
  track : Nat
  pitch : Nat
  start : ℚ
  length : ℚ
  velocity : Nat
deriving DecidableEq, Repr

/-- A sequencer beat (again without the impure `id`). -/
structure SeqBeat where
  track : Nat
  position : ℚ
  velocity : Nat
deriving DecidableEq, Repr

/-- `MidiConverter.createTempoData`: 3 big-endian bytes of
`round(60000000/bpm)`.  The bit operations are modelled for positive `bpm`
(so the rounded value is a non-negative number below 2^31 whenever
`bpm ≥ 1/35`, covering every theorem's use). -/
def createTempoData (bpm : ℚ) : List Nat :=
  let mpq := (jsRound (60000000 / bpm)).toNat
  [(mpq >>> 16) &&& 0xFF, (mpq >>> 8) &&& 0xFF, mpq &&& 0xFF]

/-- The end-of-track meta event the converter appends. -/
def eotEvent : MidiEvent :=
  { deltaTime := 0, type := .meta, metaType := some 0x2F, data := some [] }

/-- The delta-time rewriting loop of `sequencerToMidi`: events currently carry
absolute ticks in `deltaTime`; replace each with the difference from the
previous absolute time. -/
def deltaEncode (last : ℚ) : List MidiEvent → List MidiEvent
  | [] => []
  | e :: rest => { e with deltaTime := e.deltaTime - last } :: deltaEncode e.deltaTime rest

/-- `MidiConverter.sequencerToMidi`.  JS `Map` keys enumerate in insertion
order (`dedup` keeps first occurrences) and `Array.prototype.sort` with a
numeric comparator is an ascending stable sort, modelled by `mergeSort`. -/
def sequencerToMidi (notes : List SeqNote) (beats : List SeqBeat)
    (bpm : ℚ) (ticksPerQuarter : Nat) : MidiFile :=
  let ticksPerBeat := ticksPerQuarter
  let tempoTrack : MidiTrack :=
    ⟨[{ deltaTime := 0, type := .meta, metaType := some 0x51,
        data := some (createTempoData bpm) }, eotEvent]⟩
  let noteTracks : List MidiTrack :=
    if notes.length > 0 then
      let trackNumbers := ((notes.map (·.track)).dedup).mergeSort (· ≤ ·)
      trackNumbers.map (fun tn =>
        let trackEvents := (notes.filter (·.track = tn)).flatMap (fun note =>
          [{ deltaTime := ((jsRound (note.start * ticksPerBeat) : ℤ) : ℚ),
             type := .noteOn, channel := some note.track,
             note := some note.pitch, velocity := some note.velocity },
           { deltaTime := ((jsRound ((note.start + note.length) * ticksPerBeat) : ℤ) : ℚ),
             type := .noteOff, channel := some note.track,
             note := some note.pitch, velocity := some 0 }])
        let sorted := trackEvents.mergeSort (fun a b => a.deltaTime ≤ b.deltaTime)
        ⟨deltaEncode 0 sorted ++ [eotEvent]⟩)
    else []
  let beatTracks : List MidiTrack :=
    if beats.length > 0 then
      let events := beats.flatMap (fun beat =>
        let startTicks : ℚ := ((jsRound (beat.position * ticksPerBeat) : ℤ) : ℚ)
        let percussionNote := if beat.track = 1 then 36 else 38
        [{ deltaTime := startTicks, type := .noteOn, channel := some 9,
           note := some percussionNote, velocity := some beat.velocity },
         { deltaTime := startTicks + (ticksPerBeat : ℚ) / 8, type := .noteOff,
           channel := some 9, note := some percussionNote, velocity := some 0 }])
      let sorted := events.mergeSort (fun a b => a.deltaTime ≤ b.deltaTime)
      [⟨deltaEncode 0 sorted ++ [eotEvent]⟩]
    else []
  { format := 1, tracks := tempoTrack :: (noteTracks ++ beatTracks),
    ticksPerQuarter := ticksPerQuarter }

/-- `MidiConverter.extractBpmFromTempoData`.  With a 3-byte payload the ors of
shifted bytes form the base-256 value; a zero payload would divide by zero
(JS yields `Infinity`, a case no theorem touches — `ℚ` division returns 0). -/
def extractBpmFromTempoData (data : List Nat) : ℚ :=
  if data.length ≠ 3 then 120
  else
    let mpq := ((data.getD 0 0) <<< 16) ||| ((data.getD 1 0) <<< 8) ||| (data.getD 2 0)
    ((jsRound (60000000 / (mpq : ℚ)) : ℤ) : ℚ)

/-- Association-list lookup modelling `Map.get` / indexed-object read. -/
def alGet {β : Type} (m : List (Nat × β)) (k : Nat) : Option β :=
  match m with
  | [] => none
  | (k', v) :: t => if k' = k then some v else alGet t k

/-- `Map.set`: update in place if the key exists, else append. -/
def alSet {β : Type} (m : List (Nat × β)) (k : Nat) (v : β) : List (Nat × β) :=
  match m with
  | [] => [(k, v)]
  | (k', v') :: t => if k' = k then (k, v) :: t else (k', v') :: alSet t k v

/-- `Map.delete`. -/
def alErase {β : Type} (m : List (Nat × β)) (k : Nat) : List (Nat × β) :=
  match m with
  | [] => []
  | (k', v') :: t => if k' = k then t else (k', v') :: alErase t k

/-- The cross-track accumulator of `MidiConverter.midiToSequencer`. -/
structure MtsState where
  notes : List SeqNote
  beats : List SeqBeat
  instrumentCodes : List (Nat × Nat)
  bpm : ℚ
  bpmConfirmed : Bool
  detectedEnd : ℚ
deriving DecidableEq, Repr

/-- The per-track state of `midiToSequencer`: running tick counter and the
channel → note → `{start, velocity}` map of open notes. -/
structure MtsTrackState where
  ticks : ℚ
  active : List (Nat × List (Nat × (ℚ × Nat)))
deriving DecidableEq, Repr

/-- The result record of `midiToSequencer` (again without impure `id`s). -/
structure SeqData where
  notes : List SeqNote
  beats : List SeqBeat
  instrumentCodes : List (Nat × Nat)
  bpm : ℚ
  gridSize : ℤ
deriving DecidableEq, Repr

/-- The body of the event loop of `midiToSequencer` (one event), mirroring the
if/else-if chain of the source. -/
def mtsEvent (tpb : ℚ) (st : MtsState) (tr : MtsTrackState) (e : MidiEvent) :
    MtsState × MtsTrackState :=
  let currentTicks := tr.ticks + e.deltaTime
  let currentBeats := currentTicks / tpb
  let tr := { tr with ticks := currentTicks }
  if e.type = .meta ∧ e.metaType = some 0x51 ∧ e.data ≠ none then
    (if st.bpmConfirmed then st
     else { st with bpm := extractBpmFromTempoData (e.data.getD []) }, tr)
  else if e.type = .noteOn ∧ e.note ≠ none ∧ e.velocity ≠ none ∧ 0 < e.velocity.getD 0 then
    let channel := e.channel.getD 0
    let channelNotes := (alGet tr.active channel).getD []
    ({ st with bpmConfirmed := true },
     { tr with active := (alSet tr.active channel
        (alSet channelNotes (e.note.getD 0) (currentBeats, e.velocity.getD 0))) })
  else if (e.type = .noteOff ∨ (e.type = .noteOn ∧ e.velocity = some 0)) ∧ e.note ≠ none then
    let channel := e.channel.getD 0
    match alGet tr.active channel with
    | none => (st, tr)
    | some channelNotes =>
      match alGet channelNotes (e.note.getD 0) with
      | none => (st, tr)
      | some noteInfo =>
        let length := max (1/10 : ℚ) (currentBeats - noteInfo.1)
        let st :=
          if channel = 9 then
            { st with beats := (st.beats ++
              [{ track := if e.note.getD 0 = 36 then 1 else 0,
                 position := noteInfo.1, velocity := noteInfo.2 }]) }
          else
            { st with notes := (st.notes ++
              [{ track := channel, pitch := e.note.getD 0, start := noteInfo.1,
                 length := length, velocity := noteInfo.2 }]) }
        (st, { tr with active := (alSet tr.active channel
          (alErase channelNotes (e.note.getD 0))) })
  else if e.type = .programChange ∧ e.program ≠ none then
    let channel := e.channel.getD 0
    if channel ≠ 9 ∧ (alGet st.instrumentCodes channel = none ∨
        alGet st.instrumentCodes channel = some 0) then
      ({ st with instrumentCodes := alSet st.instrumentCodes channel (e.program.getD 0) }, tr)
    else (st, tr)
  else if e.type = .meta ∧ e.metaType = some 0x2F then
    (if st.detectedEnd < currentBeats then { st with detectedEnd := currentBeats } else st, tr)
  else (st, tr)

/-- Folding `mtsEvent` over one track's events. -/
def mtsTrack (tpb : ℚ) (st : MtsState) (tr : MtsTrackState) :
    List MidiEvent → MtsState × MtsTrackState
  | [] => (st, tr)
  | e :: rest =>
    let p := mtsEvent tpb st tr e
    mtsTrack tpb p.1 p.2 rest

/-- Folding over all tracks (each track restarts ticks and the open-note map). -/
def mtsTracks (tpb : ℚ) (st : MtsState) : List MidiTrack → MtsState
  | [] => st
  | t :: rest => mtsTracks tpb (mtsTrack tpb st ⟨0, []⟩ t.events).1 rest

/-- `MidiConverter.midiToSequencer`. -/
def midiToSequencer (midiFile : MidiFile) : SeqData :=
  let ticksPerBeat := (midiFile.ticksPerQuarter : ℚ)
  let final := mtsTracks ticksPerBeat
    { notes := [], beats := [], instrumentCodes := [], bpm := 120,
      bpmConfirmed := false, detectedEnd := 0 } midiFile.tracks
  { notes := final.notes, beats := final.beats,
    instrumentCodes := final.instrumentCodes, bpm := final.bpm,
    gridSize := ⌈final.detectedEnd⌉ }

/-! Bit-arithmetic helpers used throughout. -/

theorem and127_eq_mod (m : Nat) : m &&& 0x7F = m % 128 :=
  Nat.and_pow_two_sub_one_eq_mod m 7

theorem and255_eq_mod (m : Nat) : m &&& 0xFF = m % 256 :=
  Nat.and_pow_two_sub_one_eq_mod m 8

theorem and65535_eq_mod (m : Nat) : m &&& 0xFFFF = m % 65536 :=
  Nat.and_pow_two_sub_one_eq_mod m 16

theorem shiftRight7_eq_div (m : Nat) : m >>> 7 = m / 128 :=
  Nat.shiftRight_eq_div_pow m 7

theorem lor128_eq_add (m : Nat) (h : m < 128) : m ||| 0x80 = 128 + m := by
  rw [Nat.lor_comm]
  have := Nat.mul_add_lt_is_or (i := 7) (b := m) h 1
  simpa using this.symm

theorem shiftLeft7_lor_eq (a b : Nat) (h : b < 128) : (a <<< 7) ||| b = a * 128 + b := by
  rw [Nat.shiftLeft_eq]
  have h' : b < 2 ^ 7 := h
  have := Nat.mul_add_lt_is_or (i := 7) h' a
  calc a * 2 ^ 7 ||| b = 2 ^ 7 * a ||| b := by ring_nf
    _ = 2 ^ 7 * a + b := this.symm
    _ = a * 128 + b := by ring

theorem and128_eq_zero {n : Nat} (h : n < 128) : n &&& 0x80 = 0 := by
  have h7 : n < 2 ^ 7 := h
  have : n &&& 0x80 = n &&& 2 ^ 7 := by norm_num
  rw [this, Nat.and_two_pow, Nat.testBit_lt_two_pow h7]
  rfl

theorem add128_and128 (m : Nat) (h : m < 128) : (128 + m) &&& 0x80 = 0x80 := by
  have : (128 + m) &&& 0x80 = (128 + m) &&& 2 ^ 7 := by norm_num
  rw [this, Nat.and_two_pow]
  have ht : (128 + m).testBit 7 = true := by
    rw [Nat.testBit_to_div_mod]
    have h1 : (128 + m) / 2 ^ 7 = 1 := by omega
    rw [h1]
    decide
  rw [ht]
  rfl

/-! VLQ encoder/decoder lemmas. -/

theorem vlqHigh_of_le (f m : Nat) (h : m ≤ 0x7F) : vlqHigh f m = [128 + m] := by
  have hm : m &&& 0x7F = m := by rw [and127_eq_mod]; omega
  have hl : m ||| 0x80 = 128 + m := lor128_eq_add m (by omega)
  cases f with
  | zero => simp [vlqHigh, hm, hl]
  | succ f => simp [vlqHigh, Nat.not_lt.mpr h, hm, hl]

theorem self_lt_128_pow (k : Nat) : k < 128 ^ (k + 1) :=
  lt_of_lt_of_le (Nat.lt_two_pow k)
    (le_trans (Nat.pow_le_pow_left (by norm_num) k) (Nat.pow_le_pow_right (by norm_num) (by omega)))

theorem vlqHigh_spec (m : Nat) : ∀ f, m < 128 ^ (f + 1) →
    1 ≤ (vlqHigh f m).length ∧ m < 128 ^ (vlqHigh f m).length ∧
    (1 ≤ m → 128 ^ ((vlqHigh f m).length - 1) ≤ m) ∧
    (∀ b ∈ vlqHigh f m, 0x80 ≤ b ∧ b ≤ 0xFF) := by
  induction m using Nat.strong_induction_on with
  | _ m ih =>
    intro f hf
    by_cases hm : m ≤ 0x7F
    · rw [vlqHigh_of_le f m hm]
      refine ⟨by simp, by simpa using (by omega : m < 128 ^ 1), fun _ => by simpa using (by omega : 1 ≤ 128 + m - 128), ?_⟩
      intro b hb
      simp only [List.mem_singleton] at hb
      omega
    · push_neg at hm
      obtain ⟨f', rfl⟩ : ∃ f', f = f' + 1 := by
        cases f with
        | zero => exfalso; norm_num at hf; omega
        | succ f' => exact ⟨f', rfl⟩
      have hdiv : m / 128 < 128 ^ (f' + 1) := by
        rw [Nat.div_lt_iff_lt_mul (by norm_num)]
        calc m < 128 ^ (f' + 1 + 1) := hf
          _ = 128 ^ (f' + 1) * 128 := by ring
      have hlt : m / 128 < m := Nat.div_lt_self (by omega) (by norm_num)
      obtain ⟨ih1, ih2, ih3, ih4⟩ := ih (m / 128) hlt f' hdiv
      have hmod : m &&& 0x7F = m % 128 := and127_eq_mod m
      have hbyte : (m &&& 0x7F) ||| 0x80 = 128 + m % 128 := by
        rw [hmod]; exact lor128_eq_add _ (Nat.mod_lt _ (by norm_num))
      have hunfold : vlqHigh (f' + 1) m = vlqHigh f' (m / 128) ++ [128 + m % 128] := by
        simp only [vlqHigh, if_pos hm, hbyte, shiftRight7_eq_div]
      rw [hunfold]
      have hlen : (vlqHigh f' (m / 128) ++ [128 + m % 128]).length =
          (vlqHigh f' (m / 128)).length + 1 := by simp
      refine ⟨by simp, ?_, ?_, ?_⟩
      · rw [hlen, pow_succ]
        have h1 : m = 128 * (m / 128) + m % 128 := (Nat.div_add_mod m 128).symm
        have h2 : m % 128 < 128 := Nat.mod_lt _ (by norm_num)
        calc m = 128 * (m / 128) + m % 128 := h1
          _ < 128 * (m / 128) + 128 := by omega
          _ = (m / 128 + 1) * 128 := by ring
          _ ≤ 128 ^ (vlqHigh f' (m / 128)).length * 128 := by
              have : m / 128 + 1 ≤ 128 ^ (vlqHigh f' (m / 128)).length := ih2
              exact Nat.mul_le_mul_right _ this
      · intro _
        rw [hlen]
        have hd1 : 1 ≤ m / 128 := by
          have : 128 ≤ m := by omega
          exact Nat.one_le_div_iff (by norm_num) |>.mpr this
        have := ih3 hd1
        have hL : 1 ≤ (vlqHigh f' (m / 128)).length := ih1
        calc 128 ^ ((vlqHigh f' (m / 128)).length + 1 - 1) =
              128 ^ ((vlqHigh f' (m / 128)).length - 1) * 128 := by
                rw [← pow_succ]
                congr 1
                omega
          _ ≤ (m / 128) * 128 := Nat.mul_le_mul_right _ this
          _ ≤ m := by
              have := Nat.div_mul_le_self m 128
              omega
      · intro b hb
        rcases List.mem_append.mp hb with hb | hb
        · exact ih4 b hb
        · simp only [List.mem_singleton] at hb
          have : m % 128 < 128 := Nat.mod_lt _ (by norm_num)
          omega

theorem readVLQgo_high (data : List Nat) (pos : Nat) (m : Nat) : ∀ f, m < 128 ^ (f + 1) →
    ∀ value bR fuel rest, data.drop (pos + bR) = vlqHigh f m ++ rest →
    readVLQgo data pos ((vlqHigh f m).length + fuel) value bR =
      readVLQgo data pos fuel (value * 128 ^ (vlqHigh f m).length + m)
        (bR + (vlqHigh f m).length) := by
  induction m using Nat.strong_induction_on with
  | _ m ih =>
    intro f hf value bR fuel rest hdrop
    by_cases hm : m ≤ 0x7F
    · rw [vlqHigh_of_le f m hm] at hdrop ⊢
      simp only [List.length_singleton]
      have hget : data.get? (pos + bR) = some (128 + m) := by
        have := List.get?_drop data (pos + bR) 0
        rw [hdrop] at this
        simpa using this.symm
      have hstep : (1 : Nat) + fuel = fuel + 1 := by omega
      rw [hstep]
      show readVLQgo data pos (fuel + 1) value bR = _
      simp only [readVLQgo, hget, Option.getD_some]
      have hand : (128 + m) &&& 0x7F = m := by
        rw [and127_eq_mod]; omega
      have hflag : (128 + m) &&& 0x80 = 0x80 := add128_and128 m (by omega)
      rw [hand, hflag]
      simp only [if_neg (by omega : ¬(0x80 : Nat) = 0)]
      congr 1
      rw [shiftLeft7_lor_eq value m (by omega)]
      norm_num
    · push_neg at hm
      obtain ⟨f', rfl⟩ : ∃ f', f = f' + 1 := by
        cases f with
        | zero => exfalso; norm_num at hf; omega
        | succ f' => exact ⟨f', rfl⟩
      have hdiv : m / 128 < 128 ^ (f' + 1) := by
        rw [Nat.div_lt_iff_lt_mul (by norm_num)]
        calc m < 128 ^ (f' + 1 + 1) := hf
          _ = 128 ^ (f' + 1) * 128 := by ring
      have hlt : m / 128 < m := Nat.div_lt_self (by omega) (by norm_num)
      have hbyte : (m &&& 0x7F) ||| 0x80 = 128 + m % 128 := by
        rw [and127_eq_mod]; exact lor128_eq_add _ (Nat.mod_lt _ (by norm_num))
      have hunfold : vlqHigh (f' + 1) m = vlqHigh f' (m / 128) ++ [128 + m % 128] := by
        simp only [vlqHigh, if_pos hm, hbyte, shiftRight7_eq_div]
      rw [hunfold] at hdrop ⊢
      rw [List.append_assoc] at hdrop
      set L' := (vlqHigh f' (m / 128)).length with hL'
      have hIH := ih (m / 128) hlt f' hdiv value bR (1 + fuel) ([128 + m % 128] ++ rest) hdrop
      have hlen : (vlqHigh f' (m / 128) ++ [128 + m % 128]).length = L' + 1 := by simp
      rw [hlen]
      have harr : L' + 1 + fuel = L' + (1 + fuel) := by omega
      rw [harr, hIH]
      have hget : data.get? (pos + (bR + L')) = some (128 + m % 128) := by
        have h0 := List.get?_drop data (pos + bR) L'
        rw [hdrop] at h0
        have h1 : (vlqHigh f' (m / 128) ++ ([128 + m % 128] ++ rest)).get? L' = some (128 + m % 128) := by
          rw [List.get?_append_right (by omega)]
          simp
        rw [h1] at h0
        have harr2 : pos + (bR + L') = pos + bR + L' := by omega
        rw [harr2, ← h0]
      have hstep : (1 : Nat) + fuel = fuel + 1 := by omega
      rw [hstep]
      show readVLQgo data pos (fuel + 1) _ _ = _
      simp only [readVLQgo, hget, Option.getD_some]
      have hand : (128 + m % 128) &&& 0x7F = m % 128 := by
        rw [and127_eq_mod]; omega
      have hflag : (128 + m % 128) &&& 0x80 = 0x80 :=
        add128_and128 _ (Nat.mod_lt _ (by norm_num))
      rw [hand, hflag]
      simp only [if_neg (by omega : ¬(0x80 : Nat) = 0)]
      congr 1
      rw [shiftLeft7_lor_eq _ _ (Nat.mod_lt _ (by norm_num))]
      calc (value * 128 ^ L' + m / 128) * 128 + m % 128
          = value * (128 ^ L' * 128) + (128 * (m / 128) + m % 128) := by ring
        _ = value * (128 ^ L' * 128) + m := by rw [Nat.div_add_mod]
        _ = value * 128 ^ (L' + 1) + m := by rw [pow_succ]

theorem writeVLQnat_le (n : Nat) (h : n ≤ 0x7F) : writeVLQnat n = [n] := by
  unfold writeVLQnat
  rw [if_pos h, and127_eq_mod, Nat.mod_eq_of_lt (by omega)]

theorem writeVLQnat_gt (n : Nat) (h : 0x7F < n) :
    writeVLQnat n = vlqHigh (n / 128) (n / 128) ++ [n % 128] := by
  unfold writeVLQnat
  rw [if_neg (by omega), shiftRight7_eq_div, and127_eq_mod]

/-- Parsing the written VLQ of `n ≤ 0x0FFFFFFF` found at `pos` yields `n` and
consumes exactly the written bytes. -/
theorem readVLQ_write (data : List Nat) (pos n : Nat) (rest : List Nat)
    (hn : n ≤ 0x0FFFFFFF) (h : data.drop pos = writeVLQnat n ++ rest) :
    readVariableLength data pos = (n, (writeVLQnat n).length) := by
  by_cases hle : n ≤ 0x7F
  · rw [writeVLQnat_le n hle] at h ⊢
    have hget : data.get? (pos + 0) = some n := by
      have h0 := List.get?_drop data pos 0
      rw [h] at h0
      exact h0.symm
    show readVLQgo data pos 4 0 0 = (n, 1)
    simp only [readVLQgo, hget, Option.getD_some]
    have hand : n &&& 0x7F = n := by rw [and127_eq_mod]; omega
    have hflag : n &&& 0x80 = 0 := and128_eq_zero (by omega)
    rw [hand, hflag]
    simp only [if_pos rfl]
    rw [shiftLeft7_lor_eq 0 n (by omega)]
    norm_num
  · push_neg at hle
    rw [writeVLQnat_gt n hle] at h ⊢
    set m := n / 128 with hm
    have hmf : m < 128 ^ (m + 1) := self_lt_128_pow m
    obtain ⟨hL1, hL2, hL3, _⟩ := vlqHigh_spec m m hmf
    set L := (vlqHigh m m).length with hLdef
    have hm1 : 1 ≤ m := by
      have : 128 ≤ n := by omega
      exact Nat.one_le_div_iff (by norm_num) |>.mpr this
    have hL3' := hL3 hm1
    have hLle : L ≤ 3 := by
      by_contra hc
      push_neg at hc
      have h4 : 4 ≤ L := hc
      have : 128 ^ 3 ≤ 128 ^ (L - 1) := Nat.pow_le_pow_right (by norm_num) (by omega)
      have : 128 ^ 3 ≤ m := le_trans this hL3'
      have : n ≥ 128 ^ 3 * 128 := by
        have := Nat.div_mul_le_self n 128
        calc 128 ^ 3 * 128 ≤ m * 128 := Nat.mul_le_mul_right _ (by omega)
          _ = n / 128 * 128 := by rw [hm]
          _ ≤ n := Nat.div_mul_le_self n 128
      norm_num at this
      omega
    have h4 : (4 : Nat) = L + (4 - L) := by omega
    show readVLQgo data pos 4 0 0 = _
    rw [h4]
    rw [List.append_assoc] at h
    have hrd := readVLQgo_high data pos m m hmf 0 0 (4 - L) ([n % 128] ++ rest) (by simpa using h)
    rw [hrd]
    have hfuel : 4 - L = (4 - L - 1) + 1 := by omega
    have hget : data.get? (pos + (0 + L)) = some (n % 128) := by
      have h0 := List.get?_drop data pos L
      rw [h] at h0
      have h1 : (vlqHigh m m ++ ([n % 128] ++ rest)).get? L = some (n % 128) := by
        rw [List.get?_append_right (by omega)]
        simp
      rw [h1] at h0
      have harr2 : pos + (0 + L) = pos + L := by omega
      rw [harr2, ← h0]
    rw [hfuel]
    show readVLQgo data pos (_ + 1) _ _ = _
    simp only [readVLQgo, hget, Option.getD_some]
    have hand : n % 128 &&& 0x7F = n % 128 := by
      rw [and127_eq_mod]
      exact Nat.mod_eq_of_lt (Nat.mod_lt _ (by norm_num))
    have hflag : n % 128 &&& 0x80 = 0 := and128_eq_zero (Nat.mod_lt _ (by norm_num))
    rw [hand, hflag]
    simp only [if_pos rfl]
    rw [shiftLeft7_lor_eq _ _ (Nat.mod_lt _ (by norm_num))]
    have hval : (0 * 128 ^ L + m) * 128 + n % 128 = n := by
      have := Nat.div_add_mod n 128
      calc (0 * 128 ^ L + m) * 128 + n % 128 = 128 * (n / 128) + n % 128 := by rw [hm]; ring
        _ = n := Nat.div_add_mod n 128
    rw [hval]
    have hlen : (vlqHigh m m ++ [n % 128]).length = L + 1 := by simp
    rw [hlen]
    simp

theorem writeVariableLength_natCast (n : Nat) :
    writeVariableLength (n : ℚ) = writeVLQnat n := by
  unfold writeVariableLength writeVLQnat
  have h1 : ⌊(n : ℚ)⌋ = (n : ℤ) := Int.floor_natCast n
  by_cases h : n ≤ 0x7F
  · rw [if_pos (by exact_mod_cast h), if_pos h, h1]
    simp
  · rw [if_neg (by exact_mod_cast h), if_neg h, h1]
    simp

/-- C4: for every `n ∈ [0, 0x0FFFFFFF]`, decoding the VLQ encoding of `n`
returns `n` (and consumes exactly the encoded bytes); the encoding is
canonical: minimal length (`n < 128^len`, and `128^(len-1) ≤ n` unless the
encoding is a single byte), high bit set on every byte but the last, final
byte below `0x80`, and `0` encodes as the single byte `0x00`. -/
theorem claim_C4 (n : Nat) (h : n ≤ 0x0FFFFFFF) :
    readVariableLength (writeVariableLength (n : ℚ)) 0 =
      (n, (writeVariableLength (n : ℚ)).length) ∧
    writeVariableLength ((0 : Nat) : ℚ) = [0x00] ∧
    n < 128 ^ (writeVariableLength (n : ℚ)).length ∧
    ((writeVariableLength (n : ℚ)).length = 1 ∨
      128 ^ ((writeVariableLength (n : ℚ)).length - 1) ≤ n) ∧
    (∀ b ∈ (writeVariableLength (n : ℚ)).dropLast, 0x80 ≤ b ∧ b ≤ 0xFF) ∧
    (∀ b, (writeVariableLength (n : ℚ)).getLast? = some b → b < 0x80) := by
  rw [writeVariableLength_natCast]
  have hzero : writeVariableLength ((0 : Nat) : ℚ) = [0x00] := by
    rw [writeVariableLength_natCast, writeVLQnat_le 0 (by omega)]
  refine ⟨readVLQ_write (writeVLQnat n) 0 n [] h (by simp), hzero, ?_, ?_, ?_, ?_⟩
  all_goals by_cases hle : n ≤ 0x7F
  · rw [writeVLQnat_le n hle]
    simpa using (by omega : n < 128)
  case _ =>
    push_neg at hle
    rw [writeVLQnat_gt n hle]
    obtain ⟨hL1, hL2, hL3, hbytes⟩ := vlqHigh_spec (n / 128) (n / 128) (self_lt_128_pow _)
    have hlen : (vlqHigh (n / 128) (n / 128) ++ [n % 128]).length =
        (vlqHigh (n / 128) (n / 128)).length + 1 := by simp
    rw [hlen, pow_succ]
    have h1 : n = 128 * (n / 128) + n % 128 := (Nat.div_add_mod n 128).symm
    have h2 : n % 128 < 128 := Nat.mod_lt _ (by norm_num)
    calc n = 128 * (n / 128) + n % 128 := h1
      _ < 128 * (n / 128) + 128 := by omega
      _ = (n / 128 + 1) * 128 := by ring
      _ ≤ 128 ^ (vlqHigh (n / 128) (n / 128)).length * 128 :=
          Nat.mul_le_mul_right _ hL2
  · rw [writeVLQnat_le n hle]
    left
    simp
  case _ =>
    push_neg at hle
    rw [writeVLQnat_gt n hle]
    obtain ⟨hL1, hL2, hL3, hbytes⟩ := vlqHigh_spec (n / 128) (n / 128) (self_lt_128_pow _)
    right
    have hm1 : 1 ≤ n / 128 := Nat.one_le_div_iff (by norm_num) |>.mpr (by omega)
    have hL3' := hL3 hm1
    have hlen : (vlqHigh (n / 128) (n / 128) ++ [n % 128]).length =
        (vlqHigh (n / 128) (n / 128)).length + 1 := by simp
    rw [hlen]
    have harr : (vlqHigh (n / 128) (n / 128)).length + 1 - 1 =
        ((vlqHigh (n / 128) (n / 128)).length - 1) + 1 := by omega
    rw [harr, pow_succ]
    calc 128 ^ ((vlqHigh (n / 128) (n / 128)).length - 1) * 128 ≤ (n / 128) * 128 :=
        Nat.mul_le_mul_right _ hL3'
      _ ≤ n := Nat.div_mul_le_self n 128
  · rw [writeVLQnat_le n hle]
    intro b hb
    simp at hb
  case _ =>
    push_neg at hle
    rw [writeVLQnat_gt n hle]
    obtain ⟨hL1, hL2, hL3, hbytes⟩ := vlqHigh_spec (n / 128) (n / 128) (self_lt_128_pow _)
    intro b hb
    rw [List.dropLast_concat] at hb
    exact hbytes b hb
  · rw [writeVLQnat_le n hle]
    intro b hb
    simp at hb
    omega
  case _ =>
    push_neg at hle
    rw [writeVLQnat_gt n hle]
    intro b hb
    rw [List.getLast?_concat] at hb
    have h2 : n % 128 < 128 := Nat.mod_lt _ (by norm_num)
    simp at hb
    omega

/-- Witness for C4 at `n = 300` (`300 = 0b10_0101100` encodes as two bytes). -/
theorem claim_C4_witness :
    (300 : Nat) ≤ 0x0FFFFFFF ∧
    (readVariableLength (writeVariableLength ((300 : Nat) : ℚ)) 0 =
        (300, (writeVariableLength ((300 : Nat) : ℚ)).length) ∧
      writeVariableLength ((0 : Nat) : ℚ) = [0x00] ∧
      300 < 128 ^ (writeVariableLength ((300 : Nat) : ℚ)).length ∧
      ((writeVariableLength ((300 : Nat) : ℚ)).length = 1 ∨
        128 ^ ((writeVariableLength ((300 : Nat) : ℚ)).length - 1) ≤ 300) ∧
      (∀ b ∈ (writeVariableLength ((300 : Nat) : ℚ)).dropLast, 0x80 ≤ b ∧ b ≤ 0xFF) ∧
      (∀ b, (writeVariableLength ((300 : Nat) : ℚ)).getLast? = some b → b < 0x80)) :=
  ⟨by decide, claim_C4 300 (by decide)⟩

/-! C1: truncation behaviour of the parser. -/

deriving instance DecidableEq for Except

/-- A file with a valid 6-byte MThd header and one MTrk chunk whose declared
length (10) exceeds the bytes actually present (2); the parse still succeeds
(delta 0, then an explicit NoteOn status whose note and velocity reads are
past the end and stay `undefined`). -/
def c1bytes : List Nat :=
  [0x4D, 0x54, 0x68, 0x64, 0, 0, 0, 6, 0, 0, 0, 1, 1, 0xE0] ++
  [0x4D, 0x54, 0x72, 0x6B, 0, 0, 0, 10, 0x00, 0x90]

/-- A file with a valid header and one MTrk chunk whose declared length (10)
exceeds the single payload byte present; that byte is consumed as a delta
time, the status read is then past the end (`undefined`), and the source's
unknown-status branch throws a `TypeError` from `status.toString(16)`. -/
def c1crash : List Nat :=
  [0x4D, 0x54, 0x68, 0x64, 0, 0, 0, 6, 0, 0, 0, 1, 1, 0xE0] ++
  [0x4D, 0x54, 0x72, 0x6B, 0, 0, 0, 10, 0x00]

theorem parseTracksGo_shape (data : List Nat) :
    ∀ n pos i acc, (∃ ts, parseTracksGo data n pos i acc = .ok ts) ∨
      ∃ j, parseTracksGo data n pos i acc = .error (.invalidTrackChunk j) := by
  intro n
  induction n with
  | zero => intro pos i acc; exact Or.inl ⟨acc.reverse, rfl⟩
  | succ n ih =>
    intro pos i acc
    unfold parseTracksGo
    by_cases hc : (readChunk data pos).1 = [0x4D, 0x54, 0x72, 0x6B]
    · rw [if_pos hc]
      exact ih _ _ _
    · rw [if_neg hc]
      exact Or.inr ⟨i, rfl⟩

/-- C1 (amended): no read is bounds-checked against the declared chunk
length and no `TruncatedDataError` exists.  `readChunk` silently clamps the
declared length to the bytes actually available; a file whose chunk data
extends past the end of the buffer can parse SUCCESSFULLY (`c1bytes`:
10 bytes declared, 2 present, yields a `MidiFile` whose note-on has
`undefined` note and velocity), while a truncated track whose status read
lands past the end of the data fails with a `TypeError` (from
`status.toString(16)` on `undefined`) — in no case with a
`TruncatedDataError`. -/
theorem claim_C1 :
    (∀ data pos, ((readChunk data pos).2.1).length =
      min (readUint32 data (pos + 4)) (data.length - (pos + 8))) ∧
    parseE c1bytes = .ok
      ⟨0, [⟨[{ deltaTime := 0, type := .noteOn, channel := some 0,
               note := none, velocity := none }]⟩], 480⟩ ∧
    parseE c1crash = .error .typeError := by
  refine ⟨?_, by decide, by decide⟩
  intro data pos
  simp [readChunk]

/-- C1 counterexample: the declared track-chunk length of `c1bytes` is 10 but
only 2 payload bytes exist, yet the parse (in the crash-exact model `parseE`,
hence in the source) succeeds with a `MidiFile` whose truncated note-on event
has `undefined` note and velocity, instead of raising any error. -/
theorem claim_C1_counterexample :
    readUint32 c1bytes 18 = 10 ∧ c1bytes.length - 22 = 2 ∧
    parseE c1bytes = .ok
      ⟨0, [⟨[{ deltaTime := 0, type := .noteOn, channel := some 0,
               note := none, velocity := none }]⟩], 480⟩ := by
  decide

/-! C10: the writer emits a dangling delta time for sysex/programChange/unknown. -/

/-- C10: `MidiWriter.writeTrack` still emits the delta-time VLQ of a SysEx,
ProgramChange or Unknown event but no status or data bytes for it: the track
bytes around such an event are exactly the neighbouring events' bytes with
only the bare delta-time VLQ in between. -/
theorem claim_C10 (es fs : List MidiEvent) (e : MidiEvent)
    (h : e.type = .sysex ∨ e.type = .programChange ∨ e.type = .unknown) :
    writeTrack ⟨es ++ e :: fs⟩ =
      writeTrack ⟨es⟩ ++ (writeVariableLength e.deltaTime ++ writeTrack ⟨fs⟩) ∧
    eventBytes e = [] := by
  have hb : eventBytes e = [] := by
    rcases h with h | h | h <;> simp [eventBytes, h]
  refine ⟨?_, hb⟩
  unfold writeTrack
  simp [hb]

/-- Witness for C10: a track holding a single SysEx event with delta time 5
serializes to just the byte `0x05`. -/
theorem claim_C10_witness :
    writeTrack ⟨[] ++ { deltaTime := 5, type := .sysex, data := some [1, 2] } :: []⟩ =
      writeTrack ⟨[]⟩ ++
        (writeVariableLength (5 : ℚ) ++ writeTrack (⟨[]⟩ : MidiTrack)) ∧
    eventBytes { deltaTime := 5, type := .sysex, data := some [1, 2] } = [] :=
  claim_C10 [] [] _ (Or.inl rfl)

/-! C3: which tempo event determines the returned bpm. -/

/-- The NoteOn events that open a note in `midiToSequencer` (velocity > 0,
note and velocity defined). -/
def isOpeningNoteOn (e : MidiEvent) : Bool :=
  e.type == .noteOn && e.note != none && e.velocity != none &&
    decide (0 < e.velocity.getD 0)

/-- The Meta-Tempo events `midiToSequencer` inspects (metaType 0x51, payload
present). -/
def isTempoMeta (e : MidiEvent) : Bool :=
  e.type == .meta && e.metaType == some 0x51 && e.data != none

/-- The payloads of the Meta-Tempo events encountered strictly before the
first opening NoteOn of the event stream. -/
def tempoPayloadsBeforeFirstNoteOn (evs : List MidiEvent) : List (List Nat) :=
  ((evs.takeWhile (fun e => !isOpeningNoteOn e)).filter isTempoMeta).filterMap (·.data)

/-- Modelled from the amended claim: the bpm is decoded from the payload of
the last Meta-Tempo event encountered (in track order) before the first
NoteOn with positive velocity; 120 if there is none. -/
def bpmSpec (f : MidiFile) : ℚ :=
  match (tempoPayloadsBeforeFirstNoteOn ((f.tracks.map (·.events)).flatten)).getLast? with
  | some d => extractBpmFromTempoData d
  | none => 120

/-- The bpm/bpmConfirmed slice of one `mtsEvent` step. -/
def bpmStepQ (p : Bool × ℚ) (e : MidiEvent) : Bool × ℚ :=
  if e.type = .meta ∧ e.metaType = some 0x51 ∧ e.data ≠ none then
    (p.1, if p.1 then p.2 else extractBpmFromTempoData (e.data.getD []))
  else if e.type = .noteOn ∧ e.note ≠ none ∧ e.velocity ≠ none ∧ 0 < e.velocity.getD 0 then
    (true, p.2)
  else p

theorem mtsEvent_bpm (tpb : ℚ) (st : MtsState) (tr : MtsTrackState) (e : MidiEvent) :
    ((mtsEvent tpb st tr e).1.bpmConfirmed, (mtsEvent tpb st tr e).1.bpm) =
      bpmStepQ (st.bpmConfirmed, st.bpm) e := by
  simp only [mtsEvent, bpmStepQ]
  split_ifs <;> (try rfl) <;>
    (rcases h9 : alGet tr.active (e.channel.getD 0) with _ | channelNotes
     · simp [h9]
     · rcases h10 : alGet channelNotes (e.note.getD 0) with _ | noteInfo <;> simp [h9, h10])

theorem isOpeningNoteOn_iff (e : MidiEvent) : isOpeningNoteOn e = true ↔
    (e.type = .noteOn ∧ e.note ≠ none ∧ e.velocity ≠ none ∧ 0 < e.velocity.getD 0) := by
  simp [isOpeningNoteOn, and_assoc]

theorem isTempoMeta_iff (e : MidiEvent) : isTempoMeta e = true ↔
    (e.type = .meta ∧ e.metaType = some 0x51 ∧ e.data ≠ none) := by
  simp [isTempoMeta, and_assoc]

theorem mtsTrack_bpm (tpb : ℚ) (evs : List MidiEvent) : ∀ (st : MtsState) (tr : MtsTrackState),
    (((mtsTrack tpb st tr evs).1).bpmConfirmed, ((mtsTrack tpb st tr evs).1).bpm) =
      evs.foldl bpmStepQ (st.bpmConfirmed, st.bpm) := by
  induction evs with
  | nil => intro st tr; rfl
  | cons e rest ih =>
    intro st tr
    show (((mtsTrack tpb (mtsEvent tpb st tr e).1 (mtsEvent tpb st tr e).2 rest).1).bpmConfirmed,
        ((mtsTrack tpb (mtsEvent tpb st tr e).1 (mtsEvent tpb st tr e).2 rest).1).bpm) = _
    rw [ih ((mtsEvent tpb st tr e).1) ((mtsEvent tpb st tr e).2)]
    rw [List.foldl_cons, ← mtsEvent_bpm tpb st tr e]

theorem mtsTracks_bpm (tpb : ℚ) (ts : List MidiTrack) : ∀ (st : MtsState),
    ((mtsTracks tpb st ts).bpmConfirmed, (mtsTracks tpb st ts).bpm) =
      ((ts.map (·.events)).flatten).foldl bpmStepQ (st.bpmConfirmed, st.bpm) := by
  induction ts with
  | nil => intro st; rfl
  | cons t rest ih =>
    intro st
    show ((mtsTracks tpb (mtsTrack tpb st ⟨0, []⟩ t.events).1 rest).bpmConfirmed,
        (mtsTracks tpb (mtsTrack tpb st ⟨0, []⟩ t.events).1 rest).bpm) = _
    rw [ih, mtsTrack_bpm tpb t.events st ⟨0, []⟩]
    simp only [List.map_cons, List.flatten_cons, List.foldl_append]

theorem foldl_bpmStepQ_char (evs : List MidiEvent) : ∀ c b,
    (evs.foldl bpmStepQ (c, b)).2 =
      if c then b
      else
        match (tempoPayloadsBeforeFirstNoteOn evs).getLast? with
        | some d => extractBpmFromTempoData d
        | none => b := by
  induction evs with
  | nil =>
    intro c b
    cases c <;> simp [tempoPayloadsBeforeFirstNoteOn]
  | cons e rest ih =>
    intro c b
    rw [List.foldl_cons]
    by_cases h1 : e.type = .meta ∧ e.metaType = some 0x51 ∧ e.data ≠ none
    · have hnotopen : isOpeningNoteOn e = false := by
        rw [Bool.eq_false_iff, Ne, isOpeningNoteOn_iff]
        rintro ⟨ht, -⟩
        rw [h1.1] at ht
        exact absurd ht (by decide)
      have htempo : isTempoMeta e = true := (isTempoMeta_iff e).mpr h1
      obtain ⟨d, hd⟩ : ∃ d, e.data = some d := by
        cases he : e.data with
        | none => exact absurd he h1.2.2
        | some d => exact ⟨d, rfl⟩
      have hstep : bpmStepQ (c, b) e = (c, if c then b else extractBpmFromTempoData d) := by
        simp [bpmStepQ, h1, hd]
      rw [hstep]
      have hpayloads : tempoPayloadsBeforeFirstNoteOn (e :: rest) =
          d :: tempoPayloadsBeforeFirstNoteOn rest := by
        simp [tempoPayloadsBeforeFirstNoteOn, List.takeWhile_cons, hnotopen,
          List.filter_cons, htempo, hd]
      rw [hpayloads, ih]
      cases c with
      | true => simp
      | false =>
        simp only [Bool.false_eq_true, if_false]
        cases hl : tempoPayloadsBeforeFirstNoteOn rest with
        | nil => simp
        | cons x xs =>
          rw [List.getLast?_cons_cons]
          cases hgl : (x :: xs).getLast? with
          | none =>
            rw [List.getLast?_eq_none_iff] at hgl
            exact absurd hgl (by simp)
          | some y => rfl
    · by_cases h2 : e.type = .noteOn ∧ e.note ≠ none ∧ e.velocity ≠ none ∧ 0 < e.velocity.getD 0
      · have hopen : isOpeningNoteOn e = true := (isOpeningNoteOn_iff e).mpr h2
        have hstep : bpmStepQ (c, b) e = (true, b) := by
          simp [bpmStepQ, h1, h2]
        rw [hstep, ih]
        cases c with
        | true => simp
        | false =>
          have hpayloads : tempoPayloadsBeforeFirstNoteOn (e :: rest) = [] := by
            simp [tempoPayloadsBeforeFirstNoteOn, List.takeWhile_cons, hopen]
          rw [hpayloads]
          simp
      · have hnotopen : isOpeningNoteOn e = false := by
          rw [Bool.eq_false_iff, Ne, isOpeningNoteOn_iff]
          exact h2
        have hnottempo : isTempoMeta e = false := by
          rw [Bool.eq_false_iff, Ne, isTempoMeta_iff]
          exact h1
        have hstep : bpmStepQ (c, b) e = (c, b) := by
          simp [bpmStepQ, h1, h2]
        have hpayloads : tempoPayloadsBeforeFirstNoteOn (e :: rest) =
            tempoPayloadsBeforeFirstNoteOn rest := by
          simp [tempoPayloadsBeforeFirstNoteOn, List.takeWhile_cons, hnotopen,
            List.filter_cons, hnottempo]
        rw [hstep, hpayloads, ih]

theorem claim_C3_aux (f : MidiFile) : (midiToSequencer f).bpm = bpmSpec f := by
  have h := mtsTracks_bpm (f.ticksPerQuarter : ℚ) f.tracks
    { notes := [], beats := [], instrumentCodes := [], bpm := 120,
      bpmConfirmed := false, detectedEnd := 0 }
  have hsnd := congrArg Prod.snd h
  simp only at hsnd
  show (mtsTracks (f.ticksPerQuarter : ℚ)
      { notes := [], beats := [], instrumentCodes := [], bpm := 120,
        bpmConfirmed := false, detectedEnd := 0 } f.tracks).bpm = bpmSpec f
  rw [hsnd, foldl_bpmStepQ_char]
  unfold bpmSpec
  simp

/-- C3 (amended): `midiToSequencer` returns as bpm the tempo decoded from the
LAST Meta-Tempo event encountered (in track order) before the first NoteOn
with positive velocity — each earlier tempo event overwrites the previous
value, and tempo events after that first NoteOn are ignored; no tempo map is
reconstructed (the result carries a single `bpm`). -/
theorem claim_C3 (f : MidiFile) : (midiToSequencer f).bpm = bpmSpec f :=
  claim_C3_aux f

/-- A file whose single track holds two Meta-Tempo events (120 bpm then
60 bpm) before any note. -/
def c3file : MidiFile :=
  ⟨1, [⟨[{ deltaTime := 0, type := .meta, metaType := some 0x51, data := some [0x07, 0xA1, 0x20] },
         { deltaTime := 0, type := .meta, metaType := some 0x51, data := some [0x0F, 0x42, 0x40] },
         eotEvent]⟩], 480⟩

/-- C3 counterexample: with two tempo events before any note, the returned
bpm is 60 — decoded from the SECOND (last) tempo event — not the 120 of the
first one, refuting "the first Meta-Tempo event sets bpm; later tempo events
do not change it". -/
theorem claim_C3_counterexample :
    (midiToSequencer c3file).bpm = 60 ∧
    extractBpmFromTempoData [0x07, 0xA1, 0x20] = 120 ∧
    (midiToSequencer c3file).bpm ≠ extractBpmFromTempoData [0x07, 0xA1, 0x20] := by
  have hm1 : (([0x07, 0xA1, 0x20] : List Nat).getD 0 0 <<< 16) |||
      (([0x07, 0xA1, 0x20] : List Nat).getD 1 0 <<< 8) |||
      ([0x07, 0xA1, 0x20] : List Nat).getD 2 0 = 500000 := by decide
  have hm2 : (([0x0F, 0x42, 0x40] : List Nat).getD 0 0 <<< 16) |||
      (([0x0F, 0x42, 0x40] : List Nat).getD 1 0 <<< 8) |||
      ([0x0F, 0x42, 0x40] : List Nat).getD 2 0 = 1000000 := by decide
  have h1 : extractBpmFromTempoData [0x07, 0xA1, 0x20] = 120 := by
    rw [extractBpmFromTempoData, if_neg (by decide)]
    rw [hm1]
    norm_num [jsRound]
  have h2 : extractBpmFromTempoData [0x0F, 0x42, 0x40] = 60 := by
    rw [extractBpmFromTempoData, if_neg (by decide)]
    rw [hm2]
    norm_num [jsRound]
  have h3 : (midiToSequencer c3file).bpm = 60 := by
    rw [claim_C3_aux]
    rw [bpmSpec]
    have hpl : tempoPayloadsBeforeFirstNoteOn
        ((c3file.tracks.map (·.events)).flatten) =
        [[0x07, 0xA1, 0x20], [0x0F, 0x42, 0x40]] := by
      simp +decide [c3file, tempoPayloadsBeforeFirstNoteOn, isOpeningNoteOn, isTempoMeta,
        eotEvent, List.takeWhile, List.filter]
    rw [hpl]
    simpa using h2
  refine ⟨h3, h1, ?_⟩
  rw [h3, h1]
  norm_num

/-! C8: NoteOn with velocity 0 is NoteOff everywhere. -/

/-- Replace every NoteOn event with velocity 0 by the same event typed as
NoteOff. -/
def normalizeVel0 (e : MidiEvent) : MidiEvent :=
  if e.type = .noteOn ∧ e.velocity = some 0 then { e with type := .noteOff } else e

/-- `normalizeVel0` applied throughout a file. -/
def normalizeFile (f : MidiFile) : MidiFile :=
  { f with tracks := f.tracks.map (fun t => ⟨t.events.map normalizeVel0⟩) }

theorem mtsEvent_normalizeVel0 (tpb : ℚ) (st : MtsState) (tr : MtsTrackState) (e : MidiEvent) :
    mtsEvent tpb st tr (normalizeVel0 e) = mtsEvent tpb st tr e := by
  by_cases h : e.type = .noteOn ∧ e.velocity = some 0
  · obtain ⟨ht, hv⟩ := h
    simp only [normalizeVel0, if_pos (And.intro ht hv)]
    simp [mtsEvent, ht, hv]
  · simp only [normalizeVel0, if_neg h]

theorem mtsTrack_normalizeVel0 (tpb : ℚ) (evs : List MidiEvent) :
    ∀ (st : MtsState) (tr : MtsTrackState),
    mtsTrack tpb st tr (evs.map normalizeVel0) = mtsTrack tpb st tr evs := by
  induction evs with
  | nil => intro st tr; rfl
  | cons e rest ih =>
    intro st tr
    show mtsTrack tpb (mtsEvent tpb st tr (normalizeVel0 e)).1
        (mtsEvent tpb st tr (normalizeVel0 e)).2 (rest.map normalizeVel0) = _
    rw [mtsEvent_normalizeVel0, ih]
    rfl

theorem mtsTracks_normalizeVel0 (tpb : ℚ) (ts : List MidiTrack) : ∀ (st : MtsState),
    mtsTracks tpb st (ts.map (fun t => ⟨t.events.map normalizeVel0⟩)) =
      mtsTracks tpb st ts := by
  induction ts with
  | nil => intro st; rfl
  | cons t rest ih =>
    intro st
    show mtsTracks tpb (mtsTrack tpb st ⟨0, []⟩ (t.events.map normalizeVel0)).1
        (rest.map (fun t => ⟨t.events.map normalizeVel0⟩)) = _
    rw [mtsTrack_normalizeVel0, ih]
    rfl

/-- C8: NoteOn with velocity 0 is treated as NoteOff everywhere.  First and
second conjuncts: the parser reclassifies a `0x9n` event whose velocity byte
is 0 as `noteOff` — with an explicit status byte and under running status
respectively.  Third conjunct: `midiToSequencer` is unchanged when every
NoteOn-velocity-0 event is replaced by the same event typed NoteOff, i.e.
its close logic treats the two identically. -/
theorem claim_C8 :
    (∀ (data : List Nat) (dt : ℚ) (pos : Nat) (rs : Option Nat) (s : Nat),
      data.get? pos = some s → 0x90 ≤ s → s ≤ 0x9F → data.get? (pos + 2) = some 0 →
      (parseEvent data dt pos rs).1.type = .noteOff ∧
        (parseEvent data dt pos rs).1.velocity = some 0) ∧
    (∀ (data : List Nat) (dt : ℚ) (pos : Nat) (b s : Nat),
      data.get? pos = some b → b < 0x80 → 0x90 ≤ s → s ≤ 0x9F →
      data.get? (pos + 1) = some 0 →
      (parseEvent data dt pos (some s)).1.type = .noteOff ∧
        (parseEvent data dt pos (some s)).1.velocity = some 0) ∧
    (∀ f : MidiFile, midiToSequencer (normalizeFile f) = midiToSequencer f) := by
  refine ⟨?_, ?_, ?_⟩
  · intro data dt pos rs s hs h90 h9F hvel
    have h0 : optLt (some s) 0x80 = false := by
      simp [optLt]; omega
    have h1 : optInRange (some s) 0x80 0x8F = false := by
      simp [optInRange]; omega
    have h2 : optInRange (some s) 0x90 0x9F = true := by
      simp [optInRange]; omega
    simp only [parseEvent, hs, h0, if_false, Bool.false_eq_true, h1, h2, if_true]
    have h3 : data.get? (pos + 1 + 1) = some 0 := hvel
    rw [h3]
    simp
  · intro data dt pos b s hb hblt h90 h9F hvel
    have h0 : optLt (some b) 0x80 = true := by
      simp [optLt]; omega
    have h1 : optInRange (some s) 0x80 0x8F = false := by
      simp [optInRange]; omega
    have h2 : optInRange (some s) 0x90 0x9F = true := by
      simp [optInRange]; omega
    simp only [parseEvent, hb, h0, if_true, Bool.true_eq_false, h1, h2, if_false]
    rw [hvel]
    simp
  · intro f
    unfold midiToSequencer normalizeFile
    simp only
    rw [mtsTracks_normalizeVel0]

/-- Witness for C8: parsing `[0x92, 60, 0]` (explicit status) and `[60, 0]`
under running status `0x95` both yield NoteOff; normalizing a file holding
one NoteOn-velocity-0 leaves `midiToSequencer`'s output unchanged. -/
theorem claim_C8_witness :
    ((parseEvent [0x92, 60, 0] 0 0 none).1.type = .noteOff ∧
      (parseEvent [0x92, 60, 0] 0 0 none).1.velocity = some 0) ∧
    ((parseEvent [60, 0] 0 0 (some 0x95)).1.type = .noteOff ∧
      (parseEvent [60, 0] 0 0 (some 0x95)).1.velocity = some 0) ∧
    midiToSequencer (normalizeFile
      ⟨0, [⟨[{ deltaTime := 0, type := .noteOn, channel := some 0,
               note := some 60, velocity := some 0 }]⟩], 480⟩) =
      midiToSequencer
      ⟨0, [⟨[{ deltaTime := 0, type := .noteOn, channel := some 0,
               note := some 60, velocity := some 0 }]⟩], 480⟩ :=
  ⟨claim_C8.1 [0x92, 60, 0] 0 0 none 0x92 rfl (by decide) (by decide) rfl,
   claim_C8.2.1 [60, 0] 0 0 60 0x95 rfl (by decide) (by decide) (by decide) rfl,
   claim_C8.2.2 _⟩

/-! C6: the tempo-map walk `beatPosToSeconds` of
`AudioManager.renderMixToAudioBuffer` in `main.ts`. -/

/-- The `for` loop of `beatPosToSeconds`: walk the entries; the last entry's
segment end is `Infinity` (the single-entry case), otherwise the next entry's
beat; accumulate `(60 / (bpm * speed)) * (min beatPos segEnd - segStart)` and
stop once `beatPos ≤ segEnd`. -/
def bptsWalk : List (ℚ × ℚ) → ℚ → ℚ → ℚ
  | [], _, _ => 0
  | [(segStart, segBpm)], speed, x =>
      if x ≤ segStart then 0 else 60 / (segBpm * speed) * (x - segStart)
  | (segStart, segBpm) :: (s2, b2) :: rest, speed, x =>
      if x ≤ segStart then 0
      else 60 / (segBpm * speed) * (min x s2 - segStart) +
        (if x ≤ s2 then 0 else bptsWalk ((s2, b2) :: rest) speed x)

/-- `beatPosToSeconds` from `main.ts` (over the already-built `bpmEntries`). -/
def beatPosToSeconds (entries : List (ℚ × ℚ)) (speed : ℚ) (beatPos : ℚ) : ℚ :=
  if beatPos ≤ 0 then 0 else bptsWalk entries speed beatPos

/-- The largest per-segment rate, used as a Lipschitz constant. -/
def bptsMaxRate (l : List (ℚ × ℚ)) (speed : ℚ) : ℚ :=
  l.foldr (fun p acc => max (60 / (p.2 * speed)) acc) 0

theorem bptsWalk_head_le (p : ℚ × ℚ) (t : List (ℚ × ℚ)) (speed x : ℚ) (h : x ≤ p.1) :
    bptsWalk (p :: t) speed x = 0 := by
  obtain ⟨s, b⟩ := p
  cases t with
  | nil => simp [bptsWalk, if_pos h]
  | cons q rest =>
    obtain ⟨s2, b2⟩ := q
    simp [bptsWalk, if_pos h]

theorem bptsRate_pos {b speed : ℚ} (hb : 0 < b) (hs : 0 < speed) :
    0 < 60 / (b * speed) := by positivity

theorem bptsMaxRate_nonneg (l : List (ℚ × ℚ)) (speed : ℚ) :
    0 ≤ bptsMaxRate l speed := by
  induction l with
  | nil => simp [bptsMaxRate]
  | cons p t ih =>
    simp only [bptsMaxRate, List.foldr_cons] at ih ⊢
    exact le_trans ih (le_max_right _ _)

theorem bptsMaxRate_mem (l : List (ℚ × ℚ)) (speed : ℚ) (p : ℚ × ℚ) (hp : p ∈ l) :
    60 / (p.2 * speed) ≤ bptsMaxRate l speed := by
  induction l with
  | nil => cases hp
  | cons q t ih =>
    simp only [bptsMaxRate, List.foldr_cons]
    rcases List.mem_cons.mp hp with rfl | hp'
    · exact le_max_left _ _
    · exact le_trans (ih hp') (le_max_right _ _)

theorem bptsMaxRate_cons (p : ℚ × ℚ) (t : List (ℚ × ℚ)) (speed : ℚ) :
    bptsMaxRate t speed ≤ bptsMaxRate (p :: t) speed := by
  simp only [bptsMaxRate, List.foldr_cons]
  exact le_max_right _ _

theorem bptsWalk_nonneg (l : List (ℚ × ℚ)) (speed : ℚ)
    (hchain : l.Chain' (fun p q => p.1 < q.1)) (hpos : ∀ p ∈ l, 0 < p.2)
    (hs : 0 < speed) : ∀ x, 0 ≤ bptsWalk l speed x := by
  induction l with
  | nil => intro x; simp [bptsWalk]
  | cons p t ih =>
    intro x
    obtain ⟨s, b⟩ := p
    have hb : 0 < b := hpos (s, b) (List.mem_cons_self _ _)
    have hrate := bptsRate_pos hb hs
    cases t with
    | nil =>
      by_cases hx : x ≤ s
      · simp [bptsWalk, if_pos hx]
      · push_neg at hx
        simp only [bptsWalk, if_neg (not_le.mpr hx)]
        have : 0 ≤ x - s := by linarith
        positivity
    | cons q rest =>
      obtain ⟨s2, b2⟩ := q
      have hlt : s < s2 := (List.chain'_cons.mp hchain).1
      by_cases hx : x ≤ s
      · simp [bptsWalk, if_pos hx]
      · push_neg at hx
        simp only [bptsWalk, if_neg (not_le.mpr hx)]
        have h1 : 0 ≤ 60 / (b * speed) * (min x s2 - s) := by
          have : s ≤ min x s2 := le_min (le_of_lt hx) (le_of_lt hlt)
          have h2 : 0 ≤ min x s2 - s := by linarith
          positivity
        have h2 : 0 ≤ (if x ≤ s2 then 0 else bptsWalk ((s2, b2) :: rest) speed x) := by
          by_cases hx2 : x ≤ s2
          · simp [if_pos hx2]
          · rw [if_neg hx2]
            exact ih (List.chain'_cons.mp hchain).2
              (fun p hp => hpos p (List.mem_cons_of_mem _ hp)) x
        linarith

theorem bptsWalk_mono (l : List (ℚ × ℚ)) (speed : ℚ)
    (hchain : l.Chain' (fun p q => p.1 < q.1)) (hpos : ∀ p ∈ l, 0 < p.2)
    (hs : 0 < speed) : ∀ x y, x ≤ y → bptsWalk l speed x ≤ bptsWalk l speed y := by
  induction l with
  | nil => intro x y _; simp [bptsWalk]
  | cons p t ih =>
    intro x y hxy
    obtain ⟨s, b⟩ := p
    have hb : 0 < b := hpos (s, b) (List.mem_cons_self _ _)
    have hrate := bptsRate_pos hb hs
    cases t with
    | nil =>
      by_cases hy : y ≤ s
      · rw [bptsWalk_head_le _ _ _ _ (le_trans hxy hy), bptsWalk_head_le _ _ _ _ hy]
      · push_neg at hy
        by_cases hx : x ≤ s
        · rw [bptsWalk_head_le (s, b) [] speed x hx]
          simp only [bptsWalk, if_neg (not_le.mpr hy)]
          have : 0 ≤ y - s := by linarith
          positivity
        · push_neg at hx
          simp only [bptsWalk, if_neg (not_le.mpr hy), if_neg (not_le.mpr hx)]
          have h1 : x - s ≤ y - s := by linarith
          exact mul_le_mul_of_nonneg_left h1 (le_of_lt hrate)
    | cons q rest =>
      obtain ⟨s2, b2⟩ := q
      have hlt : s < s2 := (List.chain'_cons.mp hchain).1
      have hchain' := (List.chain'_cons.mp hchain).2
      have hpos' : ∀ p ∈ (s2, b2) :: rest, 0 < p.2 :=
        fun p hp => hpos p (List.mem_cons_of_mem _ hp)
      by_cases hy : y ≤ s
      · rw [bptsWalk_head_le _ _ _ _ (le_trans hxy hy), bptsWalk_head_le _ _ _ _ hy]
      · push_neg at hy
        by_cases hx : x ≤ s
        · rw [bptsWalk_head_le ((s, b)) ((s2, b2) :: rest) speed x hx]
          exact bptsWalk_nonneg _ _ hchain hpos hs y
        · push_neg at hx
          simp only [bptsWalk, if_neg (not_le.mpr hy), if_neg (not_le.mpr hx)]
          have hterm1 : 60 / (b * speed) * (min x s2 - s) ≤
              60 / (b * speed) * (min y s2 - s) := by
            have : min x s2 ≤ min y s2 := min_le_min_right _ hxy
            have h2 : min x s2 - s ≤ min y s2 - s := by linarith
            exact mul_le_mul_of_nonneg_left h2 (le_of_lt hrate)
          have hterm2 : (if x ≤ s2 then 0 else bptsWalk ((s2, b2) :: rest) speed x) ≤
              (if y ≤ s2 then 0 else bptsWalk ((s2, b2) :: rest) speed y) := by
            by_cases hy2 : y ≤ s2
            · rw [if_pos (le_trans hxy hy2), if_pos hy2]
            · push_neg at hy2
              rw [if_neg (not_le.mpr hy2)]
              by_cases hx2 : x ≤ s2
              · rw [if_pos hx2]
                exact bptsWalk_nonneg _ _ hchain' hpos' hs y
              · rw [if_neg hx2]
                exact ih hchain' hpos' x y hxy
          linarith

theorem bptsWalk_lipschitz (l : List (ℚ × ℚ)) (speed : ℚ)
    (hchain : l.Chain' (fun p q => p.1 < q.1)) (hpos : ∀ p ∈ l, 0 < p.2)
    (hs : 0 < speed) : ∀ x y, x ≤ y →
    bptsWalk l speed y - bptsWalk l speed x ≤ bptsMaxRate l speed * (y - x) := by
  induction l with
  | nil =>
    intro x y hxy
    simp only [bptsWalk, bptsMaxRate, List.foldr_nil]
    have : (0 : ℚ) ≤ y - x := by linarith
    linarith
  | cons p t ih =>
    intro x y hxy
    obtain ⟨s, b⟩ := p
    have hb : 0 < b := hpos (s, b) (List.mem_cons_self _ _)
    have hrate := bptsRate_pos hb hs
    have hrateM : 60 / (b * speed) ≤ bptsMaxRate ((s, b) :: t) speed :=
      bptsMaxRate_mem _ _ (s, b) (List.mem_cons_self _ _)
    have hM0 : 0 ≤ bptsMaxRate ((s, b) :: t) speed := bptsMaxRate_nonneg _ _
    have hyx : 0 ≤ y - x := by linarith
    cases t with
    | nil =>
      set M := bptsMaxRate [(s, b)] speed with hMdef
      by_cases hy : y ≤ s
      · rw [bptsWalk_head_le _ _ _ _ (le_trans hxy hy), bptsWalk_head_le _ _ _ _ hy]
        simpa using mul_nonneg hM0 hyx
      · push_neg at hy
        by_cases hx : x ≤ s
        · rw [bptsWalk_head_le (s, b) [] speed x hx]
          simp only [bptsWalk, if_neg (not_le.mpr hy)]
          have h1 : 60 / (b * speed) * (y - s) ≤ M * (y - s) :=
            mul_le_mul_of_nonneg_right hrateM (by linarith)
          have h2 : M * (y - s) ≤ M * (y - x) :=
            mul_le_mul_of_nonneg_left (by linarith) hM0
          linarith
        · push_neg at hx
          simp only [bptsWalk, if_neg (not_le.mpr hy), if_neg (not_le.mpr hx)]
          have h0 : 60 / (b * speed) * (y - s) - 60 / (b * speed) * (x - s) =
              60 / (b * speed) * (y - x) := by ring
          have h1 : 60 / (b * speed) * (y - x) ≤ M * (y - x) :=
            mul_le_mul_of_nonneg_right hrateM hyx
          linarith
    | cons q rest =>
      obtain ⟨s2, b2⟩ := q
      have hlt : s < s2 := (List.chain'_cons.mp hchain).1
      have hchain' := (List.chain'_cons.mp hchain).2
      have hpos' : ∀ p ∈ (s2, b2) :: rest, 0 < p.2 :=
        fun p hp => hpos p (List.mem_cons_of_mem _ hp)
      set M := bptsMaxRate ((s, b) :: (s2, b2) :: rest) speed with hMdef
      set Mt := bptsMaxRate ((s2, b2) :: rest) speed with hMtdef
      have hMt : Mt ≤ M := bptsMaxRate_cons _ _ _
      have hMt0 : 0 ≤ Mt := bptsMaxRate_nonneg _ _
      have htail0 : bptsWalk ((s2, b2) :: rest) speed s2 = 0 :=
        bptsWalk_head_le (s2, b2) rest speed s2 le_rfl
      by_cases hy : y ≤ s
      · rw [bptsWalk_head_le _ _ _ _ (le_trans hxy hy), bptsWalk_head_le _ _ _ _ hy]
        simpa using mul_nonneg hM0 hyx
      · push_neg at hy
        by_cases hx : x ≤ s
        · rw [bptsWalk_head_le ((s, b)) ((s2, b2) :: rest) speed x hx]
          simp only [bptsWalk, if_neg (not_le.mpr hy)]
          by_cases hy2 : y ≤ s2
          · rw [if_pos hy2, min_eq_left hy2]
            have h1 : 60 / (b * speed) * (y - s) ≤ M * (y - s) :=
              mul_le_mul_of_nonneg_right hrateM (by linarith)
            have h2 : M * (y - s) ≤ M * (y - x) :=
              mul_le_mul_of_nonneg_left (by linarith) hM0
            linarith
          · push_neg at hy2
            rw [if_neg (not_le.mpr hy2), min_eq_right (le_of_lt hy2)]
            have hT := ih hchain' hpos' s2 y (le_of_lt hy2)
            rw [htail0] at hT
            have h1 : 60 / (b * speed) * (s2 - s) ≤ M * (s2 - s) :=
              mul_le_mul_of_nonneg_right hrateM (by linarith)
            have h3 : Mt * (y - s2) ≤ M * (y - s2) :=
              mul_le_mul_of_nonneg_right hMt (by linarith)
            have h4 : M * (s2 - s) + M * (y - s2) = M * (y - s) := by ring
            have h5 : M * (y - s) ≤ M * (y - x) :=
              mul_le_mul_of_nonneg_left (by linarith) hM0
            linarith
        · push_neg at hx
          simp only [bptsWalk, if_neg (not_le.mpr hy), if_neg (not_le.mpr hx)]
          by_cases hy2 : y ≤ s2
          · rw [if_pos hy2, if_pos (le_trans hxy hy2),
              min_eq_left hy2, min_eq_left (le_trans hxy hy2)]
            have h0 : 60 / (b * speed) * (y - s) - 60 / (b * speed) * (x - s) =
                60 / (b * speed) * (y - x) := by ring
            have h1 : 60 / (b * speed) * (y - x) ≤ M * (y - x) :=
              mul_le_mul_of_nonneg_right hrateM hyx
            linarith
          · push_neg at hy2
            rw [if_neg (not_le.mpr hy2), min_eq_right (le_of_lt hy2)]
            by_cases hx2 : x ≤ s2
            · rw [if_pos hx2, min_eq_left hx2]
              have hT := ih hchain' hpos' s2 y (le_of_lt hy2)
              rw [htail0] at hT
              have h0 : 60 / (b * speed) * (s2 - s) - 60 / (b * speed) * (x - s) =
                  60 / (b * speed) * (s2 - x) := by ring
              have h1 : 60 / (b * speed) * (s2 - x) ≤ M * (s2 - x) :=
                mul_le_mul_of_nonneg_right hrateM (by linarith)
              have h3 : Mt * (y - s2) ≤ M * (y - s2) :=
                mul_le_mul_of_nonneg_right hMt (by linarith)
              have h4 : M * (s2 - x) + M * (y - s2) = M * (y - x) := by ring
              linarith
            · push_neg at hx2
              rw [if_neg (not_le.mpr hx2), min_eq_right (le_of_lt hx2)]
              have hT := ih hchain' hpos' x y hxy
              have h3 : Mt * (y - x) ≤ M * (y - x) :=
                mul_le_mul_of_nonneg_right hMt hyx
              linarith

theorem beatPosToSeconds_eq_walk (b0 speed x : ℚ) (rest : List (ℚ × ℚ)) :
    beatPosToSeconds ((0, b0) :: rest) speed x = bptsWalk ((0, b0) :: rest) speed x := by
  unfold beatPosToSeconds
  by_cases hx : x ≤ 0
  · rw [if_pos hx, bptsWalk_head_le (0, b0) rest speed x hx]
  · rw [if_neg hx]

/-- C6: `beatPosToSeconds` walks the tempo-map segments accumulating
`(segEnd − segStart) * 60 / (bpm * speed)` (its definition above mirrors the
loop); under the construction invariants (entry at beat 0, strictly
increasing beats, positive bpms and speed) it is monotone non-decreasing and
(ε-δ) continuous at every breakpoint, and on the tempo map
`[(0,120),(8,60)]` at speed 1 it maps beat 8 to exactly 4 and beat 16 to
exactly 12 seconds. -/
theorem claim_C6 (b0 speed : ℚ) (rest : List (ℚ × ℚ))
    (hchain : ((0, b0) :: rest).Chain' (fun p q => p.1 < q.1))
    (hpos : ∀ p ∈ (0, b0) :: rest, 0 < p.2) (hs : 0 < speed) :
    (∀ x y, x ≤ y → beatPosToSeconds ((0, b0) :: rest) speed x ≤
      beatPosToSeconds ((0, b0) :: rest) speed y) ∧
    (∀ p ∈ (0, b0) :: rest, ∀ ε : ℚ, 0 < ε → ∃ δ : ℚ, 0 < δ ∧ ∀ x, |x - p.1| < δ →
      |beatPosToSeconds ((0, b0) :: rest) speed x -
        beatPosToSeconds ((0, b0) :: rest) speed p.1| < ε) ∧
    beatPosToSeconds [(0, 120), (8, 60)] 1 8 = 4 ∧
    beatPosToSeconds [(0, 120), (8, 60)] 1 16 = 12 := by
  have hmono : ∀ x y, x ≤ y → beatPosToSeconds ((0, b0) :: rest) speed x ≤
      beatPosToSeconds ((0, b0) :: rest) speed y := by
    intro x y hxy
    rw [beatPosToSeconds_eq_walk, beatPosToSeconds_eq_walk]
    exact bptsWalk_mono _ _ hchain hpos hs x y hxy
  refine ⟨hmono, ?_, ?_, ?_⟩
  · intro p hp ε hε
    set M := bptsMaxRate ((0, b0) :: rest) speed with hMdef
    have hM0 : 0 ≤ M := bptsMaxRate_nonneg _ _
    have hM1 : 0 < M + 1 := by linarith
    refine ⟨ε / (M + 1), by positivity, ?_⟩
    intro x hx
    have hbound : |beatPosToSeconds ((0, b0) :: rest) speed x -
        beatPosToSeconds ((0, b0) :: rest) speed p.1| ≤ M * |x - p.1| := by
      rcases le_total x p.1 with hle | hle
      · have h1 := hmono x p.1 hle
        have h2 : beatPosToSeconds ((0, b0) :: rest) speed p.1 -
            beatPosToSeconds ((0, b0) :: rest) speed x ≤ M * (p.1 - x) := by
          rw [beatPosToSeconds_eq_walk, beatPosToSeconds_eq_walk]
          exact bptsWalk_lipschitz _ _ hchain hpos hs x p.1 hle
        rw [abs_sub_comm, abs_of_nonneg (by linarith), abs_sub_comm, abs_of_nonneg (by linarith)]
        exact h2
      · have h1 := hmono p.1 x hle
        have h2 : beatPosToSeconds ((0, b0) :: rest) speed x -
            beatPosToSeconds ((0, b0) :: rest) speed p.1 ≤ M * (x - p.1) := by
          rw [beatPosToSeconds_eq_walk, beatPosToSeconds_eq_walk]
          exact bptsWalk_lipschitz _ _ hchain hpos hs p.1 x hle
        rw [abs_of_nonneg (by linarith), abs_of_nonneg (by linarith)]
        exact h2
    have hstep : M * |x - p.1| ≤ M * (ε / (M + 1)) :=
      mul_le_mul_of_nonneg_left (le_of_lt hx) hM0
    have hfinal : M * (ε / (M + 1)) < ε := by
      rw [mul_div_assoc']
      rw [div_lt_iff hM1]
      nlinarith
    linarith
  · show beatPosToSeconds ((0, 120) :: [((8 : ℚ), (60 : ℚ))]) 1 8 = 4
    rw [beatPosToSeconds_eq_walk]
    norm_num [bptsWalk]
  · show beatPosToSeconds ((0, 120) :: [((8 : ℚ), (60 : ℚ))]) 1 16 = 12
    rw [beatPosToSeconds_eq_walk]
    norm_num [bptsWalk]

/-- Witness for C6 on the tempo map `[(0,120),(8,60)]` at speed 1. -/
theorem claim_C6_witness :
    (((0 : ℚ), (120 : ℚ)) :: [((8 : ℚ), (60 : ℚ))]).Chain' (fun p q => p.1 < q.1) ∧
    (0 : ℚ) < 1 ∧
    ((∀ x y, x ≤ y → beatPosToSeconds ((0, 120) :: [((8 : ℚ), (60 : ℚ))]) 1 x ≤
        beatPosToSeconds ((0, 120) :: [((8 : ℚ), (60 : ℚ))]) 1 y) ∧
      (∀ p ∈ ((0 : ℚ), (120 : ℚ)) :: [((8 : ℚ), (60 : ℚ))], ∀ ε : ℚ, 0 < ε →
        ∃ δ : ℚ, 0 < δ ∧ ∀ x, |x - p.1| < δ →
        |beatPosToSeconds ((0, 120) :: [((8 : ℚ), (60 : ℚ))]) 1 x -
          beatPosToSeconds ((0, 120) :: [((8 : ℚ), (60 : ℚ))]) 1 p.1| < ε) ∧
      beatPosToSeconds [(0, 120), (8, 60)] 1 8 = 4 ∧
      beatPosToSeconds [(0, 120), (8, 60)] 1 16 = 12) :=
  ⟨by norm_num, by norm_num,
   claim_C6 120 1 [(8, 60)] (by norm_num)
     (by
       intro p hp
       simp only [List.mem_cons, List.mem_singleton, List.not_mem_nil, or_false] at hp
       rcases hp with rfl | rfl <;> norm_num) (by norm_num)⟩

/-! C5: the WAV encoder of `wav.worker.ts`. -/

/-- `DataView.setUint16 (littleEndian)` output bytes (wraps mod 2^16). -/
def u16le (v : Nat) : List Nat := [v % 256, v / 256 % 256]

/-- `DataView.setUint32 (littleEndian)` output bytes (wraps mod 2^32). -/
def u32le (v : Nat) : List Nat :=
  [v % 256, v / 2 ^ 8 % 256, v / 2 ^ 16 % 256, v / 2 ^ 24 % 256]

/-- `DataView.setInt16 (littleEndian)`: two's-complement low word. -/
def int16le (v : ℤ) : List Nat :=
  [(v % 65536).toNat % 256, (v % 65536).toNat / 256]

/-- `sample = Math.max(-1, Math.min(1, sample))` then
`sample < 0 ? sample * 0x8000 : sample * 0x7fff`, rounded. -/
def jsQuantize (q : ℚ) : ℤ :=
  let s := max (-1 : ℚ) (min 1 q)
  jsRound (if s < 0 then s * 0x8000 else s * 0x7FFF)

/-- `channels[ch][i] || 0` (0 for a missing sample). -/
def jsSample (channels : List (List ℚ)) (ch i : Nat) : ℚ :=
  (channels.getD ch []).getD i 0

/-- The 44 header bytes written at offsets 0–43 of the worker's buffer. -/
def wavHeader (sampleRate numChannels length bitsPerSample : Nat) : List Nat :=
  let bytesPerSample := bitsPerSample / 8
  let blockAlign := numChannels * bytesPerSample
  let dataLength := length * blockAlign
  [0x52, 0x49, 0x46, 0x46] ++ u32le (36 + dataLength) ++
    [0x57, 0x41, 0x56, 0x45] ++ [0x66, 0x6D, 0x74, 0x20] ++ u32le 16 ++
    u16le 1 ++ u16le numChannels ++ u32le sampleRate ++
    u32le (sampleRate * blockAlign) ++ u16le blockAlign ++ u16le bitsPerSample ++
    [0x64, 0x61, 0x74, 0x61] ++ u32le dataLength

/-- The sample loop: frame-major (`i`), then channel (`ch`), 16-bit LE each. -/
def wavData (numChannels length : Nat) (channels : List (List ℚ)) : List Nat :=
  (List.range length).flatMap (fun i =>
    (List.range numChannels).flatMap (fun ch =>
      int16le (jsQuantize (jsSample channels ch i))))

/-- The worker's `encode` message handler.  It throws (and posts an error)
exactly when `channels[ch]` is `undefined` for a channel it visits, i.e. when
`length > 0` and `numChannels > channels.length`; the model covers the 16-bit
sample depth the app uses (for which the `44 + dataLength` buffer exactly
fits the `setInt16` stores). -/
def wavEncode (sampleRate numChannels length bitsPerSample : Nat)
    (channels : List (List ℚ)) : Option (List Nat) :=
  if 0 < length ∧ channels.length < numChannels then none
  else some (wavHeader sampleRate numChannels length bitsPerSample ++
    wavData numChannels length channels)

/-- Little-endian readback of an unsigned 16-bit field. -/
def readU16le (B : List Nat) (off : Nat) : Nat :=
  B.getD off 0 + 256 * B.getD (off + 1) 0

/-- Little-endian readback of an unsigned 32-bit field. -/
def readU32le (B : List Nat) (off : Nat) : Nat :=
  B.getD off 0 + 2 ^ 8 * B.getD (off + 1) 0 + 2 ^ 16 * B.getD (off + 2) 0 +
    2 ^ 24 * B.getD (off + 3) 0

/-- Little-endian readback of a signed 16-bit sample. -/
def readInt16le (B : List Nat) (off : Nat) : ℤ :=
  let u := B.getD off 0 + 256 * B.getD (off + 1) 0
  if u < 32768 then (u : ℤ) else (u : ℤ) - 65536

theorem int16le_length (v : ℤ) : (int16le v).length = 2 := rfl

theorem flatMap_uniform_get {β γ : Type} (f : β → List γ) (k : Nat) :
    ∀ (l : List β) (m r : Nat), (∀ b ∈ l, (f b).length = k) → r < k →
    (l.flatMap f).get? (m * k + r) = (l.get? m).bind (fun b => (f b).get? r) := by
  intro l
  induction l with
  | nil => intro m r _ _; simp
  | cons b t ih =>
    intro m r hk hr
    cases m with
    | zero =>
      simp only [List.flatMap_cons, Nat.zero_mul, Nat.zero_add, List.get?_cons_zero,
        Option.some_bind]
      rw [List.get?_append]
      rw [hk b (List.mem_cons_self _ _)]
      exact hr
    | succ m =>
      simp only [List.flatMap_cons, List.get?_cons_succ]
      rw [List.get?_append_right (by rw [hk b (List.mem_cons_self _ _)]; nlinarith)]
      rw [hk b (List.mem_cons_self _ _)]
      have harith : (m + 1) * k + r - k = m * k + r := by
        have : (m + 1) * k = m * k + k := by ring
        omega
      rw [harith]
      exact ih m r (fun b hb => hk b (List.mem_cons_of_mem _ hb)) hr

theorem wavData_get (numChannels length : Nat) (channels : List (List ℚ))
    (i ch b : Nat) (hi : i < length) (hch : ch < numChannels) (hb : b < 2) :
    (wavData numChannels length channels).get? (2 * (i * numChannels + ch) + b) =
      (int16le (jsQuantize (jsSample channels ch i))).get? b := by
  unfold wavData
  have hlen1 : ∀ j ∈ List.range length,
      ((List.range numChannels).flatMap (fun ch =>
        int16le (jsQuantize (jsSample channels ch j)))).length = numChannels * 2 := by
    intro j _
    rw [List.length_flatMap]
    have h2 : List.map (List.length ∘ fun ch =>
        int16le (jsQuantize (jsSample channels ch j))) (List.range numChannels) =
        List.map (fun _ => 2) (List.range numChannels) := by
      apply List.map_congr_left
      intro a _
      simp [Function.comp, int16le]
    rw [h2, List.map_const', List.sum_replicate, smul_eq_mul, List.length_range]
  have harith : 2 * (i * numChannels + ch) + b = i * (numChannels * 2) + (ch * 2 + b) := by ring
  rw [harith]
  rw [flatMap_uniform_get _ (numChannels * 2) _ i (ch * 2 + b) hlen1 (by nlinarith)]
  rw [List.get?_range hi]
  simp only [Option.some_bind]
  rw [flatMap_uniform_get _ 2 _ ch b (fun c _ => int16le_length _) hb]
  rw [List.get?_range hch]
  simp

theorem jsQuantize_bounds (q : ℚ) : -32768 ≤ jsQuantize q ∧ jsQuantize q ≤ 32767 := by
  unfold jsQuantize jsRound
  set s := max (-1 : ℚ) (min 1 q) with hs
  have hs1 : (-1 : ℚ) ≤ s := le_max_left _ _
  have hs2 : s ≤ 1 := max_le (by norm_num) (min_le_left _ _)
  show -32768 ≤ ⌊(if s < 0 then s * 0x8000 else s * 0x7FFF) + 1 / 2⌋ ∧
    ⌊(if s < 0 then s * 0x8000 else s * 0x7FFF) + 1 / 2⌋ ≤ 32767
  by_cases hneg : s < 0
  · rw [if_pos hneg]
    constructor
    · rw [Int.le_floor]
      push_cast
      nlinarith
    · have : ⌊s * 0x8000 + 1 / 2⌋ < 1 := by
        rw [Int.floor_lt]
        push_cast
        nlinarith
      omega
  · rw [if_neg hneg]
    push_neg at hneg
    constructor
    · rw [Int.le_floor]
      push_cast
      nlinarith
    · have : ⌊s * 0x7FFF + 1 / 2⌋ < 32768 := by
        rw [Int.floor_lt]
        push_cast
        nlinarith
      omega

theorem int16le_decode (v : ℤ) (hlo : -32768 ≤ v) (hhi : v ≤ 32767) :
    (if (int16le v).getD 0 0 + 256 * (int16le v).getD 1 0 < 32768 then
      (((int16le v).getD 0 0 + 256 * (int16le v).getD 1 0 : Nat) : ℤ)
     else (((int16le v).getD 0 0 + 256 * (int16le v).getD 1 0 : Nat) : ℤ) - 65536) = v := by
  simp only [int16le, List.getD, List.get?_cons_zero, List.get?_cons_succ, Option.getD_some]
  have hmod : v % 65536 = if 0 ≤ v then v else v + 65536 := by
    split_ifs with h
    · omega
    · omega
  have htn : (v % 65536).toNat % 256 + 256 * ((v % 65536).toNat / 256) = (v % 65536).toNat := by
    omega
  rw [htn]
  split_ifs with h
  · omega
  · omega

theorem wavHeader_44100 : wavHeader 44100 2 100 16 =
    [82, 73, 70, 70, 180, 1, 0, 0, 87, 65, 86, 69, 102, 109, 116, 32, 16, 0, 0, 0,
     1, 0, 2, 0, 68, 172, 0, 0, 16, 177, 2, 0, 4, 0, 16, 0, 100, 97, 116, 97,
     144, 1, 0, 0] := by
  decide

theorem wavData_length (numChannels length : Nat) (channels : List (List ℚ)) :
    (wavData numChannels length channels).length = length * (numChannels * 2) := by
  unfold wavData
  rw [List.length_flatMap]
  have h2 : List.map (List.length ∘ fun i => (List.range numChannels).flatMap
      (fun ch => int16le (jsQuantize (jsSample channels ch i)))) (List.range length) =
      List.map (fun _ => numChannels * 2) (List.range length) := by
    apply List.map_congr_left
    intro j _
    simp only [Function.comp]
    rw [List.length_flatMap]
    have h3 : List.map (List.length ∘ fun ch =>
        int16le (jsQuantize (jsSample channels ch j))) (List.range numChannels) =
        List.map (fun _ => 2) (List.range numChannels) := by
      apply List.map_congr_left
      intro a _
      simp [Function.comp, int16le]
    rw [h3, List.map_const', List.sum_replicate, smul_eq_mul, List.length_range]
  rw [h2, List.map_const', List.sum_replicate, smul_eq_mul, List.length_range]

/-- C5: with sampleRate 44100, 2 channels, 16 bits and 100 samples per
channel, the encoder emits the canonical RIFF/WAVE layout: a 444-byte buffer,
data-chunk length field 400, RIFF size field 436, and audioFormat 1 at byte
offset 20; and (for any parameters at 16-bit depth) the int16 stored for
frame `i`, channel `ch` at offset `44 + 2*(i*numChannels+ch)` is exactly the
sample clamped to [-1,1], scaled by 0x8000 if negative and 0x7FFF otherwise,
and rounded — frame-major interleaved little-endian. -/
theorem claim_C5 (channels : List (List ℚ)) (hch : 2 ≤ channels.length) :
    (∃ B, wavEncode 44100 2 100 16 channels = some B ∧ B.length = 444 ∧
      readU32le B 40 = 400 ∧ readU32le B 4 = 436 ∧ readU16le B 20 = 1 ∧
      (∀ i ch, i < 100 → ch < 2 → readInt16le B (44 + 2 * (i * 2 + ch)) =
        jsQuantize (jsSample channels ch i))) ∧
    (∀ (sr nc len : Nat) (chans : List (List ℚ)) (B : List Nat),
      wavEncode sr nc len 16 chans = some B → ∀ i ch, i < len → ch < nc →
      readInt16le B (44 + 2 * (i * nc + ch)) = jsQuantize (jsSample chans ch i)) := by
  have hsample : ∀ (sr nc len : Nat) (chans : List (List ℚ)) (B : List Nat),
      wavEncode sr nc len 16 chans = some B → ∀ i ch, i < len → ch < nc →
      readInt16le B (44 + 2 * (i * nc + ch)) = jsQuantize (jsSample chans ch i) := by
    intro sr nc len chans B hB i ch hi hc
    unfold wavEncode at hB
    split_ifs at hB
    have hBeq : B = wavHeader sr nc len 16 ++ wavData nc len chans :=
      (Option.some.injEq _ _ ▸ hB).symm
    have hhlen : (wavHeader sr nc len 16).length = 44 := by
      simp [wavHeader, u16le, u32le]
    have hq := jsQuantize_bounds (jsSample chans ch i)
    have hdec := int16le_decode (jsQuantize (jsSample chans ch i)) hq.1 hq.2
    have e0 : B.getD (44 + 2 * (i * nc + ch)) 0 =
        (int16le (jsQuantize (jsSample chans ch i))).getD 0 0 := by
      rw [hBeq]
      unfold List.getD
      rw [List.get?_append_right (by rw [hhlen]; omega), hhlen]
      have harith : 44 + 2 * (i * nc + ch) - 44 = 2 * (i * nc + ch) + 0 := by omega
      rw [harith, wavData_get nc len chans i ch 0 hi hc (by omega)]
    have e1 : B.getD (44 + 2 * (i * nc + ch) + 1) 0 =
        (int16le (jsQuantize (jsSample chans ch i))).getD 1 0 := by
      rw [hBeq]
      unfold List.getD
      rw [List.get?_append_right (by rw [hhlen]; omega), hhlen]
      have harith : 44 + 2 * (i * nc + ch) + 1 - 44 = 2 * (i * nc + ch) + 1 := by omega
      rw [harith, wavData_get nc len chans i ch 1 hi hc (by omega)]
    unfold readInt16le
    rw [e0, e1]
    exact hdec
  refine ⟨?_, hsample⟩
  have henc : wavEncode 44100 2 100 16 channels =
      some (wavHeader 44100 2 100 16 ++ wavData 2 100 channels) := by
    unfold wavEncode
    rw [if_neg (by omega)]
  refine ⟨wavHeader 44100 2 100 16 ++ wavData 2 100 channels, henc, ?_, ?_, ?_, ?_, ?_⟩
  · rw [List.length_append, wavData_length]
    rw [wavHeader_44100]
    rfl
  · unfold readU32le
    have hget : ∀ b : Nat, b < 4 →
        (wavHeader 44100 2 100 16 ++ wavData 2 100 channels).getD (40 + b) 0 =
        (wavHeader 44100 2 100 16).getD (40 + b) 0 := by
      intro b hb
      unfold List.getD
      rw [List.get?_append (by rw [wavHeader_44100]; simp; omega)]
    rw [show (40 : Nat) + 1 = 40 + 1 from rfl, show (40 : Nat) + 1 + 1 = 40 + 2 by omega,
      show (40 : Nat) + 1 + 1 + 1 = 40 + 3 by omega] at *
    rw [show (40 : Nat) = 40 + 0 from rfl] at *
    rw [hget 0 (by omega), hget 1 (by omega), hget 2 (by omega), hget 3 (by omega)]
    rw [wavHeader_44100]
    decide
  · unfold readU32le
    have hget : ∀ b : Nat, b < 4 →
        (wavHeader 44100 2 100 16 ++ wavData 2 100 channels).getD (4 + b) 0 =
        (wavHeader 44100 2 100 16).getD (4 + b) 0 := by
      intro b hb
      unfold List.getD
      rw [List.get?_append (by rw [wavHeader_44100]; simp; omega)]
    rw [show (4 : Nat) + 1 + 1 = 4 + 2 by omega, show (4 : Nat) + 1 + 1 + 1 = 4 + 3 by omega,
      show (4 : Nat) + 1 = 4 + 1 from rfl] at *
    rw [show (4 : Nat) = 4 + 0 from rfl] at *
    rw [hget 0 (by omega), hget 1 (by omega), hget 2 (by omega), hget 3 (by omega)]
    rw [wavHeader_44100]
    decide
  · unfold readU16le
    have hget : ∀ b : Nat, b < 2 →
        (wavHeader 44100 2 100 16 ++ wavData 2 100 channels).getD (20 + b) 0 =
        (wavHeader 44100 2 100 16).getD (20 + b) 0 := by
      intro b hb
      unfold List.getD
      rw [List.get?_append (by rw [wavHeader_44100]; simp; omega)]
    rw [show (20 : Nat) + 1 = 20 + 1 from rfl] at *
    rw [show (20 : Nat) = 20 + 0 from rfl] at *
    rw [hget 0 (by omega), hget 1 (by omega)]
    rw [wavHeader_44100]
    decide
  · intro i ch hi hc
    exact hsample 44100 2 100 channels _ henc i ch hi hc

/-- Witness for C5 on two all-zero 100-sample channels. -/
theorem claim_C5_witness :
    2 ≤ ([List.replicate 100 (0 : ℚ), List.replicate 100 (0 : ℚ)] : List (List ℚ)).length ∧
    ((∃ B, wavEncode 44100 2 100 16 [List.replicate 100 (0 : ℚ), List.replicate 100 0] =
        some B ∧ B.length = 444 ∧
        readU32le B 40 = 400 ∧ readU32le B 4 = 436 ∧ readU16le B 20 = 1 ∧
        (∀ i ch, i < 100 → ch < 2 → readInt16le B (44 + 2 * (i * 2 + ch)) =
          jsQuantize (jsSample [List.replicate 100 (0 : ℚ), List.replicate 100 0] ch i))) ∧
      (∀ (sr nc len : Nat) (chans : List (List ℚ)) (B : List Nat),
        wavEncode sr nc len 16 chans = some B → ∀ i ch, i < len → ch < nc →
        readInt16le B (44 + 2 * (i * nc + ch)) = jsQuantize (jsSample chans ch i))) :=
  ⟨by decide, claim_C5 [List.replicate 100 (0 : ℚ), List.replicate 100 0] (by decide)⟩

/-! C7: block-size independence of the offline mixing loop
(`AudioManager.renderMixToAudioBuffer`, `main.ts`).  The per-sample value a
note or beat adds depends only on the note's own fields and the absolute
sample index (`t = (i - startSample) / sampleRate` for the damped sine,
`srcIndex = timeSinceStart * playbackRate * srcRate` for the interpolated
file path), never on the block boundaries; the model therefore carries each
precomputed note/beat as its clipping range plus an abstract per-(channel,
sample) contribution, and the accumulator `+=` is an arbitrary (not assumed
commutative or associative — e.g. floating-point) operation `add`. -/

/-- A precomputed `NoteInfo`/`BeatInfo`: clipping range and the contribution
`val * gain` it adds at a given (channel, absolute sample). -/
structure RInfo (α : Type) where
  startSample : Nat
  endSample : Nat
  contrib : Nat → Nat → α

/-- In-place update of one list element (`Float32Array` store). -/
def lmod {α : Type} : List α → Nat → (α → α) → List α
  | [], _, _ => []
  | a :: t, 0, f => f a :: t
  | a :: t, j + 1, f => a :: lmod t j f

/-- `outputs[ch][i] += v`. -/
def upd2 {α : Type} (add : α → α → α) (out : List (List α)) (ch i : Nat) (v : α) :
    List (List α) :=
  lmod out ch (fun row => lmod row i (fun a => add a v))

/-- Processing one note/beat inside one block: skip if its sample range does
not intersect the block, else accumulate over the clipped range, innermost
over the channels. -/
def applyInfo {α : Type} (add : α → α → α) (numChannels blockStart blockEnd : Nat)
    (out : List (List α)) (ni : RInfo α) : List (List α) :=
  if ni.endSample ≤ blockStart ∨ blockEnd ≤ ni.startSample then out
  else
    let sStart := max blockStart ni.startSample
    let sEnd := min blockEnd ni.endSample
    (List.range' sStart (sEnd - sStart)).foldl (fun out i =>
      (List.range numChannels).foldl
        (fun out ch => upd2 add out ch i (ni.contrib ch i)) out) out

/-- One block: all notes, then all beats. -/
def processBlock {α : Type} (add : α → α → α) (numChannels blockStart blockEnd : Nat)
    (noteInfos beatInfos : List (RInfo α)) (out : List (List α)) : List (List α) :=
  beatInfos.foldl (applyInfo add numChannels blockStart blockEnd)
    (noteInfos.foldl (applyInfo add numChannels blockStart blockEnd) out)

/-- The `for (blockStart = 0; blockStart < totalSamples; blockStart += blockSize)`
loop (progress reporting and the cooperative yield do not touch the
accumulators). -/
def mixGo {α : Type} (add : α → α → α) (numChannels totalSamples blockSize : Nat)
    (noteInfos beatInfos : List (RInfo α)) :
    Nat → Nat → List (List α) → List (List α)
  | 0, _, out => out
  | fuel + 1, blockStart, out =>
    if blockStart < totalSamples then
      mixGo add numChannels totalSamples blockSize noteInfos beatInfos fuel
        (blockStart + blockSize)
        (processBlock add numChannels blockStart
          (min totalSamples (blockStart + blockSize)) noteInfos beatInfos out)
    else out

/-- The mixing pass over zero-initialised output buffers (`totalSamples` fuel
covers every block as soon as `blockSize ≥ 1`). -/
def renderMix {α : Type} (zero : α) (add : α → α → α)
    (numChannels totalSamples blockSize : Nat)
    (noteInfos beatInfos : List (RInfo α)) : List (List α) :=
  mixGo add numChannels totalSamples blockSize noteInfos beatInfos totalSamples 0
    (List.replicate numChannels (List.replicate totalSamples zero))

/-- One output cell. -/
def cell {α : Type} (out : List (List α)) (ch i : Nat) : Option α :=
  (out.get? ch).bind (·.get? i)

/-- The block-structure-free per-cell accumulation: fold the contributions of
the infos whose range contains `i`, in list order. -/
def cellAcc {α : Type} (add : α → α → α) (infos : List (RInfo α)) (ch i : Nat) (a : α) : α :=
  infos.foldl (fun acc ni =>
    if ni.startSample ≤ i ∧ i < ni.endSample then add acc (ni.contrib ch i) else acc) a

theorem lmod_get? {α : Type} : ∀ (l : List α) (j : Nat) (f : α → α) (i : Nat),
    (lmod l j f).get? i = if i = j then (l.get? i).map f else l.get? i := by
  intro l
  induction l with
  | nil => intro j f i; simp [lmod]
  | cons a t ih =>
    intro j f i
    cases j with
    | zero =>
      cases i with
      | zero => simp [lmod]
      | succ i => simp [lmod]
    | succ j =>
      cases i with
      | zero => simp [lmod]
      | succ i =>
        simp only [lmod, List.get?_cons_succ, ih j f i]
        by_cases h : i = j
        · rw [if_pos h, if_pos (by omega : i + 1 = j + 1)]
        · rw [if_neg h, if_neg (by omega : ¬(i + 1 = j + 1))]

theorem lmod_length {α : Type} : ∀ (l : List α) (j : Nat) (f : α → α),
    (lmod l j f).length = l.length := by
  intro l
  induction l with
  | nil => intro j f; rfl
  | cons a t ih =>
    intro j f
    cases j with
    | zero => rfl
    | succ j => simp [lmod, ih]

theorem cell_upd2 {α : Type} (add : α → α → α) (out : List (List α)) (ch i : Nat) (v : α)
    (ch' i' : Nat) :
    cell (upd2 add out ch i v) ch' i' =
      if ch' = ch ∧ i' = i then (cell out ch' i').map (fun a => add a v)
      else cell out ch' i' := by
  unfold cell upd2
  rw [lmod_get?]
  by_cases hc : ch' = ch
  · rw [if_pos hc]
    cases hrow : out.get? ch' with
    | none => simp [hrow]
    | some row =>
      simp only [Option.map_some', Option.some_bind]
      rw [lmod_get?]
      by_cases hi : i' = i
      · rw [if_pos hi, if_pos ⟨hc, hi⟩]
        try simp [hrow]
      · rw [if_neg hi, if_neg (by tauto)]
        try simp [hrow]
  · rw [if_neg hc, if_neg (by tauto)]

theorem cell_chanFold {α : Type} (add : α → α → α) (i : Nat) (c : Nat → α) :
    ∀ (nc : Nat) (out : List (List α)) (ch' i' : Nat),
    cell ((List.range nc).foldl (fun o ch => upd2 add o ch i (c ch)) out) ch' i' =
      if ch' < nc ∧ i' = i then (cell out ch' i').map (fun a => add a (c ch'))
      else cell out ch' i' := by
  intro nc
  induction nc with
  | zero => intro out ch' i'; simp [List.range_zero]
  | succ n ih =>
    intro out ch' i'
    rw [List.range_succ, List.foldl_append, List.foldl_cons, List.foldl_nil]
    rw [cell_upd2, ih]
    by_cases hi : i' = i
    · by_cases hc : ch' = n
      · subst hc
        rw [if_pos ⟨rfl, hi⟩, if_neg (by omega), if_pos ⟨by omega, hi⟩]
      · by_cases hlt : ch' < n
        · rw [if_neg (fun h => hc h.1), if_pos ⟨hlt, hi⟩, if_pos ⟨by omega, hi⟩]
        · rw [if_neg (fun h => hc h.1), if_neg (fun h => hlt h.1),
            if_neg (fun h => hc (by omega : ch' = n))]
    · rw [if_neg (fun h => hi h.2), if_neg (fun h => hi h.2), if_neg (fun h => hi h.2)]

theorem cell_sampleFold {α : Type} (add : α → α → α) (nc : Nat) (contrib : Nat → Nat → α) :
    ∀ (n s : Nat) (out : List (List α)) (ch i : Nat),
    cell ((List.range' s n).foldl (fun out j =>
        (List.range nc).foldl (fun out ch => upd2 add out ch j (contrib ch j)) out) out) ch i =
      if s ≤ i ∧ i < s + n ∧ ch < nc
      then (cell out ch i).map (fun a => add a (contrib ch i))
      else cell out ch i := by
  intro n
  induction n with
  | zero => intro s out ch i; rw [if_neg (by omega)]; rfl
  | succ n ih =>
    intro s out ch i
    rw [List.range'_succ, List.foldl_cons, ih, cell_chanFold]
    by_cases hA : s + 1 ≤ i ∧ i < s + 1 + n ∧ ch < nc
    · rw [if_pos hA, if_neg (by omega : ¬(ch < nc ∧ i = s)),
        if_pos (⟨by omega, by omega, hA.2.2⟩ : s ≤ i ∧ i < s + (n + 1) ∧ ch < nc)]
    · rw [if_neg hA]
      by_cases hB : ch < nc ∧ i = s
      · obtain ⟨hBc, hBi⟩ := hB
        subst hBi
        rw [if_pos ⟨hBc, rfl⟩,
          if_pos (⟨le_refl _, by omega, hBc⟩ : i ≤ i ∧ i < i + (n + 1) ∧ ch < nc)]
      · rw [if_neg hB, if_neg (by
          intro hC
          by_cases his : i = s
          · exact hB ⟨hC.2.2, his⟩
          · exact hA ⟨by omega, by omega, hC.2.2⟩)]

theorem cell_applyInfo {α : Type} (add : α → α → α) (nc bs be : Nat)
    (out : List (List α)) (ni : RInfo α) (ch i : Nat) :
    cell (applyInfo add nc bs be out ni) ch i =
      if bs ≤ i ∧ i < be ∧ ni.startSample ≤ i ∧ i < ni.endSample ∧ ch < nc
      then (cell out ch i).map (fun a => add a (ni.contrib ch i))
      else cell out ch i := by
  unfold applyInfo
  by_cases hskip : ni.endSample ≤ bs ∨ be ≤ ni.startSample
  · rw [if_pos hskip, if_neg (by omega)]
  · rw [if_neg hskip]
    rw [cell_sampleFold]
    push_neg at hskip
    by_cases hcond : max bs ni.startSample ≤ i ∧
        i < max bs ni.startSample + (min be ni.endSample - max bs ni.startSample) ∧ ch < nc
    · rw [if_pos hcond, if_pos (by
        rcases hcond with ⟨h1, h2, h3⟩
        have hx := max_le_iff.mp h1
        refine ⟨hx.1, ?_, hx.2, ?_, h3⟩ <;> omega)]
    · rw [if_neg hcond, if_neg (by
        intro hcon
        rcases hcon with ⟨h1, h2, h3, h4, h5⟩
        apply hcond
        have hmax : max bs ni.startSample ≤ i := max_le h1 h3
        have hmin : i < min be ni.endSample := lt_min h2 h4
        exact ⟨hmax, by omega, h5⟩)]

theorem cell_infosFold {α : Type} (add : α → α → α) (nc bs be : Nat) :
    ∀ (infos : List (RInfo α)) (out : List (List α)) (ch i : Nat),
    cell (infos.foldl (applyInfo add nc bs be) out) ch i =
      if bs ≤ i ∧ i < be ∧ ch < nc
      then (cell out ch i).map (cellAcc add infos ch i)
      else cell out ch i := by
  intro infos
  induction infos with
  | nil =>
    intro out ch i
    simp only [List.foldl_nil, cellAcc]
    by_cases h : bs ≤ i ∧ i < be ∧ ch < nc
    · rw [if_pos h]
      cases cell out ch i <;> rfl
    · rw [if_neg h]
  | cons ni rest ih =>
    intro out ch i
    rw [List.foldl_cons, ih, cell_applyInfo]
    by_cases h : bs ≤ i ∧ i < be ∧ ch < nc
    · rw [if_pos h]
      by_cases hr : ni.startSample ≤ i ∧ i < ni.endSample
      · rw [if_pos ⟨h.1, h.2.1, hr.1, hr.2, h.2.2⟩]
        rw [Option.map_map, if_pos h]
        congr 1
        funext a
        simp only [Function.comp, cellAcc, List.foldl_cons, if_pos hr]
      · rw [if_neg (by tauto), if_pos h]
        congr 1
        funext a
        simp only [cellAcc, List.foldl_cons, if_neg hr]
    · rw [if_neg h, if_neg (by tauto), if_neg h]

theorem cell_processBlock {α : Type} (add : α → α → α) (nc bs be : Nat)
    (notes beats : List (RInfo α)) (out : List (List α)) (ch i : Nat) :
    cell (processBlock add nc bs be notes beats out) ch i =
      if bs ≤ i ∧ i < be ∧ ch < nc
      then (cell out ch i).map (cellAcc add (notes ++ beats) ch i)
      else cell out ch i := by
  unfold processBlock
  rw [cell_infosFold, cell_infosFold]
  by_cases h : bs ≤ i ∧ i < be ∧ ch < nc
  · rw [if_pos h, if_pos h, Option.map_map, if_pos h]
    congr 1
    funext a
    simp only [Function.comp, cellAcc, List.foldl_append]
  · rw [if_neg h, if_neg h, if_neg h]

theorem length_foldl_applyInfo {α : Type} (add : α → α → α) (nc bs be : Nat) :
    ∀ (infos : List (RInfo α)) (out : List (List α)),
    (infos.foldl (applyInfo add nc bs be) out).length = out.length := by
  intro infos
  have hchan : ∀ (ni : RInfo α) (chs : List Nat) (j : Nat) (out : List (List α)),
      (chs.foldl (fun out ch => upd2 add out ch j (ni.contrib ch j)) out).length =
        out.length := by
    intro ni chs
    induction chs with
    | nil => intro j out; rfl
    | cons c cs ihc =>
      intro j out
      rw [List.foldl_cons, ihc j]
      unfold upd2
      rw [lmod_length]
  have hfold : ∀ (ni : RInfo α) (idxs : List Nat) (out : List (List α)),
      (idxs.foldl (fun out i => (List.range nc).foldl
        (fun out ch => upd2 add out ch i (ni.contrib ch i)) out) out).length =
        out.length := by
    intro ni idxs
    induction idxs with
    | nil => intro out; rfl
    | cons j t ihj =>
      intro out
      rw [List.foldl_cons, ihj, hchan]
  have hone : ∀ (out : List (List α)) (ni : RInfo α),
      (applyInfo add nc bs be out ni).length = out.length := by
    intro out ni
    unfold applyInfo
    split_ifs
    · rfl
    · exact hfold ni _ out
  induction infos with
  | nil => intro out; rfl
  | cons ni rest ih =>
    intro out
    rw [List.foldl_cons, ih, hone]

theorem length_mixGo {α : Type} (add : α → α → α) (nc total B : Nat)
    (notes beats : List (RInfo α)) :
    ∀ (fuel bs : Nat) (out : List (List α)),
    (mixGo add nc total B notes beats fuel bs out).length = out.length := by
  intro fuel
  induction fuel with
  | zero => intro bs out; rfl
  | succ f ih =>
    intro bs out
    unfold mixGo
    split_ifs
    · rw [ih]
      unfold processBlock
      rw [length_foldl_applyInfo, length_foldl_applyInfo]
    · rfl

theorem cell_mixGo_untouched {α : Type} (add : α → α → α) (nc total B : Nat)
    (notes beats : List (RInfo α)) :
    ∀ (fuel bs : Nat) (out : List (List α)) (ch i : Nat),
    (i < bs ∨ total ≤ i ∨ ¬ch < nc) →
    cell (mixGo add nc total B notes beats fuel bs out) ch i = cell out ch i := by
  intro fuel
  induction fuel with
  | zero => intro bs out ch i _; rfl
  | succ f ih =>
    intro bs out ch i hcase
    unfold mixGo
    split_ifs with hbs
    · rw [ih (bs + B) _ ch i (by omega), cell_processBlock]
      rw [if_neg (by
        intro hcon
        rcases hcon with ⟨h1, h2, h3⟩
        rcases hcase with h | h | h
        · omega
        · have := min_le_left total (bs + B)
          omega
        · exact h h3)]
    · rfl

theorem cell_mixGo_apply {α : Type} (add : α → α → α) (nc total B : Nat)
    (notes beats : List (RInfo α)) :
    ∀ (fuel bs : Nat) (out : List (List α)) (ch i : Nat),
    bs ≤ i → i < total → i < bs + fuel * B → ch < nc →
    cell (mixGo add nc total B notes beats fuel bs out) ch i =
      (cell out ch i).map (cellAcc add (notes ++ beats) ch i) := by
  intro fuel
  induction fuel with
  | zero => intro bs out ch i h1 h2 h3 h4; omega
  | succ f ih =>
    intro bs out ch i h1 h2 h3 h4
    unfold mixGo
    rw [if_pos (by omega)]
    by_cases hin : i < bs + B
    · rw [cell_mixGo_untouched add nc total B notes beats f (bs + B) _ ch i (by omega)]
      rw [cell_processBlock]
      rw [if_pos ⟨h1, by omega, h4⟩]
    · rw [ih (bs + B) _ ch i (by omega) h2 (by
        have : (f + 1) * B = f * B + B := by ring
        omega) h4]
      rw [cell_processBlock]
      rw [if_neg (by omega)]

theorem replicate_get? {α : Type} : ∀ (n i : Nat) (a : α),
    (List.replicate n a).get? i = if i < n then some a else none := by
  intro n
  induction n with
  | zero => intro i a; simp
  | succ n ih =>
    intro i a
    cases i with
    | zero => simp [List.replicate]
    | succ i =>
      simp only [List.replicate, List.get?_cons_succ, ih]
      by_cases h : i < n
      · rw [if_pos h, if_pos (by omega)]
      · rw [if_neg h, if_neg (by omega)]

theorem cell_renderMix {α : Type} (zero : α) (add : α → α → α) (nc total B : Nat)
    (notes beats : List (RInfo α)) (hB : 1 ≤ B) (ch i : Nat) :
    cell (renderMix zero add nc total B notes beats) ch i =
      if ch < nc ∧ i < total then some (cellAcc add (notes ++ beats) ch i zero)
      else none := by
  have hinit : cell (List.replicate nc (List.replicate total zero)) ch i =
      if ch < nc ∧ i < total then some zero else none := by
    unfold cell
    rw [replicate_get?]
    by_cases hc : ch < nc
    · rw [if_pos hc]
      simp only [Option.some_bind]
      rw [replicate_get?]
      by_cases hi : i < total
      · rw [if_pos hi, if_pos ⟨hc, hi⟩]
      · rw [if_neg hi, if_neg (by tauto)]
    · rw [if_neg hc, if_neg (by tauto)]
      rfl
  unfold renderMix
  by_cases h : ch < nc ∧ i < total
  · rw [cell_mixGo_apply add nc total B notes beats total 0
      (List.replicate nc (List.replicate total zero)) ch i (by omega) h.2
      (by
        have : total ≤ total * B := Nat.le_mul_of_pos_right total (by omega)
        omega) h.1]
    rw [hinit, if_pos h, if_pos h]
    rfl
  · rw [cell_mixGo_untouched add nc total B notes beats total 0 _ ch i (by
      push_neg at h
      by_cases hc : ch < nc
      · exact Or.inr (Or.inl (h hc))
      · exact Or.inr (Or.inr hc))]
    rw [hinit, if_neg h, if_neg h]

/-- C7: for fixed inputs, the mixing loop produces identical output buffers
for any two (positive) internal block sizes; the accumulation operation is
arbitrary (no commutativity or associativity assumed, so the statement covers
bit-exact floating-point addition), and the cooperative yield between blocks
does not touch the buffers at all in the source. -/
theorem claim_C7 {α : Type} (zero : α) (add : α → α → α) (nc total : Nat)
    (notes beats : List (RInfo α)) (B1 B2 : Nat) (h1 : 1 ≤ B1) (h2 : 1 ≤ B2) :
    renderMix zero add nc total B1 notes beats =
      renderMix zero add nc total B2 notes beats := by
  have hlen : ∀ B, (renderMix zero add nc total B notes beats).length = nc := by
    intro B
    unfold renderMix
    rw [length_mixGo, List.length_replicate]
  apply List.ext_get?
  intro ch
  by_cases hch : ch < nc
  · have hc1 : ch < (renderMix zero add nc total B1 notes beats).length := by
      rw [hlen]; exact hch
    have hc2 : ch < (renderMix zero add nc total B2 notes beats).length := by
      rw [hlen]; exact hch
    rw [List.get?_eq_get hc1, List.get?_eq_get hc2]
    congr 1
    apply List.ext_get?
    intro i
    have e1 : ((renderMix zero add nc total B1 notes beats).get ⟨ch, hc1⟩).get? i =
        cell (renderMix zero add nc total B1 notes beats) ch i := by
      unfold cell
      rw [List.get?_eq_get hc1]
      rfl
    have e2 : ((renderMix zero add nc total B2 notes beats).get ⟨ch, hc2⟩).get? i =
        cell (renderMix zero add nc total B2 notes beats) ch i := by
      unfold cell
      rw [List.get?_eq_get hc2]
      rfl
    rw [e1, e2, cell_renderMix zero add nc total B1 notes beats h1,
      cell_renderMix zero add nc total B2 notes beats h2]
  · have : (renderMix zero add nc total B1 notes beats).get? ch = none := by
      rw [List.get?_eq_none, hlen]
      omega
    have h2' : (renderMix zero add nc total B2 notes beats).get? ch = none := by
      rw [List.get?_eq_none, hlen]
      omega
    rw [this, h2']

/-- Witness for C7: a two-channel five-sample mix with a non-commutative,
non-associative accumulator (subtraction on ℤ) and block sizes 2 and 3. -/
theorem claim_C7_witness :
    renderMix (0 : ℤ) (fun a b => a - b) 2 5 2
        [⟨1, 4, fun ch i => (ch * 10 + i : ℤ)⟩] [⟨0, 3, fun _ i => (i : ℤ)⟩] =
      renderMix (0 : ℤ) (fun a b => a - b) 2 5 3
        [⟨1, 4, fun ch i => (ch * 10 + i : ℤ)⟩] [⟨0, 3, fun _ i => (i : ℤ)⟩] :=
  claim_C7 0 (fun a b => a - b) 2 5 _ _ 2 3 (by omega) (by omega)

/-! Shared parser-consumption lemmas for the round-trip (C2) and
running-status (C9) claims.  `parseEvDispatch` is the status-dispatch tail of
`parseEvent` (the code after running-status resolution), factored out so the
explicit-status and running-status entry paths can share one set of
per-event-kind lemmas. -/

def parseEvDispatch (data : List Nat) (dt : ℚ) (pos : Nat) (status rs' : Option Nat) :
    MidiEvent × Nat × Option Nat :=
  if optInRange status 0x80 0x8F then
    ({ deltaTime := dt, type := .noteOff, channel := status.map (· &&& 0x0F),
       note := data.get? pos, velocity := data.get? (pos + 1) }, pos + 2, rs')
  else if optInRange status 0x90 0x9F then
    let vel := data.get? (pos + 1)
    ({ deltaTime := dt,
       type := if vel = some 0 then .noteOff else .noteOn,
       channel := status.map (· &&& 0x0F),
       note := data.get? pos, velocity := vel }, pos + 2, rs')
  else if optInRange status 0xB0 0xBF then
    ({ deltaTime := dt, type := .controller, channel := status.map (· &&& 0x0F),
       controller := data.get? pos, value := data.get? (pos + 1) }, pos + 2, rs')
  else if optIs status 0xFF then
    let metaType := data.get? pos
    let len := readVariableLength data (pos + 1)
    ({ deltaTime := dt, type := .meta, metaType := metaType,
       data := some ((data.drop (pos + 1 + len.2)).take len.1) },
     pos + 1 + len.2 + len.1, rs')
  else if optInRange status 0xC0 0xCF then
    ({ deltaTime := dt, type := .programChange, channel := status.map (· &&& 0x0F),
       program := data.get? pos }, pos + 1, rs')
  else if optInRange status 0xE0 0xEF then
    let lsb := data.get? pos
    let msb := data.get? (pos + 1)
    ({ deltaTime := dt, type := .controller, channel := status.map (· &&& 0x0F),
       value := some (((msb.getD 0) <<< 7) ||| (lsb.getD 0)) }, pos + 2, rs')
  else if optIs status 0xF0 || optIs status 0xF7 then
    let len := readVariableLength data pos
    ({ deltaTime := dt, type := .sysex,
       data := some ((data.drop (pos + len.2)).take len.1) },
     pos + len.2 + len.1, rs')
  else
    ({ deltaTime := dt, type := .unknown }, pos + 1, rs')

theorem parseEvent_explicit (data : List Nat) (dt : ℚ) (pos : Nat) (rs : Option Nat)
    (st : Nat) (hst : 0x80 ≤ st) (hbyte : data.get? pos = some st) :
    parseEvent data dt pos rs = parseEvDispatch data dt (pos + 1) (some st) (some st) := by
  have h0 : optLt (some st) 0x80 = false := by simp [optLt]; omega
  simp only [parseEvent, parseEvDispatch, hbyte, h0, Bool.false_eq_true, if_false]

theorem parseEvent_running (data : List Nat) (dt : ℚ) (pos : Nat) (rs : Option Nat)
    (b : Nat) (hb : b < 0x80) (hbyte : data.get? pos = some b) :
    parseEvent data dt pos rs = parseEvDispatch data dt pos rs rs := by
  have h0 : optLt (some b) 0x80 = true := by simp [optLt]; omega
  simp only [parseEvent, parseEvDispatch, hbyte, h0, if_true]

theorem optInRange_true {s lo hi : Nat} (h1 : lo ≤ s) (h2 : s ≤ hi) :
    optInRange (some s) lo hi = true := by
  simp [optInRange]; omega

theorem optInRange_false {s lo hi : Nat} (h : s < lo ∨ hi < s) :
    optInRange (some s) lo hi = false := by
  simp [optInRange]; omega

theorem dispatch_noteOff (data : List Nat) (dt : ℚ) (pos : Nat) (st : Nat)
    (rs' : Option Nat) (h1 : 0x80 ≤ st) (h2 : st ≤ 0x8F) :
    parseEvDispatch data dt pos (some st) rs' =
      ({ deltaTime := dt, type := .noteOff, channel := some (st &&& 0x0F),
         note := data.get? pos, velocity := data.get? (pos + 1) }, pos + 2, rs') := by
  unfold parseEvDispatch
  rw [if_pos (optInRange_true h1 h2)]
  rfl

theorem dispatch_noteOn (data : List Nat) (dt : ℚ) (pos : Nat) (st : Nat)
    (rs' : Option Nat) (h1 : 0x90 ≤ st) (h2 : st ≤ 0x9F) :
    parseEvDispatch data dt pos (some st) rs' =
      ({ deltaTime := dt,
         type := if data.get? (pos + 1) = some 0 then .noteOff else .noteOn,
         channel := some (st &&& 0x0F),
         note := data.get? pos, velocity := data.get? (pos + 1) }, pos + 2, rs') := by
  unfold parseEvDispatch
  rw [if_neg (by rw [optInRange_false (by omega)]; simp),
    if_pos (optInRange_true h1 h2)]
  rfl

theorem dispatch_controller (data : List Nat) (dt : ℚ) (pos : Nat) (st : Nat)
    (rs' : Option Nat) (h1 : 0xB0 ≤ st) (h2 : st ≤ 0xBF) :
    parseEvDispatch data dt pos (some st) rs' =
      ({ deltaTime := dt, type := .controller, channel := some (st &&& 0x0F),
         controller := data.get? pos, value := data.get? (pos + 1) }, pos + 2, rs') := by
  unfold parseEvDispatch
  rw [if_neg (by rw [optInRange_false (by omega)]; simp),
    if_neg (by rw [optInRange_false (by omega)]; simp),
    if_pos (optInRange_true h1 h2)]
  rfl

theorem dispatch_meta (data : List Nat) (dt : ℚ) (pos : Nat) (rs' : Option Nat) :
    parseEvDispatch data dt pos (some 0xFF) rs' =
      ({ deltaTime := dt, type := .meta, metaType := data.get? pos,
         data := some ((data.drop (pos + 1 + (readVariableLength data (pos + 1)).2)).take
           (readVariableLength data (pos + 1)).1) },
       pos + 1 + (readVariableLength data (pos + 1)).2 +
         (readVariableLength data (pos + 1)).1, rs') := by
  unfold parseEvDispatch
  rw [if_neg (by rw [optInRange_false (by omega)]; simp),
    if_neg (by rw [optInRange_false (by omega)]; simp),
    if_neg (by rw [optInRange_false (by omega)]; simp),
    if_pos (by simp [optIs])]

theorem dispatch_programChange (data : List Nat) (dt : ℚ) (pos : Nat) (st : Nat)
    (rs' : Option Nat) (h1 : 0xC0 ≤ st) (h2 : st ≤ 0xCF) :
    parseEvDispatch data dt pos (some st) rs' =
      ({ deltaTime := dt, type := .programChange, channel := some (st &&& 0x0F),
         program := data.get? pos }, pos + 1, rs') := by
  unfold parseEvDispatch
  rw [if_neg (by rw [optInRange_false (by omega)]; simp),
    if_neg (by rw [optInRange_false (by omega)]; simp),
    if_neg (by rw [optInRange_false (by omega)]; simp),
    if_neg (by simp [optIs]; omega),
    if_pos (optInRange_true h1 h2)]
  rfl

theorem dispatch_pitchBend (data : List Nat) (dt : ℚ) (pos : Nat) (st : Nat)
    (rs' : Option Nat) (h1 : 0xE0 ≤ st) (h2 : st ≤ 0xEF) :
    parseEvDispatch data dt pos (some st) rs' =
      ({ deltaTime := dt, type := .controller, channel := some (st &&& 0x0F),
         value := some ((((data.get? (pos + 1)).getD 0) <<< 7) |||
           ((data.get? pos).getD 0)) }, pos + 2, rs') := by
  unfold parseEvDispatch
  rw [if_neg (by rw [optInRange_false (by omega)]; simp),
    if_neg (by rw [optInRange_false (by omega)]; simp),
    if_neg (by rw [optInRange_false (by omega)]; simp),
    if_neg (by simp [optIs]; omega),
    if_neg (by rw [optInRange_false (by omega)]; simp),
    if_pos (optInRange_true h1 h2)]
  rfl

/-! Agreement of the total parser model with the crash-exact one: wherever
`parseEventE`/`parseTrackE`/`parseE` succeed (the source does not throw the
unknown-status `TypeError`), the total `parseEvent`/`parseTrack`/`parse`
compute the same result.  All theorems stated over the total model therefore
describe the source on every input on which the source terminates normally. -/

/-- The status-dispatch tail of `parseEventE` (crash-exact analogue of
`parseEvDispatch`). -/
def parseEvDispatchE (data : List Nat) (dt : ℚ) (pos : Nat) (status rs' : Option Nat) :
    Except Unit (MidiEvent × Nat × Option Nat) :=
  if optInRange status 0x80 0x8F then
    .ok ({ deltaTime := dt, type := .noteOff, channel := status.map (· &&& 0x0F),
           note := data.get? pos, velocity := data.get? (pos + 1) }, pos + 2, rs')
  else if optInRange status 0x90 0x9F then
    let vel := data.get? (pos + 1)
    .ok ({ deltaTime := dt,
           type := if vel = some 0 then .noteOff else .noteOn,
           channel := status.map (· &&& 0x0F),
           note := data.get? pos, velocity := vel }, pos + 2, rs')
  else if optInRange status 0xB0 0xBF then
    .ok ({ deltaTime := dt, type := .controller, channel := status.map (· &&& 0x0F),
           controller := data.get? pos, value := data.get? (pos + 1) }, pos + 2, rs')
  else if optIs status 0xFF then
    let metaType := data.get? pos
    let len := readVariableLength data (pos + 1)
    .ok ({ deltaTime := dt, type := .meta, metaType := metaType,
           data := some ((data.drop (pos + 1 + len.2)).take len.1) },
         pos + 1 + len.2 + len.1, rs')
  else if optInRange status 0xC0 0xCF then
    .ok ({ deltaTime := dt, type := .programChange, channel := status.map (· &&& 0x0F),
           program := data.get? pos }, pos + 1, rs')
  else if optInRange status 0xE0 0xEF then
    let lsb := data.get? pos
    let msb := data.get? (pos + 1)
    .ok ({ deltaTime := dt, type := .controller, channel := status.map (· &&& 0x0F),
           value := some (((msb.getD 0) <<< 7) ||| (lsb.getD 0)) }, pos + 2, rs')
  else if optIs status 0xF0 || optIs status 0xF7 then
    let len := readVariableLength data pos
    .ok ({ deltaTime := dt, type := .sysex,
           data := some ((data.drop (pos + len.2)).take len.1) },
         pos + len.2 + len.1, rs')
  else
    match status with
    | none => .error ()
    | some _ => .ok ({ deltaTime := dt, type := .unknown }, pos + 1, rs')

theorem parseEventE_explicit (data : List Nat) (dt : ℚ) (pos : Nat) (rs : Option Nat)
    (st : Nat) (hst : 0x80 ≤ st) (hbyte : data.get? pos = some st) :
    parseEventE data dt pos rs = parseEvDispatchE data dt (pos + 1) (some st) (some st) := by
  have h0 : optLt (some st) 0x80 = false := by
    simp [optLt]
    omega
  simp only [parseEventE, parseEvDispatchE, hbyte, h0, Bool.false_eq_true, if_false]

theorem parseEventE_running (data : List Nat) (dt : ℚ) (pos : Nat) (rs : Option Nat)
    (b : Nat) (hb : b < 0x80) (hbyte : data.get? pos = some b) :
    parseEventE data dt pos rs = parseEvDispatchE data dt pos rs rs := by
  have h0 : optLt (some b) 0x80 = true := by
    simp [optLt]
    omega
  simp only [parseEventE, parseEvDispatchE, hbyte, h0, if_true]

/-- A status read past the end of the data crashes: the source's
`status.toString(16)` on `undefined`. -/
theorem parseEventE_undef (data : List Nat) (dt : ℚ) (pos : Nat) (rs : Option Nat)
    (hbyte : data.get? pos = none) :
    parseEventE data dt pos rs = .error () := by
  simp only [parseEventE, hbyte]
  simp [optLt, optInRange, optIs]

theorem dispatchE_none (data : List Nat) (dt : ℚ) (pos : Nat) (rs' : Option Nat) :
    parseEvDispatchE data dt pos none rs' = .error () := by
  simp [parseEvDispatchE, optInRange, optIs]

theorem dispatchE_some (data : List Nat) (dt : ℚ) (pos : Nat) (s : Nat)
    (rs' : Option Nat) :
    parseEvDispatchE data dt pos (some s) rs' =
      .ok (parseEvDispatch data dt pos (some s) rs') := by
  unfold parseEvDispatchE parseEvDispatch
  split_ifs <;> rfl

/-- When the crash-exact event step succeeds, the total one computes the same
triple. -/
theorem parseEventE_agree (data : List Nat) (dt : ℚ) (pos0 : Nat) (rs : Option Nat)
    (x : MidiEvent × Nat × Option Nat)
    (h : parseEventE data dt pos0 rs = .ok x) :
    parseEvent data dt pos0 rs = x := by
  cases hb : data.get? pos0 with
  | none =>
    rw [parseEventE_undef data dt pos0 rs hb] at h
    exact absurd h (by simp)
  | some b =>
    by_cases hlt : b < 0x80
    · rw [parseEventE_running data dt pos0 rs b hlt hb] at h
      rw [parseEvent_running data dt pos0 rs b hlt hb]
      cases hrs : rs with
      | none =>
        rw [hrs, dispatchE_none] at h
        exact absurd h (by simp)
      | some r =>
        rw [hrs, dispatchE_some] at h
        rw [Except.ok.injEq] at h
        exact h
    · rw [parseEventE_explicit data dt pos0 rs b (by omega) hb] at h
      rw [parseEvent_explicit data dt pos0 rs b (by omega) hb]
      rw [dispatchE_some] at h
      rw [Except.ok.injEq] at h
      exact h

theorem parseTrackGoE_succ (data : List Nat) (fuel pos : Nat) (rs : Option Nat)
    (acc : List MidiEvent) (hp : pos < data.length) :
    parseTrackGoE data (fuel + 1) pos rs acc =
      match parseEventE data ((readVariableLength data pos).1 : ℚ)
          (pos + (readVariableLength data pos).2) rs with
      | .error e => .error e
      | .ok step => parseTrackGoE data fuel step.2.1 step.2.2 (step.1 :: acc) := by
  rw [parseTrackGoE]
  rw [if_pos hp]

theorem parseTrackGo_succ (data : List Nat) (fuel pos : Nat) (rs : Option Nat)
    (acc : List MidiEvent) (hp : pos < data.length) :
    parseTrackGo data (fuel + 1) pos rs acc =
      parseTrackGo data fuel
        (parseEvent data ((readVariableLength data pos).1 : ℚ)
          (pos + (readVariableLength data pos).2) rs).2.1
        (parseEvent data ((readVariableLength data pos).1 : ℚ)
          (pos + (readVariableLength data pos).2) rs).2.2
        ((parseEvent data ((readVariableLength data pos).1 : ℚ)
          (pos + (readVariableLength data pos).2) rs).1 :: acc) := by
  rw [parseTrackGo]
  rw [if_pos hp]

theorem parseTrackGoE_agree (data : List Nat) :
    ∀ (fuel pos : Nat) (rs : Option Nat) (acc evs : List MidiEvent),
    parseTrackGoE data fuel pos rs acc = .ok evs →
    parseTrackGo data fuel pos rs acc = evs := by
  intro fuel
  induction fuel with
  | zero =>
    intro pos rs acc evs h
    simp only [parseTrackGoE, Except.ok.injEq] at h
    simp only [parseTrackGo]
    exact h
  | succ f ih =>
    intro pos rs acc evs h
    by_cases hp : pos < data.length
    · rw [parseTrackGoE_succ data f pos rs acc hp] at h
      rw [parseTrackGo_succ data f pos rs acc hp]
      rcases he : parseEventE data ((readVariableLength data pos).1 : ℚ)
          (pos + (readVariableLength data pos).2) rs with e | step
      · rw [he] at h
        simp at h
      · rw [he] at h
        rw [parseEventE_agree _ _ _ _ _ he]
        exact ih _ _ _ _ h
    · rw [parseTrackGoE] at h
      rw [if_neg hp] at h
      rw [parseTrackGo]
      rw [if_neg hp]
      simp only [Except.ok.injEq] at h
      exact h

/-- When the crash-exact `parseTrackE` succeeds, `parseTrack` returns the
same track. -/
theorem parseTrackE_agree (data : List Nat) (t : MidiTrack)
    (h : parseTrackE data = .ok t) : parseTrack data = t := by
  unfold parseTrackE at h
  rcases hg : parseTrackGoE data (data.length + 1) 0 (some 0) [] with e | evs
  · rw [hg] at h
    simp at h
  · rw [hg] at h
    simp only [Except.ok.injEq] at h
    show (⟨parseTrackGo data (data.length + 1) 0 (some 0) []⟩ : MidiTrack) = t
    rw [parseTrackGoE_agree data (data.length + 1) 0 (some 0) [] evs hg]
    exact h

theorem parseTracksGoE_agree (data : List Nat) :
    ∀ (n pos i : Nat) (acc ts : List MidiTrack),
    parseTracksGoE data n pos i acc = .ok ts →
    parseTracksGo data n pos i acc = .ok ts := by
  intro n
  induction n with
  | zero =>
    intro pos i acc ts h
    simp only [parseTracksGoE, Except.ok.injEq] at h
    simp only [parseTracksGo, h]
  | succ n ih =>
    intro pos i acc ts h
    unfold parseTracksGoE at h
    unfold parseTracksGo
    by_cases hc : (readChunk data pos).1 = [0x4D, 0x54, 0x72, 0x6B]
    · rw [if_pos hc] at h
      rw [if_pos hc]
      rcases ht : parseTrackE (readChunk data pos).2.1 with e | t
      · rw [ht] at h
        simp at h
      · rw [ht] at h
        rw [parseTrackE_agree _ _ ht]
        exact ih _ _ _ _ h
    · rw [if_neg hc] at h
      simp at h

/-- When the crash-exact `parseE` succeeds, so does `parse`, with the same
file: the total model describes the source on every normally terminating
input. -/
theorem parseE_agree (data : List Nat) (f : MidiFile)
    (h : parseE data = .ok f) : parse data = .ok f := by
  unfold parseE at h
  unfold parse
  by_cases h1 : (readChunk data 0).1 ≠ [0x4D, 0x54, 0x68, 0x64]
  · rw [if_pos h1] at h
    simp at h
  · rw [if_neg h1] at h
    rw [if_neg h1]
    by_cases h2 : ((readChunk data 0).2.1).length ≠ 6
    · rw [if_pos h2] at h
      simp at h
    · rw [if_neg h2] at h
      rw [if_neg h2]
      have h' : (match parseTracksGoE data (readUint16 (readChunk data 0).2.1 2)
            (readChunk data 0).2.2 0 [] with
          | Except.ok tracks => Except.ok
              ({ format := readUint16 (readChunk data 0).2.1 0, tracks := tracks,
                 ticksPerQuarter := readUint16 (readChunk data 0).2.1 4 } : MidiFile)
          | Except.error e => Except.error e) = Except.ok f := h
      show (match parseTracksGo data (readUint16 (readChunk data 0).2.1 2)
            (readChunk data 0).2.2 0 [] with
          | Except.ok tracks => Except.ok
              ({ format := readUint16 (readChunk data 0).2.1 0, tracks := tracks,
                 ticksPerQuarter := readUint16 (readChunk data 0).2.1 4 } : MidiFile)
          | Except.error e => Except.error e) = Except.ok f
      rcases hg : parseTracksGoE data (readUint16 (readChunk data 0).2.1 2)
          (readChunk data 0).2.2 0 [] with e | tracks
      · rw [hg] at h'
        simp at h'
      · rw [hg] at h'
        rw [parseTracksGoE_agree data _ _ _ _ _ hg]
        exact h'

/-! C9: running status versus explicit status bytes. -/

/-- A logical MIDI channel event: delta time, status byte, data bytes (least
significant / first data byte first, as on the wire). -/
structure ChanEvent where
  delta : Nat
  status : Nat
  bytes : List Nat
deriving DecidableEq, Repr

/-- Encoding with an explicit status byte on every event. -/
def encEventExplicit (e : ChanEvent) : List Nat :=
  writeVLQnat e.delta ++ e.status :: e.bytes

/-- A track encoded with an explicit status byte on every event. -/
def encExplicit (es : List ChanEvent) : List Nat :=
  (es.map encEventExplicit).flatten

/-- Running-status encoding: the status byte is omitted whenever it equals
the previous event's status. -/
def encRunning : Option Nat → List ChanEvent → List Nat
  | _, [] => []
  | last, e :: t =>
    writeVLQnat e.delta ++ (if last = some e.status then [] else [e.status]) ++
      e.bytes ++ encRunning (some e.status) t

/-- A track encoded with running status (no previous status at the start). -/
def encRunningTop (es : List ChanEvent) : List Nat := encRunning none es

/-- The channel events this parser decodes structurally: NoteOff/NoteOn
(0x8n/0x9n), Control Change (0xBn), Program Change (0xCn) and Pitch Bend
(0xEn), with the correct data-byte count and data bytes below 0x80.
(Polyphonic aftertouch 0xAn and channel pressure 0xDn fall into the
unknown-status branch, which consumes a single byte.) -/
def ChanWF (e : ChanEvent) : Prop :=
  e.delta ≤ 0x0FFFFFFF ∧ (∀ b ∈ e.bytes, b < 0x80) ∧
    ((0x80 ≤ e.status ∧ e.status ≤ 0x9F ∧ e.bytes.length = 2) ∨
     (0xB0 ≤ e.status ∧ e.status ≤ 0xBF ∧ e.bytes.length = 2) ∨
     (0xC0 ≤ e.status ∧ e.status ≤ 0xCF ∧ e.bytes.length = 1) ∨
     (0xE0 ≤ e.status ∧ e.status ≤ 0xEF ∧ e.bytes.length = 2))

/-- The `MidiEvent` the parser produces for a channel event (the dispatch run
on the event's own bytes). -/
def parsedOf (e : ChanEvent) : MidiEvent :=
  (parseEvDispatch e.bytes ((e.delta : Nat) : ℚ) 0 (some e.status) (some e.status)).1

theorem list_len2 {α : Type} {l : List α} (h : l.length = 2) : ∃ a b, l = [a, b] := by
  match l, h with
  | [a, b], _ => exact ⟨a, b, rfl⟩

theorem list_len1 {α : Type} {l : List α} (h : l.length = 1) : ∃ a, l = [a] := by
  match l, h with
  | [a], _ => exact ⟨a, rfl⟩

theorem dispatch_consume (data : List Nat) (dt : ℚ) (pos : Nat) (e : ChanEvent)
    (rs' : Option Nat) (rest : List Nat) (hWF : ChanWF e)
    (hdrop : data.drop pos = e.bytes ++ rest) :
    parseEvDispatch data dt pos (some e.status) rs' =
      ((parseEvDispatch e.bytes dt 0 (some e.status) (some e.status)).1,
        pos + e.bytes.length, rs') := by
  obtain ⟨-, hbytes, hfam⟩ := hWF
  have hget : ∀ j, j < e.bytes.length → data.get? (pos + j) = e.bytes.get? j := by
    intro j hj
    have h0 := List.get?_drop data pos j
    rw [hdrop, List.get?_append (by omega)] at h0
    exact h0.symm
  rcases hfam with ⟨h1, h2, hlen⟩ | ⟨h1, h2, hlen⟩ | ⟨h1, h2, hlen⟩ | ⟨h1, h2, hlen⟩
  · obtain ⟨d1, d2, hb⟩ := list_len2 hlen
    have g0 : data.get? pos = some d1 := by
      have := hget 0 (by omega)
      rw [hb] at this
      simpa using this
    have g1 : data.get? (pos + 1) = some d2 := by
      have := hget 1 (by omega)
      rw [hb] at this
      simpa using this
    by_cases hoff : e.status ≤ 0x8F
    · rw [dispatch_noteOff data dt pos e.status rs' h1 hoff,
        dispatch_noteOff e.bytes dt 0 e.status (some e.status) h1 hoff]
      rw [g0, g1, hb]
      rfl
    · push_neg at hoff
      rw [dispatch_noteOn data dt pos e.status rs' (by omega) h2,
        dispatch_noteOn e.bytes dt 0 e.status (some e.status) (by omega) h2]
      rw [g0, g1, hb]
      rfl
  · obtain ⟨d1, d2, hb⟩ := list_len2 hlen
    have g0 : data.get? pos = some d1 := by
      have := hget 0 (by omega)
      rw [hb] at this
      simpa using this
    have g1 : data.get? (pos + 1) = some d2 := by
      have := hget 1 (by omega)
      rw [hb] at this
      simpa using this
    rw [dispatch_controller data dt pos e.status rs' h1 h2,
      dispatch_controller e.bytes dt 0 e.status (some e.status) h1 h2]
    rw [g0, g1, hb]
    rfl
  · obtain ⟨d1, hb⟩ := list_len1 hlen
    have g0 : data.get? pos = some d1 := by
      have := hget 0 (by omega)
      rw [hb] at this
      simpa using this
    rw [dispatch_programChange data dt pos e.status rs' h1 h2,
      dispatch_programChange e.bytes dt 0 e.status (some e.status) h1 h2]
    rw [g0, hb]
    rfl
  · obtain ⟨d1, d2, hb⟩ := list_len2 hlen
    have g0 : data.get? pos = some d1 := by
      have := hget 0 (by omega)
      rw [hb] at this
      simpa using this
    have g1 : data.get? (pos + 1) = some d2 := by
      have := hget 1 (by omega)
      rw [hb] at this
      simpa using this
    rw [dispatch_pitchBend data dt pos e.status rs' h1 h2,
      dispatch_pitchBend e.bytes dt 0 e.status (some e.status) h1 h2]
    rw [g0, g1, hb]
    rfl

theorem writeVLQnat_ne_nil (n : Nat) : writeVLQnat n ≠ [] := by
  by_cases h : n ≤ 0x7F
  · rw [writeVLQnat_le n h]
    simp
  · rw [writeVLQnat_gt n (by omega)]
    simp

theorem drop_shift {α : Type} (data : List α) (pos : Nat) (pre rest : List α)
    (h : data.drop pos = pre ++ rest) :
    data.drop (pos + pre.length) = rest := by
  have h2 : List.drop pre.length (List.drop pos data) = rest := by
    rw [h, List.drop_left]
  rw [List.drop_drop] at h2
  exact h2

theorem drop_append_pos {α : Type} {data pre rest : List α} {pos : Nat}
    (h : data.drop pos = pre ++ rest) (hne : pre ≠ []) : pos < data.length := by
  have h1 : (data.drop pos).length = data.length - pos := List.length_drop pos data
  rw [h, List.length_append] at h1
  have h2 : 0 < pre.length := List.length_pos.mpr hne
  omega

/-- One `while`-loop iteration over an explicitly-encoded channel event. -/
theorem step_explicit (data : List Nat) (fuel pos : Nat) (rs : Option Nat)
    (acc : List MidiEvent) (e : ChanEvent) (rest : List Nat)
    (hWF : ChanWF e) (hdrop : data.drop pos = encEventExplicit e ++ rest) :
    parseTrackGo data (fuel + 1) pos rs acc =
      parseTrackGo data fuel (pos + (encEventExplicit e).length) (some e.status)
        (parsedOf e :: acc) := by
  have hdrop1 : data.drop pos = writeVLQnat e.delta ++ (e.status :: e.bytes ++ rest) := by
    rw [hdrop, encEventExplicit, List.append_assoc]
  have hvlq : readVariableLength data pos = (e.delta, (writeVLQnat e.delta).length) :=
    readVLQ_write data pos e.delta _ hWF.1 hdrop1
  have hdrop2 : data.drop (pos + (writeVLQnat e.delta).length) =
      e.status :: (e.bytes ++ rest) := by
    simpa using drop_shift data pos (writeVLQnat e.delta) _ hdrop1
  have hst : data.get? (pos + (writeVLQnat e.delta).length) = some e.status := by
    have h0 := List.get?_drop data (pos + (writeVLQnat e.delta).length) 0
    rw [hdrop2] at h0
    simpa using h0.symm
  have hstge : 0x80 ≤ e.status := by
    rcases hWF.2.2 with ⟨h1, -, -⟩ | ⟨h1, -, -⟩ | ⟨h1, -, -⟩ | ⟨h1, -, -⟩ <;> omega
  have hdrop3 : data.drop (pos + (writeVLQnat e.delta).length + 1) = e.bytes ++ rest := by
    have := drop_shift data (pos + (writeVLQnat e.delta).length)
      [e.status] (e.bytes ++ rest) (by simpa using hdrop2)
    simpa using this
  have hpos : pos < data.length :=
    drop_append_pos hdrop1 (writeVLQnat_ne_nil e.delta)
  have hev : parseEvent data ((e.delta : Nat) : ℚ)
      (pos + (writeVLQnat e.delta).length) rs =
      (parsedOf e, pos + (writeVLQnat e.delta).length + 1 + e.bytes.length,
        some e.status) := by
    rw [parseEvent_explicit data _ _ rs e.status hstge hst,
      dispatch_consume data _ _ e (some e.status) rest hWF hdrop3]
    rfl
  show parseTrackGo data (fuel + 1) pos rs acc = _
  rw [parseTrackGo]
  rw [if_pos hpos]
  simp only [hvlq, hev]
  have hlen : (encEventExplicit e).length =
      (writeVLQnat e.delta).length + 1 + e.bytes.length := by
    simp [encEventExplicit]
    omega
  rw [hlen]
  congr 1
  omega

/-- One `while`-loop iteration over a running-status event (status omitted):
the parser re-uses `runningStatus`, which must hold the event's status. -/
theorem step_running_omit (data : List Nat) (fuel pos : Nat)
    (acc : List MidiEvent) (e : ChanEvent) (rest : List Nat)
    (hWF : ChanWF e)
    (hdrop : data.drop pos = writeVLQnat e.delta ++ (e.bytes ++ rest)) :
    parseTrackGo data (fuel + 1) pos (some e.status) acc =
      parseTrackGo data fuel
        (pos + (writeVLQnat e.delta).length + e.bytes.length)
        (some e.status) (parsedOf e :: acc) := by
  have hvlq : readVariableLength data pos = (e.delta, (writeVLQnat e.delta).length) :=
    readVLQ_write data pos e.delta _ hWF.1 hdrop
  have hdrop2 : data.drop (pos + (writeVLQnat e.delta).length) = e.bytes ++ rest :=
    drop_shift data pos (writeVLQnat e.delta) _ hdrop
  obtain ⟨b, t, hb⟩ : ∃ b t, e.bytes = b :: t := by
    rcases hWF.2.2 with ⟨-, -, hlen⟩ | ⟨-, -, hlen⟩ | ⟨-, -, hlen⟩ | ⟨-, -, hlen⟩ <;>
      (cases hbt : e.bytes with
       | nil => rw [hbt] at hlen; simp at hlen
       | cons b t => exact ⟨b, t, rfl⟩)
  have hfirst : data.get? (pos + (writeVLQnat e.delta).length) = some b := by
    have h0 := List.get?_drop data (pos + (writeVLQnat e.delta).length) 0
    rw [hdrop2, hb] at h0
    simpa using h0.symm
  have hblt : b < 0x80 := hWF.2.1 b (by rw [hb]; exact List.mem_cons_self b t)
  have hpos : pos < data.length :=
    drop_append_pos hdrop (writeVLQnat_ne_nil e.delta)
  have hev : parseEvent data ((e.delta : Nat) : ℚ)
      (pos + (writeVLQnat e.delta).length) (some e.status) =
      (parsedOf e, pos + (writeVLQnat e.delta).length + e.bytes.length,
        some e.status) := by
    rw [parseEvent_running data _ _ (some e.status) b hblt hfirst,
      dispatch_consume data _ _ e (some e.status) rest hWF hdrop2]
    rfl
  show parseTrackGo data (fuel + 1) pos (some e.status) acc = _
  rw [parseTrackGo]
  rw [if_pos hpos]
  simp only [hvlq, hev]

/-- Once the position reaches the end of the data the loop stops. -/
theorem parseTrackGo_done (data : List Nat) (fuel pos : Nat) (rs : Option Nat)
    (acc : List MidiEvent) (h : data.length ≤ pos) :
    parseTrackGo data fuel pos rs acc = acc.reverse := by
  cases fuel with
  | zero => rfl
  | succ f =>
    rw [parseTrackGo]
    rw [if_neg (by omega)]

theorem length_encExplicit (es : List ChanEvent) :
    es.length ≤ (encExplicit es).length := by
  induction es with
  | nil => simp [encExplicit]
  | cons e t ih =>
    have h1 : encExplicit (e :: t) = encEventExplicit e ++ encExplicit t := by
      simp [encExplicit]
    rw [h1, List.length_append, List.length_cons]
    have h2 : 1 ≤ (encEventExplicit e).length := by
      simp [encEventExplicit]
      omega
    omega

theorem length_encRunning (lastOpt : Option Nat) (es : List ChanEvent) :
    es.length ≤ (encRunning lastOpt es).length := by
  induction es generalizing lastOpt with
  | nil => simp [encRunning]
  | cons e t ih =>
    rw [encRunning]
    simp only [List.length_append, List.length_cons]
    have h1 : 1 ≤ (writeVLQnat e.delta).length := by
      have := writeVLQnat_ne_nil e.delta
      cases h : writeVLQnat e.delta with
      | nil => exact absurd h this
      | cons a l => simp
    have h2 := ih (some e.status)
    omega

/-- Parsing a track that is exactly an explicitly-encoded well-formed event
list yields those events. -/
theorem parseTrackGo_encExplicit (es : List ChanEvent) :
    ∀ (data : List Nat) (pos fuel : Nat) (rs : Option Nat) (acc : List MidiEvent),
    (∀ e ∈ es, ChanWF e) → es.length ≤ fuel → data.drop pos = encExplicit es →
    parseTrackGo data fuel pos rs acc = acc.reverse ++ es.map parsedOf := by
  induction es with
  | nil =>
    intro data pos fuel rs acc _ _ hdrop
    have hlen : data.length ≤ pos := by
      have h1 : (data.drop pos).length = data.length - pos := List.length_drop pos data
      rw [hdrop] at h1
      simp [encExplicit] at h1
      omega
    rw [parseTrackGo_done data fuel pos rs acc hlen]
    simp
  | cons e t ih =>
    intro data pos fuel rs acc hWF hfuel hdrop
    obtain ⟨f, rfl⟩ : ∃ f, fuel = f + 1 := by
      cases fuel with
      | zero => simp at hfuel
      | succ f => exact ⟨f, rfl⟩
    have hdrop1 : data.drop pos = encEventExplicit e ++ encExplicit t := by
      rw [hdrop]
      simp [encExplicit]
    rw [step_explicit data f pos rs acc e (encExplicit t) (hWF e (by simp)) hdrop1]
    rw [ih data (pos + (encEventExplicit e).length) f (some e.status) (parsedOf e :: acc)
      (fun x hx => hWF x (by simp [hx])) (by simp at hfuel; omega)
      (drop_shift data pos (encEventExplicit e) _ hdrop1)]
    simp

/-- Parsing a track that is exactly a running-status encoding of a
well-formed event list yields those events, provided the parser's
`runningStatus` agrees with the encoder's previous-status state. -/
theorem parseTrackGo_encRunning (es : List ChanEvent) :
    ∀ (data : List Nat) (pos fuel : Nat) (lastOpt rs : Option Nat)
      (acc : List MidiEvent),
    (∀ e ∈ es, ChanWF e) → es.length ≤ fuel →
    data.drop pos = encRunning lastOpt es →
    (∀ st, lastOpt = some st → rs = some st) →
    parseTrackGo data fuel pos rs acc = acc.reverse ++ es.map parsedOf := by
  induction es with
  | nil =>
    intro data pos fuel lastOpt rs acc _ _ hdrop _
    have hlen : data.length ≤ pos := by
      have h1 : (data.drop pos).length = data.length - pos := List.length_drop pos data
      rw [hdrop] at h1
      simp [encRunning] at h1
      omega
    rw [parseTrackGo_done data fuel pos rs acc hlen]
    simp
  | cons e t ih =>
    intro data pos fuel lastOpt rs acc hWF hfuel hdrop hrs
    obtain ⟨f, rfl⟩ : ∃ f, fuel = f + 1 := by
      cases fuel with
      | zero => simp at hfuel
      | succ f => exact ⟨f, rfl⟩
    by_cases hlast : lastOpt = some e.status
    · have hdrop1 : data.drop pos =
          writeVLQnat e.delta ++ (e.bytes ++ encRunning (some e.status) t) := by
        rw [hdrop, encRunning]
        rw [if_pos hlast]
        simp
      rw [hrs e.status hlast]
      rw [step_running_omit data f pos acc e _ (hWF e (by simp)) hdrop1]
      have hdrop2 : data.drop (pos + (writeVLQnat e.delta).length + e.bytes.length) =
          encRunning (some e.status) t := by
        have h2 := drop_shift data pos (writeVLQnat e.delta) _ hdrop1
        have h3 := drop_shift data (pos + (writeVLQnat e.delta).length) e.bytes _ h2
        exact h3
      rw [ih data _ f (some e.status) (some e.status) (parsedOf e :: acc)
        (fun x hx => hWF x (by simp [hx])) (by simp at hfuel; omega) hdrop2
        (fun st hst => by rw [← Option.some_inj.mp hst])]
      simp
    · have hdrop1 : data.drop pos =
          encEventExplicit e ++ encRunning (some e.status) t := by
        rw [hdrop, encRunning]
        rw [if_neg hlast, encEventExplicit]
        simp
      rw [step_explicit data f pos rs acc e _ (hWF e (by simp)) hdrop1]
      rw [ih data _ f (some e.status) (some e.status) (parsedOf e :: acc)
        (fun x hx => hWF x (by simp [hx])) (by simp at hfuel; omega)
        (drop_shift data pos (encEventExplicit e) _ hdrop1)
        (fun st hst => by rw [← Option.some_inj.mp hst])]
      simp

/-- C9 (corrected): for every sequence of channel events whose statuses the
parser structurally decodes — NoteOff/NoteOn/Control Change/Pitch Bend with
two data bytes, Program Change with one, all data bytes below 0x80 and delta
times representable in a 4-byte VLQ — parsing the running-status encoding
(status byte omitted on repeats) yields exactly the same event list as
parsing the encoding with an explicit status byte on every event; both equal
the direct per-event decoding.  The universal claim over ALL channel events
is false: for a status the dispatch does not recognise (e.g. polyphonic
aftertouch 0xAn) the parser consumes a single byte, so the two encodings
desynchronize (see the counterexample). -/
theorem claim_C9 (es : List ChanEvent) (hWF : ∀ e ∈ es, ChanWF e) :
    parseTrack (encRunningTop es) = parseTrack (encExplicit es) ∧
    (parseTrack (encRunningTop es)).events = es.map parsedOf := by
  have hrun : parseTrack (encRunningTop es) = ⟨es.map parsedOf⟩ := by
    show (⟨parseTrackGo (encRunningTop es) ((encRunningTop es).length + 1) 0
      (some 0) []⟩ : MidiTrack) = _
    rw [parseTrackGo_encRunning es (encRunningTop es) 0
      ((encRunningTop es).length + 1) none (some 0) [] hWF
      (by have := length_encRunning none es; rw [encRunningTop]; omega)
      (by rw [List.drop_zero]; rfl)
      (fun st hst => by simp at hst)]
    rfl
  have hexp : parseTrack (encExplicit es) = ⟨es.map parsedOf⟩ := by
    show (⟨parseTrackGo (encExplicit es) ((encExplicit es).length + 1) 0
      (some 0) []⟩ : MidiTrack) = _
    rw [parseTrackGo_encExplicit es (encExplicit es) 0
      ((encExplicit es).length + 1) (some 0) [] hWF
      (by have := length_encExplicit es; omega)
      (by rw [List.drop_zero])]
    rfl
  rw [hrun, hexp]
  exact ⟨rfl, rfl⟩

/-- Counterexample to the claim as stated: a polyphonic-aftertouch event
(status 0xA0, two data bytes) repeated with running status.  The parser does
not recognise 0xAn and consumes a single byte per unknown event, so the
explicit and running-status encodings of the same two-event sequence parse
to different event lists (the explicit one even misreads a 0xA0 data
position as a multi-byte delta time). -/
theorem claim_C9_counterexample :
    parseTrack [0x00, 0xA0, 0x01, 0x02, 0x00, 0x03, 0x04] ≠
      parseTrack [0x00, 0xA0, 0x01, 0x02, 0x00, 0xA0, 0x03, 0x04] := by
  decide

/-- Witness for C9 at a concrete input: a NoteOn followed by a running-status
NoteOn on the same channel. -/
theorem claim_C9_witness :
    (∀ e ∈ [ChanEvent.mk 0 0x90 [60, 100], ChanEvent.mk 4 0x90 [60, 0]],
        ChanWF e) ∧
    parseTrack (encRunningTop
        [ChanEvent.mk 0 0x90 [60, 100], ChanEvent.mk 4 0x90 [60, 0]]) =
      parseTrack (encExplicit
        [ChanEvent.mk 0 0x90 [60, 100], ChanEvent.mk 4 0x90 [60, 0]]) := by
  refine ⟨?_, ?_⟩
  · intro e he
    simp only [List.mem_cons, List.not_mem_nil, or_false] at he
    rcases he with rfl | rfl <;>
      exact ⟨by norm_num, by intro b hb; simp at hb; omega, by norm_num [ChanWF]⟩
  · exact (claim_C9 [ChanEvent.mk 0 0x90 [60, 100], ChanEvent.mk 4 0x90 [60, 0]]
      (by
        intro e he
        simp only [List.mem_cons, List.not_mem_nil, or_false] at he
        rcases he with rfl | rfl <;>
          exact ⟨by norm_num, by intro b hb; simp at hb; omega,
            by norm_num [ChanWF]⟩)).1

/-! C2: round-trip of the converter's MIDI files through write and parse. -/

/-- A delta time as the converter produces it: a non-negative integral tick
count representable in a 4-byte VLQ. -/
def WFdelta (q : ℚ) : Prop := ∃ n : Nat, q = (n : ℚ) ∧ n ≤ 0x0FFFFFFF

/-- Writer/parser-stable events: exactly the event shapes `sequencerToMidi`
emits, with 4-bit channel, 7-bit note and velocity, and for NoteOn a
POSITIVE velocity (a written velocity-0 NoteOn is re-parsed as a NoteOff:
see the C2 counterexample). -/
def WFev (e : MidiEvent) : Prop :=
  WFdelta e.deltaTime ∧
  ((e.type = .noteOn ∧
      (∃ ch, ch ≤ 15 ∧ e.channel = some ch) ∧
      (∃ nt, nt ≤ 127 ∧ e.note = some nt) ∧
      (∃ v, 1 ≤ v ∧ v ≤ 127 ∧ e.velocity = some v) ∧
      e.controller = none ∧ e.value = none ∧ e.metaType = none ∧
      e.data = none ∧ e.program = none) ∨
   (e.type = .noteOff ∧
      (∃ ch, ch ≤ 15 ∧ e.channel = some ch) ∧
      (∃ nt, nt ≤ 127 ∧ e.note = some nt) ∧
      (∃ v, v ≤ 127 ∧ e.velocity = some v) ∧
      e.controller = none ∧ e.value = none ∧ e.metaType = none ∧
      e.data = none ∧ e.program = none) ∨
   (e.type = .meta ∧
      (∃ mt, mt ≤ 255 ∧ e.metaType = some mt) ∧
      (∃ d, e.data = some d ∧ d.length ≤ 127 ∧ ∀ b ∈ d, b ≤ 255) ∧
      e.channel = none ∧ e.note = none ∧ e.velocity = none ∧
      e.controller = none ∧ e.value = none ∧ e.program = none))

theorem lor_16mul (k ch : Nat) (h : ch < 16) : (16 * k) ||| ch = 16 * k + ch := by
  have h2 : 2 ^ 4 * k + ch = 2 ^ 4 * k ||| ch := Nat.mul_add_lt_is_or h k
  norm_num at h2
  omega

theorem and15_of_16mul (k ch : Nat) (h : ch < 16) : (16 * k + ch) &&& 0x0F = ch := by
  have h1 : (16 * k + ch) &&& 0x0F = (16 * k + ch) % 16 := by
    have := Nat.and_pow_two_sub_one_eq_mod (16 * k + ch) 4
    norm_num at this
    exact this
  rw [h1]
  omega

theorem and255_id {m : Nat} (h : m ≤ 255) : m &&& 0xFF = m := by
  rw [and255_eq_mod]
  omega

theorem eventBytes_noteOn (e : MidiEvent) (ch nt v : Nat)
    (hty : e.type = .noteOn) (hch : ch ≤ 15) (hnt : nt ≤ 127) (hv : v ≤ 127)
    (h2 : e.channel = some ch) (h3 : e.note = some nt) (h4 : e.velocity = some v) :
    eventBytes e = [144 + ch, nt, v] := by
  have h9 : (0x90 ||| ch) &&& 0xFF = 144 + ch := by
    have := lor_16mul 9 ch (by omega)
    norm_num at this ⊢
    rw [this, and255_id (by omega)]
  rw [eventBytes, hty]
  simp only [h2, h3, h4, Option.getD_some]
  rw [h9, and255_id (by omega), and255_id (by omega)]

theorem eventBytes_noteOff (e : MidiEvent) (ch nt v : Nat)
    (hty : e.type = .noteOff) (hch : ch ≤ 15) (hnt : nt ≤ 127) (hv : v ≤ 127)
    (h2 : e.channel = some ch) (h3 : e.note = some nt) (h4 : e.velocity = some v) :
    eventBytes e = [128 + ch, nt, v] := by
  have h9 : (0x80 ||| ch) &&& 0xFF = 128 + ch := by
    have := lor_16mul 8 ch (by omega)
    norm_num at this ⊢
    rw [this, and255_id (by omega)]
  rw [eventBytes, hty]
  simp only [h2, h3, h4, Option.getD_some]
  rw [h9, and255_id (by omega), and255_id (by omega)]

theorem eventBytes_meta (e : MidiEvent) (mt : Nat) (d : List Nat)
    (hty : e.type = .meta) (hmt : mt ≤ 255) (hdl : d.length ≤ 127)
    (hdb : ∀ b ∈ d, b ≤ 255)
    (h2 : e.metaType = some mt) (h3 : e.data = some d) :
    eventBytes e = 0xFF :: mt :: d.length :: d := by
  rw [eventBytes, hty]
  simp only [h2, h3, Option.getD_some]
  rw [and255_id hmt]
  have hvl : writeVariableLength ((d.length : Nat) : ℚ) = [d.length] := by
    rw [writeVariableLength_natCast, writeVLQnat_le d.length hdl]
  rw [hvl]
  have hmap : d.map (· &&& 0xFF) = d := by
    have h5 : ∀ x ∈ d, x &&& 0xFF = x := fun x hx => and255_id (hdb x hx)
    calc d.map (· &&& 0xFF) = d.map id := List.map_congr_left h5
    _ = d := List.map_id d
  rw [hmap]
  rfl

/-- One `while`-loop iteration of `parseTrack` over one written well-formed
event: the event is recovered exactly and the position advances over its
encoding. -/
theorem stepWF (data : List Nat) (fuel pos : Nat) (rs : Option Nat)
    (acc : List MidiEvent) (e : MidiEvent) (rest : List Nat) (hWF : WFev e)
    (hdrop : data.drop pos =
      (writeVariableLength e.deltaTime ++ eventBytes e) ++ rest) :
    ∃ rs', parseTrackGo data (fuel + 1) pos rs acc =
      parseTrackGo data fuel
        (pos + (writeVariableLength e.deltaTime ++ eventBytes e).length)
        rs' (e :: acc) := by
  obtain ⟨n, hq, hn⟩ := hWF.1
  have hw : writeVariableLength e.deltaTime = writeVLQnat n := by
    rw [hq, writeVariableLength_natCast]
  have hdrop1 : data.drop pos = writeVLQnat n ++ (eventBytes e ++ rest) := by
    rw [hdrop, hw, List.append_assoc]
  have hvlq : readVariableLength data pos = (n, (writeVLQnat n).length) :=
    readVLQ_write data pos n _ hn hdrop1
  have hpos : pos < data.length := drop_append_pos hdrop1 (writeVLQnat_ne_nil n)
  have hdrop2 : data.drop (pos + (writeVLQnat n).length) = eventBytes e ++ rest :=
    drop_shift data pos (writeVLQnat n) _ hdrop1
  have hget : ∀ j, (eventBytes e).get? j = some ((eventBytes e).getD j 0) →
      data.get? (pos + (writeVLQnat n).length + j) = (eventBytes e).get? j := by
    intro j hj
    have h0 := List.get?_drop data (pos + (writeVLQnat n).length) j
    rw [hdrop2] at h0
    by_cases hjl : j < (eventBytes e).length
    · rw [List.get?_append hjl] at h0
      exact h0.symm
    · rw [List.get?_eq_none.mpr (by omega)] at hj
      simp at hj
  rcases hWF.2 with
    ⟨hty, ⟨ch, hch, h2⟩, ⟨nt, hnt, h3⟩, ⟨v, hv1, hv2, h4⟩, h5, h6, h7, h8, h9⟩ |
    ⟨hty, ⟨ch, hch, h2⟩, ⟨nt, hnt, h3⟩, ⟨v, hv2, h4⟩, h5, h6, h7, h8, h9⟩ |
    ⟨hty, ⟨mt, hmt, h2⟩, ⟨d, h3, hdl, hdb⟩, h4, h5, h6, h7, h8, h9⟩
  · -- noteOn with positive velocity
    have hbytes : eventBytes e = [144 + ch, nt, v] :=
      eventBytes_noteOn e ch nt v hty hch hnt (by omega) h2 h3 h4
    rw [hbytes] at hdrop2
    have g0 : data.get? (pos + (writeVLQnat n).length) = some (144 + ch) := by
      have h0 := List.get?_drop data (pos + (writeVLQnat n).length) 0
      rw [hdrop2] at h0
      simpa using h0.symm
    have g1 : data.get? (pos + (writeVLQnat n).length + 1) = some nt := by
      have h0 := List.get?_drop data (pos + (writeVLQnat n).length) 1
      rw [hdrop2] at h0
      simpa using h0.symm
    have g2 : data.get? (pos + (writeVLQnat n).length + 1 + 1) = some v := by
      have h0 := List.get?_drop data (pos + (writeVLQnat n).length) 2
      rw [hdrop2] at h0
      have harr : pos + (writeVLQnat n).length + 1 + 1 =
          pos + (writeVLQnat n).length + 2 := by omega
      rw [harr]
      simpa using h0.symm
    have hev : parseEvent data (n : ℚ) (pos + (writeVLQnat n).length) rs =
        (e, pos + (writeVLQnat n).length + 1 + 2, some (144 + ch)) := by
      rw [parseEvent_explicit data _ _ rs (144 + ch) (by omega) g0,
        dispatch_noteOn data _ _ (144 + ch) (some (144 + ch)) (by omega) (by omega)]
      rw [g1, g2]
      have hc : (144 + ch) &&& 0x0F = ch := by
        have := and15_of_16mul 9 ch (by omega)
        norm_num at this
        exact this
      rw [hc, if_neg (by intro hc2; rw [Option.some_inj] at hc2; omega)]
      have hee : ({ deltaTime := (n : ℚ), type := .noteOn, channel := some ch,
                      note := some nt, velocity := some v, controller := none,
                      value := none, metaType := none, data := none,
                      program := none } : MidiEvent) = e := by
        cases e
        simp only [MidiEvent.mk.injEq]
        exact ⟨hq.symm, hty.symm, h2.symm, h3.symm, h4.symm, h5.symm, h6.symm,
          h7.symm, h8.symm, h9.symm⟩
      rw [hee]
    refine ⟨some (144 + ch), ?_⟩
    rw [parseTrackGo]
    rw [if_pos hpos]
    simp only [hvlq, hev]
    have hlen : (writeVariableLength e.deltaTime ++ eventBytes e).length =
        (writeVLQnat n).length + 3 := by
      rw [hw, hbytes]
      simp
    rw [hlen]
    congr 1
  · -- noteOff
    have hbytes : eventBytes e = [128 + ch, nt, v] :=
      eventBytes_noteOff e ch nt v hty hch hnt hv2 h2 h3 h4
    rw [hbytes] at hdrop2
    have g0 : data.get? (pos + (writeVLQnat n).length) = some (128 + ch) := by
      have h0 := List.get?_drop data (pos + (writeVLQnat n).length) 0
      rw [hdrop2] at h0
      simpa using h0.symm
    have g1 : data.get? (pos + (writeVLQnat n).length + 1) = some nt := by
      have h0 := List.get?_drop data (pos + (writeVLQnat n).length) 1
      rw [hdrop2] at h0
      simpa using h0.symm
    have g2 : data.get? (pos + (writeVLQnat n).length + 1 + 1) = some v := by
      have h0 := List.get?_drop data (pos + (writeVLQnat n).length) 2
      rw [hdrop2] at h0
      have harr : pos + (writeVLQnat n).length + 1 + 1 =
          pos + (writeVLQnat n).length + 2 := by omega
      rw [harr]
      simpa using h0.symm
    have hev : parseEvent data (n : ℚ) (pos + (writeVLQnat n).length) rs =
        (e, pos + (writeVLQnat n).length + 1 + 2, some (128 + ch)) := by
      rw [parseEvent_explicit data _ _ rs (128 + ch) (by omega) g0,
        dispatch_noteOff data _ _ (128 + ch) (some (128 + ch)) (by omega) (by omega)]
      rw [g1, g2]
      have hc : (128 + ch) &&& 0x0F = ch := by
        have := and15_of_16mul 8 ch (by omega)
        norm_num at this
        exact this
      rw [hc]
      have hee : ({ deltaTime := (n : ℚ), type := .noteOff, channel := some ch,
                      note := some nt, velocity := some v, controller := none,
                      value := none, metaType := none, data := none,
                      program := none } : MidiEvent) = e := by
        cases e
        simp only [MidiEvent.mk.injEq]
        exact ⟨hq.symm, hty.symm, h2.symm, h3.symm, h4.symm, h5.symm, h6.symm,
          h7.symm, h8.symm, h9.symm⟩
      rw [hee]
    refine ⟨some (128 + ch), ?_⟩
    rw [parseTrackGo]
    rw [if_pos hpos]
    simp only [hvlq, hev]
    have hlen : (writeVariableLength e.deltaTime ++ eventBytes e).length =
        (writeVLQnat n).length + 3 := by
      rw [hw, hbytes]
      simp
    rw [hlen]
    congr 1
  · -- meta
    have hbytes : eventBytes e = 0xFF :: mt :: d.length :: d :=
      eventBytes_meta e mt d hty hmt hdl hdb h2 h3
    rw [hbytes] at hdrop2
    have g0 : data.get? (pos + (writeVLQnat n).length) = some 0xFF := by
      have h0 := List.get?_drop data (pos + (writeVLQnat n).length) 0
      rw [hdrop2] at h0
      simpa using h0.symm
    have g1 : data.get? (pos + (writeVLQnat n).length + 1) = some mt := by
      have h0 := List.get?_drop data (pos + (writeVLQnat n).length) 1
      rw [hdrop2] at h0
      simpa using h0.symm
    have hdrop3 : data.drop (pos + (writeVLQnat n).length + 2) = d.length :: (d ++ rest) := by
      have h0 := drop_shift data (pos + (writeVLQnat n).length) [0xFF, mt] _
        (by rw [hdrop2]; rfl)
      simpa using h0
    have hvlq2 : readVariableLength data (pos + (writeVLQnat n).length + 2) =
        (d.length, 1) := by
      have := readVLQ_write data (pos + (writeVLQnat n).length + 2) d.length (d ++ rest)
        (by omega) (by rw [hdrop3, writeVLQnat_le d.length hdl]; rfl)
      rw [writeVLQnat_le d.length hdl] at this
      simpa using this
    have hdrop4 : data.drop (pos + (writeVLQnat n).length + 3) = d ++ rest := by
      have h0 := drop_shift data (pos + (writeVLQnat n).length + 2) [d.length] _
        (by rw [hdrop3]; rfl)
      have harr : pos + (writeVLQnat n).length + 2 + ([d.length] : List Nat).length =
          pos + (writeVLQnat n).length + 3 := by
        simp only [List.length_cons, List.length_nil]
      rw [harr] at h0
      exact h0
    have hev : parseEvent data (n : ℚ) (pos + (writeVLQnat n).length) rs =
        (e, pos + (writeVLQnat n).length + 3 + d.length, some 0xFF) := by
      rw [parseEvent_explicit data _ _ rs 0xFF (by omega) g0,
        dispatch_meta data _ _ (some 0xFF)]
      have harr1 : pos + (writeVLQnat n).length + 1 + 1 =
          pos + (writeVLQnat n).length + 2 := by omega
      rw [harr1, hvlq2, g1]
      have harr2 : pos + (writeVLQnat n).length + 2 + 1 =
          pos + (writeVLQnat n).length + 3 := by omega
      rw [harr2, hdrop4, List.take_left]
      have hee : ({ deltaTime := (n : ℚ), type := .meta, channel := none,
                      note := none, velocity := none, controller := none,
                      value := none, metaType := some mt, data := some d,
                      program := none } : MidiEvent) = e := by
        cases e
        simp only [MidiEvent.mk.injEq]
        exact ⟨hq.symm, hty.symm, h4.symm, h5.symm, h6.symm, h7.symm, h8.symm,
          h2.symm, h3.symm, h9.symm⟩
      rw [hee]
    refine ⟨some 0xFF, ?_⟩
    rw [parseTrackGo]
    rw [if_pos hpos]
    simp only [hvlq, hev]
    have hlen : (writeVariableLength e.deltaTime ++ eventBytes e).length =
        (writeVLQnat n).length + 3 + d.length := by
      rw [hw, hbytes]
      simp
      omega
    rw [hlen]
    congr 1
    omega

theorem writeTrack_cons (e : MidiEvent) (es : List MidiEvent) :
    writeTrack ⟨e :: es⟩ =
      (writeVariableLength e.deltaTime ++ eventBytes e) ++ writeTrack ⟨es⟩ := by
  simp [writeTrack]

theorem writeVariableLength_ne_nil (v : ℚ) : writeVariableLength v ≠ [] := by
  unfold writeVariableLength
  by_cases h : v ≤ 0x7F
  · rw [if_pos h]
    simp
  · rw [if_neg h]
    simp

theorem length_writeTrack_ge (es : List MidiEvent) :
    es.length ≤ (writeTrack ⟨es⟩).length := by
  induction es with
  | nil => simp [writeTrack]
  | cons e t ih =>
    rw [writeTrack_cons, List.length_append, List.length_cons, List.length_append]
    have h1 : 1 ≤ (writeVariableLength e.deltaTime).length := by
      have := writeVariableLength_ne_nil e.deltaTime
      cases h : writeVariableLength e.deltaTime with
      | nil => exact absurd h this
      | cons a l => simp
    omega

/-- Parsing a track consisting exactly of the written bytes of well-formed
events recovers the events. -/
theorem parseTrackGo_writeTrack (es : List MidiEvent) :
    ∀ (data : List Nat) (pos fuel : Nat) (rs : Option Nat) (acc : List MidiEvent),
    (∀ e ∈ es, WFev e) → es.length ≤ fuel → data.drop pos = writeTrack ⟨es⟩ →
    parseTrackGo data fuel pos rs acc = acc.reverse ++ es := by
  induction es with
  | nil =>
    intro data pos fuel rs acc _ _ hdrop
    have hlen : data.length ≤ pos := by
      have h1 : (data.drop pos).length = data.length - pos := List.length_drop pos data
      rw [hdrop] at h1
      simp [writeTrack] at h1
      omega
    rw [parseTrackGo_done data fuel pos rs acc hlen]
    simp
  | cons e t ih =>
    intro data pos fuel rs acc hWF hfuel hdrop
    obtain ⟨f, rfl⟩ : ∃ f, fuel = f + 1 := by
      cases fuel with
      | zero => simp at hfuel
      | succ f => exact ⟨f, rfl⟩
    rw [writeTrack_cons] at hdrop
    obtain ⟨rs', hstep⟩ := stepWF data f pos rs acc e (writeTrack ⟨t⟩)
      (hWF e (by simp)) hdrop
    rw [hstep]
    rw [ih data _ f rs' (e :: acc) (fun x hx => hWF x (by simp [hx]))
      (by simp at hfuel; omega)
      (drop_shift data pos (writeVariableLength e.deltaTime ++ eventBytes e) _ hdrop)]
    simp

/-- `parseTrack` is a left inverse of `writeTrack` on well-formed tracks. -/
theorem parseTrack_writeTrack (es : List MidiEvent) (h : ∀ e ∈ es, WFev e) :
    parseTrack (writeTrack ⟨es⟩) = ⟨es⟩ := by
  show (⟨parseTrackGo (writeTrack ⟨es⟩) ((writeTrack ⟨es⟩).length + 1) 0
    (some 0) []⟩ : MidiTrack) = _
  rw [parseTrackGo_writeTrack es (writeTrack ⟨es⟩) 0 ((writeTrack ⟨es⟩).length + 1)
    (some 0) [] h (by have := length_writeTrack_ge es; omega) (by rw [List.drop_zero])]
  rfl

theorem readUint32_writeUint32 (data : List Nat) (pos v : Nat) (rest : List Nat)
    (hv : v < 2 ^ 32) (hdrop : data.drop pos = writeUint32 v ++ rest) :
    readUint32 data pos = v := by
  have hget : ∀ j, j < 4 → data.get? (pos + j) = (writeUint32 v).get? j := by
    intro j hj
    have h0 := List.get?_drop data pos j
    rw [hdrop, List.get?_append (by simp [writeUint32]; omega)] at h0
    exact h0.symm
  have g0 := hget 0 (by omega)
  have g1 := hget 1 (by omega)
  have g2 := hget 2 (by omega)
  have g3 := hget 3 (by omega)
  rw [show pos + 0 = pos by omega] at g0
  rw [readUint32, g0, g1, g2, g3]
  show (v >>> 24 &&& 0xFF) * 2 ^ 24 + (v >>> 16 &&& 0xFF) * 2 ^ 16 +
    (v >>> 8 &&& 0xFF) * 2 ^ 8 + (v &&& 0xFF) = v
  rw [and255_eq_mod, and255_eq_mod, and255_eq_mod, and255_eq_mod,
    Nat.shiftRight_eq_div_pow, Nat.shiftRight_eq_div_pow, Nat.shiftRight_eq_div_pow]
  norm_num
  omega

theorem readUint16_pair (data : List Nat) (off v : Nat) (rest : List Nat)
    (hv : v < 65536) (hdrop : data.drop off = writeUint16 v ++ rest) :
    readUint16 data off = v := by
  have hget : ∀ j, j < 2 → data.get? (off + j) = (writeUint16 v).get? j := by
    intro j hj
    have h0 := List.get?_drop data off j
    rw [hdrop, List.get?_append (by simp [writeUint16]; omega)] at h0
    exact h0.symm
  have g0 := hget 0 (by omega)
  have g1 := hget 1 (by omega)
  rw [show off + 0 = off by omega] at g0
  rw [readUint16, g0, g1]
  show (v >>> 8 &&& 0xFF) * 256 + (v &&& 0xFF) = v
  rw [and255_eq_mod, and255_eq_mod, Nat.shiftRight_eq_div_pow]
  norm_num
  omega

theorem readChunk_createChunk (data : List Nat) (pos : Nat)
    (ty payload rest : List Nat) (hty : ty.length = 4)
    (hlen : payload.length < 2 ^ 32)
    (hdrop : data.drop pos = createChunk ty payload ++ rest) :
    readChunk data pos = (ty, payload, pos + 8 + payload.length) := by
  have hdrop1 : data.drop pos =
      ty ++ (writeUint32 payload.length ++ (payload ++ rest)) := by
    rw [hdrop, createChunk]
    simp [List.append_assoc]
  have hdrop2 : data.drop (pos + 4) =
      writeUint32 payload.length ++ (payload ++ rest) := by
    have h0 := drop_shift data pos ty _ hdrop1
    rw [hty] at h0
    exact h0
  have hdrop3 : data.drop (pos + 8) = payload ++ rest := by
    have h0 := drop_shift data (pos + 4) (writeUint32 payload.length) _ hdrop2
    have harr : pos + 4 + (writeUint32 payload.length).length = pos + 8 := by
      simp [writeUint32]
    rw [harr] at h0
    exact h0
  have htake : (data.drop pos).take 4 = ty := by
    rw [hdrop1, ← hty, List.take_left]
  have hlen2 : readUint32 data (pos + 4) = payload.length :=
    readUint32_writeUint32 data (pos + 4) payload.length _ hlen hdrop2
  rw [readChunk]
  simp only [htake, hlen2, hdrop3, List.take_left]

/-- The track-chunk loop of `parse` over a concatenation of MTrk chunks. -/
theorem parseTracksGo_chunks (ts : List MidiTrack) :
    ∀ (data : List Nat) (pos i : Nat) (acc : List MidiTrack),
    (∀ t ∈ ts, (writeTrack t).length < 2 ^ 32) →
    data.drop pos =
      (ts.map (fun t => createChunk [0x4D, 0x54, 0x72, 0x6B] (writeTrack t))).flatten →
    parseTracksGo data ts.length pos i acc =
      .ok (acc.reverse ++ ts.map (fun t => parseTrack (writeTrack t))) := by
  induction ts with
  | nil =>
    intro data pos i acc _ _
    simp [parseTracksGo]
  | cons t rest ih =>
    intro data pos i acc hlt hdrop
    have hdrop1 : data.drop pos = createChunk [0x4D, 0x54, 0x72, 0x6B] (writeTrack t) ++
        (rest.map (fun t => createChunk [0x4D, 0x54, 0x72, 0x6B] (writeTrack t))).flatten := by
      rw [hdrop]
      simp
    have hchunk := readChunk_createChunk data pos [0x4D, 0x54, 0x72, 0x6B]
      (writeTrack t) _ (by simp) (hlt t (by simp)) hdrop1
    show parseTracksGo data (rest.length + 1) pos i acc = _
    rw [parseTracksGo]
    rw [hchunk]
    rw [if_pos rfl]
    have hdrop2 : data.drop (pos + 8 + (writeTrack t).length) =
        (rest.map (fun t => createChunk [0x4D, 0x54, 0x72, 0x6B] (writeTrack t))).flatten := by
      have h0 := drop_shift data pos
        (createChunk [0x4D, 0x54, 0x72, 0x6B] (writeTrack t)) _ hdrop1
      have harr : pos + (createChunk [0x4D, 0x54, 0x72, 0x6B] (writeTrack t)).length =
          pos + 8 + (writeTrack t).length := by
        simp [createChunk, writeUint32]
        omega
      rw [harr] at h0
      exact h0
    rw [ih data _ (i + 1) (parseTrack (writeTrack t) :: acc)
      (fun x hx => hlt x (by simp [hx])) hdrop2]
    simp

/-- `parse` after `write`: the header fields are recovered exactly and each
track chunk is re-parsed from precisely its written bytes. -/
theorem parse_write (f : MidiFile) (hformat : f.format < 65536)
    (hcnt : f.tracks.length < 65536) (htpq : f.ticksPerQuarter < 65536)
    (hts : ∀ t ∈ f.tracks, (writeTrack t).length < 2 ^ 32) :
    parse (write f) =
      .ok { format := f.format,
            tracks := f.tracks.map (fun t => parseTrack (writeTrack t)),
            ticksPerQuarter := f.ticksPerQuarter } := by
  have hdrop0 : (write f).drop 0 =
      createChunk [0x4D, 0x54, 0x68, 0x64]
        (writeUint16 f.format ++ writeUint16 f.tracks.length ++
          writeUint16 f.ticksPerQuarter) ++
      (f.tracks.map (fun t =>
        createChunk [0x4D, 0x54, 0x72, 0x6B] (writeTrack t))).flatten := by
    rw [List.drop_zero, write]
  have hpl : (writeUint16 f.format ++ writeUint16 f.tracks.length ++
      writeUint16 f.ticksPerQuarter).length = 6 := by
    simp [writeUint16]
  have hheader := readChunk_createChunk (write f) 0 [0x4D, 0x54, 0x68, 0x64]
    (writeUint16 f.format ++ writeUint16 f.tracks.length ++
      writeUint16 f.ticksPerQuarter) _ (by simp) (by rw [hpl]; norm_num) hdrop0
  have hp0 : readUint16 (writeUint16 f.format ++ writeUint16 f.tracks.length ++
      writeUint16 f.ticksPerQuarter) 0 = f.format := by
    apply readUint16_pair _ 0 f.format
      (writeUint16 f.tracks.length ++ writeUint16 f.ticksPerQuarter) hformat
    rw [List.drop_zero, List.append_assoc]
  have hd2 : (writeUint16 f.format ++ writeUint16 f.tracks.length ++
      writeUint16 f.ticksPerQuarter).drop 2 =
      writeUint16 f.tracks.length ++ writeUint16 f.ticksPerQuarter := by
    have h0 := drop_shift (writeUint16 f.format ++ writeUint16 f.tracks.length ++
        writeUint16 f.ticksPerQuarter) 0 (writeUint16 f.format)
      (writeUint16 f.tracks.length ++ writeUint16 f.ticksPerQuarter)
      (by rw [List.drop_zero, List.append_assoc])
    simp only [writeUint16, List.length_cons, List.length_nil] at h0
    exact h0
  have hp2 : readUint16 (writeUint16 f.format ++ writeUint16 f.tracks.length ++
      writeUint16 f.ticksPerQuarter) 2 = f.tracks.length := by
    apply readUint16_pair _ 2 f.tracks.length (writeUint16 f.ticksPerQuarter) hcnt
    exact hd2
  have hp4 : readUint16 (writeUint16 f.format ++ writeUint16 f.tracks.length ++
      writeUint16 f.ticksPerQuarter) 4 = f.ticksPerQuarter := by
    apply readUint16_pair _ 4 f.ticksPerQuarter [] htpq
    have h0 := drop_shift (writeUint16 f.format ++ writeUint16 f.tracks.length ++
        writeUint16 f.ticksPerQuarter) 2 (writeUint16 f.tracks.length)
      (writeUint16 f.ticksPerQuarter) (by rw [hd2])
    simp only [writeUint16, List.length_cons, List.length_nil] at h0
    rw [List.append_nil]
    exact h0
  have hd14 : (write f).drop 14 =
      (f.tracks.map (fun t =>
        createChunk [0x4D, 0x54, 0x72, 0x6B] (writeTrack t))).flatten := by
    have h0 := drop_shift (write f) 0
      (createChunk [0x4D, 0x54, 0x68, 0x64]
        (writeUint16 f.format ++ writeUint16 f.tracks.length ++
          writeUint16 f.ticksPerQuarter)) _ hdrop0
    have harr : (0 : Nat) + (createChunk [0x4D, 0x54, 0x68, 0x64]
        (writeUint16 f.format ++ writeUint16 f.tracks.length ++
          writeUint16 f.ticksPerQuarter)).length = 14 := by
      simp [createChunk, writeUint32, writeUint16]
    rw [harr] at h0
    exact h0
  have htrgo := parseTracksGo_chunks f.tracks (write f) 14 0 [] hts hd14
  rw [parse]
  rw [hheader]
  simp only [hpl]
  rw [if_neg (by simp), if_neg (by simp)]
  simp only [hp0, hp2, hp4]
  have harr2 : (0 : Nat) + 8 + 6 = 14 := by omega
  rw [harr2]
  rw [htrgo]
  simp

/-- The non-delta part of `WFev`: the event shapes `sequencerToMidi` emits. -/
def WFshape (e : MidiEvent) : Prop :=
  (e.type = .noteOn ∧
      (∃ ch, ch ≤ 15 ∧ e.channel = some ch) ∧
      (∃ nt, nt ≤ 127 ∧ e.note = some nt) ∧
      (∃ v, 1 ≤ v ∧ v ≤ 127 ∧ e.velocity = some v) ∧
      e.controller = none ∧ e.value = none ∧ e.metaType = none ∧
      e.data = none ∧ e.program = none) ∨
   (e.type = .noteOff ∧
      (∃ ch, ch ≤ 15 ∧ e.channel = some ch) ∧
      (∃ nt, nt ≤ 127 ∧ e.note = some nt) ∧
      (∃ v, v ≤ 127 ∧ e.velocity = some v) ∧
      e.controller = none ∧ e.value = none ∧ e.metaType = none ∧
      e.data = none ∧ e.program = none) ∨
   (e.type = .meta ∧
      (∃ mt, mt ≤ 255 ∧ e.metaType = some mt) ∧
      (∃ d, e.data = some d ∧ d.length ≤ 127 ∧ ∀ b ∈ d, b ≤ 255) ∧
      e.channel = none ∧ e.note = none ∧ e.velocity = none ∧
      e.controller = none ∧ e.value = none ∧ e.program = none)

theorem WFev_iff (e : MidiEvent) : WFev e ↔ WFdelta e.deltaTime ∧ WFshape e :=
  Iff.rfl

theorem WFshape_setDelta (e : MidiEvent) (q : ℚ) (h : WFshape e) :
    WFshape { e with deltaTime := q } := h

theorem jsRound_nonneg (q : ℚ) (h : 0 ≤ q) : 0 ≤ jsRound q := by
  rw [jsRound]
  exact Int.le_floor.mpr (by push_cast; linarith)

theorem jsRound_mono {p q : ℚ} (h : p ≤ q) : jsRound p ≤ jsRound q :=
  Int.floor_le_floor (by linarith)

/-- Delta-encoding a sorted list of shape-well-formed events with integral
absolute ticks in `[k0, 0x0FFFFFFF]` yields writer/parser-stable events. -/
theorem deltaEncode_WF :
    ∀ (l : List MidiEvent) (k0 : Nat),
    (∀ e ∈ l, WFshape e) →
    (∀ e ∈ l, ∃ k : Nat, e.deltaTime = (k : ℚ) ∧ k ≤ 0x0FFFFFFF) →
    List.Pairwise (fun a b => a.deltaTime ≤ b.deltaTime) l →
    (∀ e ∈ l, (k0 : ℚ) ≤ e.deltaTime) →
    ∀ e ∈ deltaEncode (k0 : ℚ) l, WFev e := by
  intro l
  induction l with
  | nil =>
    intro k0 _ _ _ _ e he
    simp [deltaEncode] at he
  | cons a t ih =>
    intro k0 hsh ht hpw hge e he
    obtain ⟨k, hk, hkM⟩ := ht a (by simp)
    rw [deltaEncode] at he
    rcases List.mem_cons.mp he with rfl | he2
    · constructor
      · refine ⟨k - k0, ?_, by omega⟩
        have hk0k : k0 ≤ k := by
          have h1 := hge a (by simp)
          rw [hk] at h1
          exact_mod_cast h1
        show a.deltaTime - (k0 : ℚ) = ((k - k0 : Nat) : ℚ)
        rw [hk, Nat.cast_sub hk0k]
      · exact WFshape_setDelta a _ (hsh a (by simp))
    · rw [hk] at he2
      exact ih k (fun x hx => hsh x (by simp [hx]))
        (fun x hx => ht x (by simp [hx])) hpw.of_cons
        (fun x hx => by
          have h1 := (List.pairwise_cons.mp hpw).1 x hx
          rw [hk] at h1
          exact h1) e he2

theorem writeVLQnat_length_le (n : Nat) (h : n ≤ 0x0FFFFFFF) :
    (writeVLQnat n).length ≤ 4 := by
  by_cases hle : n ≤ 0x7F
  · rw [writeVLQnat_le n hle]
    simp
  · rw [writeVLQnat_gt n (by omega)]
    have hm1 : 1 ≤ n / 128 := by omega
    obtain ⟨h1, h2, h3, -⟩ := vlqHigh_spec (n / 128) (n / 128) (self_lt_128_pow (n / 128))
    have h4 := h3 hm1
    have h5 : n / 128 < 128 ^ 3 := by omega
    have h6 : (vlqHigh (n / 128) (n / 128)).length - 1 < 3 := by
      by_contra h7
      push_neg at h7
      have h8 : (128 : Nat) ^ 3 ≤ 128 ^ ((vlqHigh (n / 128) (n / 128)).length - 1) :=
        Nat.pow_le_pow_right (by omega) h7
      omega
    rw [List.length_append]
    simp only [List.length_cons, List.length_nil]
    omega

theorem eventBytes_length_le (e : MidiEvent) (h : WFev e) :
    (eventBytes e).length ≤ 130 := by
  rcases h.2 with
    ⟨hty, ⟨ch, hch, h2⟩, ⟨nt, hnt, h3⟩, ⟨v, hv1, hv2, h4⟩, -⟩ |
    ⟨hty, ⟨ch, hch, h2⟩, ⟨nt, hnt, h3⟩, ⟨v, hv2, h4⟩, -⟩ |
    ⟨hty, ⟨mt, hmt, h2⟩, ⟨d, h3, hdl, hdb⟩, -⟩
  · rw [eventBytes_noteOn e ch nt v hty hch hnt (by omega) h2 h3 h4]
    simp
  · rw [eventBytes_noteOff e ch nt v hty hch hnt hv2 h2 h3 h4]
    simp
  · rw [eventBytes_meta e mt d hty hmt hdl hdb h2 h3]
    simp only [List.length_cons]
    omega

theorem writeTrack_length_le (es : List MidiEvent) (h : ∀ e ∈ es, WFev e) :
    (writeTrack ⟨es⟩).length ≤ 134 * es.length := by
  induction es with
  | nil => simp [writeTrack]
  | cons e t ih =>
    rw [writeTrack_cons, List.length_append, List.length_append]
    have h1 := (h e (by simp)).1
    obtain ⟨n, hq, hn⟩ := h1
    have h2 : (writeVariableLength e.deltaTime).length ≤ 4 := by
      rw [hq, writeVariableLength_natCast]
      exact writeVLQnat_length_le n hn
    have h3 := eventBytes_length_le e (h e (by simp))
    have h4 := ih (fun x hx => h x (by simp [hx]))
    simp only [List.length_cons]
    omega

theorem deltaEncode_length (q : ℚ) (l : List MidiEvent) :
    (deltaEncode q l).length = l.length := by
  induction l generalizing q with
  | nil => rfl
  | cons e t ih =>
    rw [deltaEncode]
    simp only [List.length_cons, ih]

theorem flatMap_const_length {α β : Type} (l : List α) (f : α → List β) (k : Nat)
    (h : ∀ x ∈ l, (f x).length = k) : (l.flatMap f).length = k * l.length := by
  induction l with
  | nil => simp
  | cons a t ih =>
    rw [List.flatMap_cons, List.length_append, h a (by simp),
      ih (fun x hx => h x (by simp [hx]))]
    simp only [List.length_cons]
    ring

theorem dedup_le_16 (l : List Nat) (h : ∀ x ∈ l, x ≤ 15) : l.dedup.length ≤ 16 := by
  have h1 : l.dedup.toFinset.card = l.dedup.length :=
    List.toFinset_card_of_nodup (List.nodup_dedup l)
  have h2 : l.dedup.toFinset ⊆ Finset.range 16 := by
    intro x hx
    rw [List.mem_toFinset, List.mem_dedup] at hx
    rw [Finset.mem_range]
    have := h x hx
    omega
  have h3 := Finset.card_le_card h2
  rw [Finset.card_range] at h3
  omega

theorem eotEvent_WF : WFev eotEvent := by
  constructor
  · exact ⟨0, by show (0 : ℚ) = ((0 : Nat) : ℚ); norm_num, by norm_num⟩
  · refine Or.inr (Or.inr ⟨rfl, ⟨0x2F, by norm_num, rfl⟩, ⟨[], rfl, by simp, by simp⟩,
      rfl, rfl, rfl, rfl, rfl, rfl⟩)

theorem tempoEvent_WF (bpm : ℚ) :
    WFev { deltaTime := 0, type := .meta, metaType := some 0x51,
           data := some (createTempoData bpm) } := by
  constructor
  · exact ⟨0, by show (0 : ℚ) = ((0 : Nat) : ℚ); norm_num, by norm_num⟩
  · refine Or.inr (Or.inr ⟨rfl, ⟨0x51, by norm_num, rfl⟩,
      ⟨createTempoData bpm, rfl, by simp [createTempoData], ?_⟩,
      rfl, rfl, rfl, rfl, rfl, rfl⟩)
    intro b hb
    simp only [createTempoData, List.mem_cons, List.not_mem_nil, or_false] at hb
    rcases hb with rfl | rfl | rfl <;> (rw [and255_eq_mod]; omega)


/-- The NoteOn/NoteOff pair `sequencerToMidi` builds for one note (absolute
ticks still in `deltaTime`); abbreviation for the flatMap body. -/
def notePairEvents (tpq : Nat) (note : SeqNote) : List MidiEvent :=
  [{ deltaTime := ((jsRound (note.start * (tpq : ℚ)) : ℤ) : ℚ),
     type := .noteOn, channel := some note.track,
     note := some note.pitch, velocity := some note.velocity },
   { deltaTime := ((jsRound ((note.start + note.length) * (tpq : ℚ)) : ℤ) : ℚ),
     type := .noteOff, channel := some note.track,
     note := some note.pitch, velocity := some 0 }]

/-- The NoteOn/NoteOff pair `sequencerToMidi` builds for one beat. -/
def beatPairEvents (tpq : Nat) (beat : SeqBeat) : List MidiEvent :=
  [{ deltaTime := ((jsRound (beat.position * (tpq : ℚ)) : ℤ) : ℚ),
     type := .noteOn, channel := some 9,
     note := some (if beat.track = 1 then 36 else 38),
     velocity := some beat.velocity },
   { deltaTime := ((jsRound (beat.position * (tpq : ℚ)) : ℤ) : ℚ) + (tpq : ℚ) / 8,
     type := .noteOff, channel := some 9,
     note := some (if beat.track = 1 then 36 else 38), velocity := some 0 }]

theorem pairwise_mergeSort_delta (l : List MidiEvent) :
    List.Pairwise (fun a b : MidiEvent => a.deltaTime ≤ b.deltaTime)
      (l.mergeSort (fun a b => a.deltaTime ≤ b.deltaTime)) := by
  have h0 := @List.sorted_mergeSort MidiEvent
    (fun a b : MidiEvent => decide (a.deltaTime ≤ b.deltaTime))
    (fun a b c hab hbc => by
      simp only [decide_eq_true_eq] at hab hbc ⊢
      exact le_trans hab hbc)
    (fun a b => by
      simp only [Bool.or_eq_true, decide_eq_true_eq]
      exact le_total a.deltaTime b.deltaTime)
    l
  exact h0.imp (fun h => by simpa using h)

/-- Every event of a converted note track is writer/parser-stable. -/
theorem noteTrack_WF (notes : List SeqNote) (tpq : Nat) (tn : Nat)
    (hn : ∀ x ∈ notes, x.track ≤ 15 ∧ x.pitch ≤ 127 ∧ 1 ≤ x.velocity ∧
      x.velocity ≤ 127 ∧ 0 ≤ x.start ∧ 0 < x.length ∧
      jsRound ((x.start + x.length) * (tpq : ℚ)) ≤ 0x0FFFFFFF) :
    ∀ e ∈ deltaEncode 0
        (((notes.filter (·.track = tn)).flatMap (notePairEvents tpq)).mergeSort
          (fun a b => a.deltaTime ≤ b.deltaTime)) ++ [eotEvent], WFev e := by
  have hmem : ∀ x ∈ ((notes.filter (·.track = tn)).flatMap
        (notePairEvents tpq)).mergeSort (fun a b => a.deltaTime ≤ b.deltaTime),
      WFshape x ∧ ∃ k : Nat, x.deltaTime = (k : ℚ) ∧ k ≤ 0x0FFFFFFF := by
    intro x hx
    rw [List.Perm.mem_iff (List.mergeSort_perm _ _)] at hx
    rw [List.mem_flatMap] at hx
    obtain ⟨note, hnote, hxin⟩ := hx
    obtain ⟨ht15, hp127, hv1, hv127, hs0, hl0, hjr⟩ :=
      hn note (List.mem_of_mem_filter hnote)
    have htpq0 : (0 : ℚ) ≤ (tpq : ℚ) := Nat.cast_nonneg tpq
    have hr0 : 0 ≤ jsRound (note.start * (tpq : ℚ)) :=
      jsRound_nonneg _ (mul_nonneg hs0 htpq0)
    have hrmono : jsRound (note.start * (tpq : ℚ)) ≤
        jsRound ((note.start + note.length) * (tpq : ℚ)) :=
      jsRound_mono (by nlinarith)
    have hr0' : 0 ≤ jsRound ((note.start + note.length) * (tpq : ℚ)) := by omega
    simp only [notePairEvents, List.mem_cons, List.not_mem_nil, or_false] at hxin
    rcases hxin with rfl | rfl
    · refine ⟨Or.inl ⟨rfl, ⟨note.track, ht15, rfl⟩, ⟨note.pitch, hp127, rfl⟩,
        ⟨note.velocity, hv1, hv127, rfl⟩, rfl, rfl, rfl, rfl, rfl⟩, ?_⟩
      refine ⟨(jsRound (note.start * (tpq : ℚ))).toNat, ?_, by omega⟩
      show ((jsRound (note.start * (tpq : ℚ)) : ℤ) : ℚ) = _
      rw [← Int.toNat_of_nonneg hr0]
      push_cast
      rfl
    · refine ⟨Or.inr (Or.inl ⟨rfl, ⟨note.track, ht15, rfl⟩, ⟨note.pitch, hp127, rfl⟩,
        ⟨0, by omega, rfl⟩, rfl, rfl, rfl, rfl, rfl⟩), ?_⟩
      refine ⟨(jsRound ((note.start + note.length) * (tpq : ℚ))).toNat, ?_, by omega⟩
      show ((jsRound ((note.start + note.length) * (tpq : ℚ)) : ℤ) : ℚ) = _
      rw [← Int.toNat_of_nonneg hr0']
      push_cast
      rfl
  intro e he
  rcases List.mem_append.mp he with he1 | he1
  · have h0cast : (0 : ℚ) = ((0 : Nat) : ℚ) := by norm_num
    rw [h0cast] at he1
    exact deltaEncode_WF _ 0 (fun x hx => (hmem x hx).1) (fun x hx => (hmem x hx).2)
      (pairwise_mergeSort_delta _)
      (fun x hx => by
        obtain ⟨k, hk, -⟩ := (hmem x hx).2
        rw [hk]
        exact_mod_cast Nat.zero_le k) e he1
  · simp only [List.mem_cons, List.not_mem_nil, or_false] at he1
    rw [he1]
    exact eotEvent_WF

/-- Every event of the converted beats track is writer/parser-stable
(requires `8 ∣ ticksPerQuarter` so that the NoteOff tick
`startTicks + ticksPerQuarter/8` is integral). -/
theorem beatTrack_WF (beats : List SeqBeat) (tpq : Nat)
    (hb : ∀ x ∈ beats, 1 ≤ x.velocity ∧ x.velocity ≤ 127 ∧ 0 ≤ x.position ∧
      jsRound (x.position * (tpq : ℚ)) + (tpq : ℤ) ≤ 0x0FFFFFFF)
    (hdvd : 8 ∣ tpq) :
    ∀ e ∈ deltaEncode 0
        ((beats.flatMap (beatPairEvents tpq)).mergeSort
          (fun a b => a.deltaTime ≤ b.deltaTime)) ++ [eotEvent], WFev e := by
  obtain ⟨m, rfl⟩ := hdvd
  have hdiv8 : ((8 * m : Nat) : ℚ) / 8 = (m : ℚ) := by
    push_cast
    ring
  have hmem : ∀ x ∈ (beats.flatMap (beatPairEvents (8 * m))).mergeSort
        (fun a b => a.deltaTime ≤ b.deltaTime),
      WFshape x ∧ ∃ k : Nat, x.deltaTime = (k : ℚ) ∧ k ≤ 0x0FFFFFFF := by
    intro x hx
    rw [List.Perm.mem_iff (List.mergeSort_perm _ _)] at hx
    rw [List.mem_flatMap] at hx
    obtain ⟨beat, hbeat, hxin⟩ := hx
    obtain ⟨hv1, hv127, hp0, hjr⟩ := hb beat hbeat
    have htpq0 : (0 : ℚ) ≤ ((8 * m : Nat) : ℚ) := Nat.cast_nonneg _
    have hr0 : 0 ≤ jsRound (beat.position * ((8 * m : Nat) : ℚ)) :=
      jsRound_nonneg _ (mul_nonneg hp0 htpq0)
    simp only [beatPairEvents, List.mem_cons, List.not_mem_nil, or_false] at hxin
    rcases hxin with rfl | rfl
    · refine ⟨Or.inl ⟨rfl, ⟨9, by omega, rfl⟩,
        ⟨if beat.track = 1 then 36 else 38, by split <;> omega, rfl⟩,
        ⟨beat.velocity, hv1, hv127, rfl⟩, rfl, rfl, rfl, rfl, rfl⟩, ?_⟩
      refine ⟨(jsRound (beat.position * ((8 * m : Nat) : ℚ))).toNat, ?_, by omega⟩
      show ((jsRound (beat.position * ((8 * m : Nat) : ℚ)) : ℤ) : ℚ) = _
      rw [← Int.toNat_of_nonneg hr0]
      push_cast
      rfl
    · refine ⟨Or.inr (Or.inl ⟨rfl, ⟨9, by omega, rfl⟩,
        ⟨if beat.track = 1 then 36 else 38, by split <;> omega, rfl⟩,
        ⟨0, by omega, rfl⟩, rfl, rfl, rfl, rfl, rfl⟩), ?_⟩
      refine ⟨(jsRound (beat.position * ((8 * m : Nat) : ℚ))).toNat + m, ?_, by omega⟩
      show ((jsRound (beat.position * ((8 * m : Nat) : ℚ)) : ℤ) : ℚ) +
          ((8 * m : Nat) : ℚ) / 8 = _
      rw [hdiv8]
      have h1 : (((jsRound (beat.position * ((8 * m : Nat) : ℚ))).toNat : ℤ) : ℚ) =
          ((jsRound (beat.position * ((8 * m : Nat) : ℚ)) : ℤ) : ℚ) := by
        rw [Int.toNat_of_nonneg hr0]
      push_cast at h1 ⊢
      linarith
  intro e he
  rcases List.mem_append.mp he with he1 | he1
  · have h0cast : (0 : ℚ) = ((0 : Nat) : ℚ) := by norm_num
    rw [h0cast] at he1
    exact deltaEncode_WF _ 0 (fun x hx => (hmem x hx).1) (fun x hx => (hmem x hx).2)
      (pairwise_mergeSort_delta _)
      (fun x hx => by
        obtain ⟨k, hk, -⟩ := (hmem x hx).2
        rw [hk]
        exact_mod_cast Nat.zero_le k) e he1
  · simp only [List.mem_cons, List.not_mem_nil, or_false] at he1
    rw [he1]
    exact eotEvent_WF

theorem sequencerToMidi_tracks (notes : List SeqNote) (beats : List SeqBeat)
    (bpm : ℚ) (tpq : Nat) :
    (sequencerToMidi notes beats bpm tpq).tracks =
      ⟨[{ deltaTime := 0, type := .meta, metaType := some 0x51,
          data := some (createTempoData bpm) }, eotEvent]⟩ ::
      ((if notes.length > 0 then
          (((notes.map (·.track)).dedup).mergeSort (· ≤ ·)).map (fun tn =>
            ⟨deltaEncode 0
              (((notes.filter (·.track = tn)).flatMap (notePairEvents tpq)).mergeSort
                (fun a b => a.deltaTime ≤ b.deltaTime)) ++ [eotEvent]⟩)
        else []) ++
       (if beats.length > 0 then
          [⟨deltaEncode 0
            ((beats.flatMap (beatPairEvents tpq)).mergeSort
              (fun a b => a.deltaTime ≤ b.deltaTime)) ++ [eotEvent]⟩]
        else [])) := rfl

theorem sequencerToMidi_format (notes : List SeqNote) (beats : List SeqBeat)
    (bpm : ℚ) (tpq : Nat) : (sequencerToMidi notes beats bpm tpq).format = 1 := rfl

theorem sequencerToMidi_tpq (notes : List SeqNote) (beats : List SeqBeat)
    (bpm : ℚ) (tpq : Nat) :
    (sequencerToMidi notes beats bpm tpq).ticksPerQuarter = tpq := rfl

/-- Every track `sequencerToMidi` emits has only writer/parser-stable events
and at most `2·(#notes + #beats) + 2` of them. -/
theorem sequencerToMidi_tracks_WF (notes : List SeqNote) (beats : List SeqBeat)
    (bpm : ℚ) (tpq : Nat)
    (hn : ∀ x ∈ notes, x.track ≤ 15 ∧ x.pitch ≤ 127 ∧ 1 ≤ x.velocity ∧
      x.velocity ≤ 127 ∧ 0 ≤ x.start ∧ 0 < x.length ∧
      jsRound ((x.start + x.length) * (tpq : ℚ)) ≤ 0x0FFFFFFF)
    (hb : ∀ x ∈ beats, 1 ≤ x.velocity ∧ x.velocity ≤ 127 ∧ 0 ≤ x.position ∧
      jsRound (x.position * (tpq : ℚ)) + (tpq : ℤ) ≤ 0x0FFFFFFF)
    (hdvd : 8 ∣ tpq) :
    ∀ t ∈ (sequencerToMidi notes beats bpm tpq).tracks,
      (∀ e ∈ t.events, WFev e) ∧
      t.events.length ≤ 2 * (notes.length + beats.length) + 2 := by
  intro t ht
  rw [sequencerToMidi_tracks] at ht
  rcases List.mem_cons.mp ht with rfl | ht1
  · constructor
    · intro e he
      simp only [List.mem_cons, List.not_mem_nil, or_false] at he
      rcases he with rfl | rfl
      · exact tempoEvent_WF bpm
      · exact eotEvent_WF
    · simp
  rcases List.mem_append.mp ht1 with ht2 | ht2
  · -- a note track
    by_cases hnz : notes.length > 0
    · rw [if_pos hnz] at ht2
      obtain ⟨tn, -, rfl⟩ := List.mem_map.mp ht2
      constructor
      · exact noteTrack_WF notes tpq tn hn
      · show (deltaEncode 0 _ ++ [eotEvent]).length ≤ _
        rw [List.length_append, deltaEncode_length]
        have h1 : (((notes.filter (·.track = tn)).flatMap
            (notePairEvents tpq)).mergeSort
            (fun a b => a.deltaTime ≤ b.deltaTime)).length =
            ((notes.filter (·.track = tn)).flatMap (notePairEvents tpq)).length :=
          List.length_mergeSort _
        rw [h1, flatMap_const_length (notes.filter (·.track = tn))
          (notePairEvents tpq) 2 (fun x _ => rfl)]
        have h2 := List.length_filter_le (fun x : SeqNote => x.track = tn) notes
        simp only [List.length_cons, List.length_nil]
        omega
    · rw [if_neg hnz] at ht2
      simp at ht2
  · -- the beats track
    by_cases hbz : beats.length > 0
    · rw [if_pos hbz] at ht2
      simp only [List.mem_cons, List.not_mem_nil, or_false] at ht2
      subst ht2
      constructor
      · exact beatTrack_WF beats tpq hb hdvd
      · show (deltaEncode 0 _ ++ [eotEvent]).length ≤ _
        rw [List.length_append, deltaEncode_length]
        have h1 : ((beats.flatMap (beatPairEvents tpq)).mergeSort
            (fun a b => a.deltaTime ≤ b.deltaTime)).length =
            (beats.flatMap (beatPairEvents tpq)).length :=
          List.length_mergeSort _
        rw [h1, flatMap_const_length beats (beatPairEvents tpq) 2 (fun x _ => rfl)]
        simp only [List.length_cons, List.length_nil]
        omega
    · rw [if_neg hbz] at ht2
      simp at ht2

theorem sequencerToMidi_tracks_count (notes : List SeqNote) (beats : List SeqBeat)
    (bpm : ℚ) (tpq : Nat) (hn : ∀ x ∈ notes, x.track ≤ 15) :
    (sequencerToMidi notes beats bpm tpq).tracks.length ≤ 18 := by
  rw [sequencerToMidi_tracks]
  simp only [List.length_cons, List.length_append]
  have h1 : (if notes.length > 0 then
      (((notes.map (·.track)).dedup).mergeSort (· ≤ ·)).map (fun tn =>
        (⟨deltaEncode 0
          (((notes.filter (·.track = tn)).flatMap (notePairEvents tpq)).mergeSort
            (fun a b => a.deltaTime ≤ b.deltaTime)) ++ [eotEvent]⟩ : MidiTrack))
    else []).length ≤ 16 := by
    split
    · rw [List.length_map, List.length_mergeSort]
      exact dedup_le_16 _ (fun x hx => by
        obtain ⟨nt, hnt, rfl⟩ := List.mem_map.mp hx
        exact hn nt hnt)
    · simp
  have h2 : (if beats.length > 0 then
      [(⟨deltaEncode 0
        ((beats.flatMap (beatPairEvents tpq)).mergeSort
          (fun a b => a.deltaTime ≤ b.deltaTime)) ++ [eotEvent]⟩ : MidiTrack)]
    else []).length ≤ 1 := by
    split <;> simp
  omega

/-- C2 (corrected): for notes with pitch 0–127, track number 0–15, start ≥ 0,
length > 0 and velocity 1–127 (NOT 0–127: a velocity-0 note is written as a
NoteOn with velocity 0, which the parser re-classifies as a NoteOff — see the
counterexample), and beats with velocity 1–127, position ≥ 0 — with end
ticks within the 4-byte VLQ range, `8 ∣ ticksPerQuarter < 65536` and at most
10^6 notes and beats — the written file parses back to EXACTLY the converted
`MidiFile`: `parse (write (sequencerToMidi …)) = .ok (sequencerToMidi …)`.
In particular every track's list (hence multiset) of NoteOn/NoteOff events
with their channels, pitches and absolute ticks is preserved. -/
theorem claim_C2 (notes : List SeqNote) (beats : List SeqBeat) (bpm : ℚ)
    (tpq : Nat)
    (hn : ∀ x ∈ notes, x.track ≤ 15 ∧ x.pitch ≤ 127 ∧ 1 ≤ x.velocity ∧
      x.velocity ≤ 127 ∧ 0 ≤ x.start ∧ 0 < x.length ∧
      jsRound ((x.start + x.length) * (tpq : ℚ)) ≤ 0x0FFFFFFF)
    (hb : ∀ x ∈ beats, 1 ≤ x.velocity ∧ x.velocity ≤ 127 ∧ 0 ≤ x.position ∧
      jsRound (x.position * (tpq : ℚ)) + (tpq : ℤ) ≤ 0x0FFFFFFF)
    (hdvd : 8 ∣ tpq) (htpq : tpq < 65536)
    (hcn : notes.length ≤ 1000000) (hcb : beats.length ≤ 1000000) :
    parse (write (sequencerToMidi notes beats bpm tpq)) =
      Except.ok (sequencerToMidi notes beats bpm tpq) := by
  have hWF := sequencerToMidi_tracks_WF notes beats bpm tpq hn hb hdvd
  have hsize : ∀ t ∈ (sequencerToMidi notes beats bpm tpq).tracks,
      (writeTrack t).length < 2 ^ 32 := by
    intro t ht
    obtain ⟨hWFt, hcount⟩ := hWF t ht
    have h1 : (writeTrack t).length ≤ 134 * t.events.length :=
      writeTrack_length_le t.events hWFt
    have h2 : (134 : Nat) * t.events.length ≤
        134 * (2 * (notes.length + beats.length) + 2) := by
      exact Nat.mul_le_mul_left 134 hcount
    omega
  have hcnt : (sequencerToMidi notes beats bpm tpq).tracks.length < 65536 := by
    have := sequencerToMidi_tracks_count notes beats bpm tpq
      (fun x hx => (hn x hx).1)
    omega
  have hpw := parse_write (sequencerToMidi notes beats bpm tpq)
    (by rw [sequencerToMidi_format]; omega) hcnt
    (by rw [sequencerToMidi_tpq]; exact htpq) hsize
  rw [hpw]
  have hmap : (sequencerToMidi notes beats bpm tpq).tracks.map
      (fun t => parseTrack (writeTrack t)) =
      (sequencerToMidi notes beats bpm tpq).tracks := by
    have h3 : ∀ t ∈ (sequencerToMidi notes beats bpm tpq).tracks,
        parseTrack (writeTrack t) = id t := by
      intro t ht
      show parseTrack (writeTrack t) = t
      exact parseTrack_writeTrack t.events (hWF t ht).1
    rw [List.map_congr_left h3, List.map_id]
  rw [hmap]

/-- Absolute-tick NoteOn/NoteOff extraction from a track: walks the events
accumulating delta times and tags each NoteOn/NoteOff with its channel, note
and absolute tick (the pair data the C2 claim compares). -/
def absPairsGo (time : ℚ) : List MidiEvent → List (Option Nat × Option Nat × ℚ × Bool)
  | [] => []
  | e :: rest =>
    (match e.type with
     | .noteOn => [(e.channel, e.note, time + e.deltaTime, true)]
     | .noteOff => [(e.channel, e.note, time + e.deltaTime, false)]
     | _ => []) ++ absPairsGo (time + e.deltaTime) rest

def trackPairs (t : MidiTrack) : List (Option Nat × Option Nat × ℚ × Bool) :=
  absPairsGo 0 t.events

theorem createTempoData_120 : createTempoData 120 = [7, 161, 32] := by
  have h2 : (jsRound ((60000000 : ℚ) / 120)).toNat = 500000 := by
    have h1 : jsRound ((60000000 : ℚ) / 120) = 500000 := by
      rw [jsRound]
      norm_num
    rw [h1]
    rfl
  show [((jsRound ((60000000 : ℚ) / 120)).toNat >>> 16) &&& 0xFF,
        ((jsRound ((60000000 : ℚ) / 120)).toNat >>> 8) &&& 0xFF,
        (jsRound ((60000000 : ℚ) / 120)).toNat &&& 0xFF] = [7, 161, 32]
  rw [h2]
  decide

theorem c2F0_tracks :
    (sequencerToMidi [⟨0, 60, 0, 1, 0⟩] [] 120 480).tracks =
      [⟨[{ deltaTime := 0, type := .meta, metaType := some 0x51,
           data := some [7, 161, 32] }, eotEvent]⟩,
       ⟨[{ deltaTime := 0, type := .noteOn, channel := some 0, note := some 60,
           velocity := some 0 },
         { deltaTime := 480, type := .noteOff, channel := some 0, note := some 60,
           velocity := some 0 }, eotEvent]⟩] := by
  rw [sequencerToMidi_tracks, createTempoData_120]
  rw [if_pos (by norm_num), if_neg (by norm_num)]
  have hdd : ((([(⟨0, 60, 0, 1, 0⟩ : SeqNote)].map (·.track)).dedup).mergeSort
      (· ≤ ·)) = [0] := by
    simp
  rw [hdd]
  simp only [List.map_cons, List.map_nil]
  have hfm : (([(⟨0, 60, 0, 1, 0⟩ : SeqNote)].filter (·.track = 0)).flatMap
      (notePairEvents 480)) =
      [{ deltaTime := (0 : ℚ), type := .noteOn, channel := some 0,
         note := some 60, velocity := some 0 },
       { deltaTime := (480 : ℚ), type := .noteOff, channel := some 0,
         note := some 60, velocity := some 0 }] := by
    simp [List.filter, notePairEvents]
    refine ⟨?_, ?_⟩ <;> (rw [jsRound]; norm_num)
  rw [hfm]
  have hsorted : (([{ deltaTime := (0 : ℚ), type := .noteOn, channel := some 0,
                      note := some 60, velocity := some 0 },
                    { deltaTime := (480 : ℚ), type := .noteOff, channel := some 0,
                      note := some 60, velocity := some 0 }] : List MidiEvent).mergeSort
      (fun a b => a.deltaTime ≤ b.deltaTime)) =
      [{ deltaTime := (0 : ℚ), type := .noteOn, channel := some 0,
         note := some 60, velocity := some 0 },
       { deltaTime := (480 : ℚ), type := .noteOff, channel := some 0,
         note := some 60, velocity := some 0 }] := by
    apply List.mergeSort_of_sorted
    refine List.pairwise_cons.mpr ⟨?_, List.pairwise_singleton _ _⟩
    intro b hb
    simp only [List.mem_singleton] at hb
    subst hb
    simp only [decide_eq_true_eq]
    norm_num
  rw [hsorted]
  have hde : deltaEncode 0
      ([{ deltaTime := (0 : ℚ), type := .noteOn, channel := some 0,
          note := some 60, velocity := some 0 },
        { deltaTime := (480 : ℚ), type := .noteOff, channel := some 0,
          note := some 60, velocity := some 0 }] : List MidiEvent) =
      [{ deltaTime := 0, type := .noteOn, channel := some 0,
         note := some 60, velocity := some 0 },
       { deltaTime := 480, type := .noteOff, channel := some 0,
         note := some 60, velocity := some 0 }] := by
    rw [deltaEncode, deltaEncode, deltaEncode]
    norm_num
  rw [hde]
  simp

theorem wvl_zero : writeVariableLength 0 = [0] := by
  unfold writeVariableLength
  rw [if_pos (by norm_num)]
  norm_num

theorem wvl_480 : writeVariableLength (480 : ℚ) = [131, 96] := by
  have h : (480 : ℚ) = ((480 : Nat) : ℚ) := by norm_num
  rw [h, writeVariableLength_natCast]
  decide

theorem wvl_q3 : writeVariableLength (3 : ℚ) = [3] := by
  have h : (3 : ℚ) = ((3 : Nat) : ℚ) := by norm_num
  rw [h, writeVariableLength_natCast]
  decide

theorem hwtTempo : writeTrack ⟨[{ deltaTime := 0, type := .meta,
                                  metaType := some 0x51,
                                  data := some [7, 161, 32] }, eotEvent]⟩ =
    [0, 255, 81, 3, 7, 161, 32, 0, 255, 47, 0] := by
  rw [writeTrack]
  simp only [List.map_cons, List.map_nil, List.flatten_cons, List.flatten_nil,
    List.append_nil, eventBytes, eotEvent]
  rw [wvl_zero]
  norm_num
  rw [wvl_q3, wvl_zero]
  decide

theorem hwtNote : writeTrack ⟨[{ deltaTime := 0, type := .noteOn,
                                 channel := some 0, note := some 60,
                                 velocity := some 0 },
                               { deltaTime := 480, type := .noteOff,
                                 channel := some 0, note := some 60,
                                 velocity := some 0 }, eotEvent]⟩ =
    [0, 144, 60, 0, 131, 96, 128, 60, 0, 0, 255, 47, 0] := by
  rw [writeTrack]
  simp only [List.map_cons, List.map_nil, List.flatten_cons, List.flatten_nil,
    List.append_nil, eventBytes, eotEvent]
  rw [wvl_zero, wvl_480]
  norm_num
  rw [wvl_zero]
  decide

/-- The bytes `write` produces for the velocity-0 counterexample file. -/
def c2bytes : List Nat :=
  [77, 84, 104, 100, 0, 0, 0, 6, 0, 1, 0, 2, 1, 224,
   77, 84, 114, 107, 0, 0, 0, 11, 0, 255, 81, 3, 7, 161, 32, 0, 255, 47, 0,
   77, 84, 114, 107, 0, 0, 0, 13, 0, 144, 60, 0, 131, 96, 128, 60, 0, 0, 255, 47, 0]

theorem c2write : write (sequencerToMidi [⟨0, 60, 0, 1, 0⟩] [] 120 480) = c2bytes := by
  rw [write, c2F0_tracks, sequencerToMidi_format, sequencerToMidi_tpq]
  simp only [List.map_cons, List.map_nil, List.flatten_cons, List.flatten_nil,
    List.append_nil, List.length_cons, List.length_nil]
  rw [hwtTempo, hwtNote]
  decide

/-- What the parser returns on `c2bytes`: the velocity-0 NoteOn has become a
NoteOff. -/
def c2parsed : MidiFile :=
  { format := 1,
    tracks :=
      [⟨[{ deltaTime := 0, type := .meta, metaType := some 81,
           data := some [7, 161, 32] },
         { deltaTime := 0, type := .meta, metaType := some 47, data := some [] }]⟩,
       ⟨[{ deltaTime := 0, type := .noteOff, channel := some 0, note := some 60,
           velocity := some 0 },
         { deltaTime := 480, type := .noteOff, channel := some 0, note := some 60,
           velocity := some 0 },
         { deltaTime := 0, type := .meta, metaType := some 47, data := some [] }]⟩],
    ticksPerQuarter := 480 }

theorem c2parse : parse c2bytes = Except.ok c2parsed := by decide

/-- Counterexample to C2 as stated (velocity range 0–127): the note
`{track 0, pitch 60, start 0, length 1, velocity 0}` converts to a NoteOn
(velocity 0) plus NoteOff pair, but after write/parse the track contains two
NoteOffs and no NoteOn — the multiset of (channel, pitch, absoluteTick)
NoteOn/NoteOff pairs is NOT preserved: the original note track has one
NoteOn-tagged pair, the re-parsed one has none. -/
theorem claim_C2_counterexample :
    ∃ f', parse (write (sequencerToMidi [⟨0, 60, 0, 1, 0⟩] [] 120 480)) =
        Except.ok f' ∧
      (sequencerToMidi [⟨0, 60, 0, 1, 0⟩] [] 120 480).tracks.map
          (fun t => ((trackPairs t).filter (fun p => p.2.2.2)).length) = [0, 1] ∧
      f'.tracks.map
          (fun t => ((trackPairs t).filter (fun p => p.2.2.2)).length) = [0, 0] := by
  refine ⟨c2parsed, ?_, ?_, ?_⟩
  · rw [c2write]
    exact c2parse
  · rw [c2F0_tracks]
    simp [trackPairs, absPairsGo, eotEvent]
  · show c2parsed.tracks.map _ = _
    simp [c2parsed, trackPairs, absPairsGo]

/-- Witness for C2 at a concrete input: one note (track 0, pitch 60, start 0,
length 1, velocity 100), no beats, 120 bpm, 480 ticks per quarter. -/
theorem claim_C2_witness :
    (∀ x ∈ [(⟨0, 60, 0, 1, 100⟩ : SeqNote)], x.track ≤ 15 ∧ x.pitch ≤ 127 ∧
      1 ≤ x.velocity ∧ x.velocity ≤ 127 ∧ 0 ≤ x.start ∧ 0 < x.length ∧
      jsRound ((x.start + x.length) * ((480 : Nat) : ℚ)) ≤ 0x0FFFFFFF) ∧
    parse (write (sequencerToMidi [⟨0, 60, 0, 1, 100⟩] [] 120 480)) =
      Except.ok (sequencerToMidi [⟨0, 60, 0, 1, 100⟩] [] 120 480) := by
  have hn : ∀ x ∈ [(⟨0, 60, 0, 1, 100⟩ : SeqNote)], x.track ≤ 15 ∧ x.pitch ≤ 127 ∧
      1 ≤ x.velocity ∧ x.velocity ≤ 127 ∧ 0 ≤ x.start ∧ 0 < x.length ∧
      jsRound ((x.start + x.length) * ((480 : Nat) : ℚ)) ≤ 0x0FFFFFFF := by
    intro x hx
    simp only [List.mem_singleton] at hx
    subst hx
    refine ⟨by norm_num, by norm_num, by norm_num, by norm_num, by norm_num,
      by norm_num, ?_⟩
    show jsRound (((0 : ℚ) + 1) * ((480 : Nat) : ℚ)) ≤ 0x0FFFFFFF
    rw [jsRound]
    norm_num
  exact ⟨hn, claim_C2 [⟨0, 60, 0, 1, 100⟩] [] 120 480 hn (by simp) ⟨60, rfl⟩
    (by norm_num) (by norm_num) (by norm_num)⟩
